import Mathlib

/-!
# OpenANN: RBM model and MBSGD optimizer

A shallow embedding of `src/RBM.cpp` and `src/MBSGD.cpp`.

Conventions of the embedding.

* `fpt` / `double` values are exact rationals: rounding, overflow, NaN and
  infinities of IEEE arithmetic are not represented.
* An `Eigen::VectorXd` is a list of coefficients; `v(i)` is `coeff v i`, the
  write `v(i) = x` is `List.set`.  A read past the end of a vector (outside
  Eigen's contract) yields `0`; a write past the end changes nothing.
* An `Eigen::MatrixXd` is its shape together with its coefficient function; a
  `1 × n` and an `n × 1` matrix are different matrices.  `M(j, i)` is
  `M.entry j i`; `M(k)` with one index addresses the column-major storage.  The
  coefficient function carries information inside the shape only.
* An operation on whole matrices whose operands do not have the shapes that
  Eigen requires (a product, a sum, an assignment to a `VectorXd`) has no
  result: it is an assertion failure, and undefined behaviour where assertions
  are compiled out.  Such operations return an `Option`, and so do the
  functions of the RBM that execute them; `none` means that the call does not
  return a value.
* `for (int i = 0; i < n; i++)` is a left fold over `List.range n`; a counter
  such as `idx++` is threaded through the fold.
* `unsigned int` and the non-negative `int` sizes `D`, `H`, `K`, `P`, `N` are
  natural numbers; `batchSize`, `batches` and `iteration` are integers.
-/

namespace OpenANN

/-! ## Numeric and Eigen layer -/

/-- Scalar type of the library (`fpt`, `double`). -/
abbrev fpt := ℚ

/-- Dense vector (`Vt`, `Eigen::VectorXd`). -/
abbrev Vt := List fpt

/-- Coefficient read `v(i)`. -/
def coeff (v : Vt) (i : Nat) : fpt := v[i]?.getD 0

/-- Dense matrix (`Eigen::MatrixXd`): shape and coefficients. -/
structure MatrixXd where
  rows : Nat
  cols : Nat
  entry : Nat → Nat → fpt

/-- Coefficient write `M(j, i) = x`. -/
def MatrixXd.set (M : MatrixXd) (j i : Nat) (x : fpt) : MatrixXd :=
  { M with entry := fun j' i' => if j' = j ∧ i' = i then x else M.entry j' i' }

/-- Matrix of the given shape with every coefficient `0`. -/
def MatrixXd.zero (rows cols : Nat) : MatrixXd :=
  { rows := rows, cols := cols, entry := fun _ _ => 0 }

/-- Coefficient read `M(k)` with a single index: coefficient `k` of the
column-major storage, at row `k % rows` of column `k / rows`. -/
def MatrixXd.linear (M : MatrixXd) (k : Nat) : fpt := M.entry (k % M.rows) (k / M.rows)

/-- Coefficient write `M(k) = x` with a single index. -/
def MatrixXd.setLinear (M : MatrixXd) (k : Nat) (x : fpt) : MatrixXd :=
  M.set (k % M.rows) (k / M.rows) x

/-- The transpose `M.transpose()`. -/
def MatrixXd.transpose (M : MatrixXd) : MatrixXd :=
  { rows := M.cols, cols := M.rows, entry := fun j i => M.entry i j }

/-- Matrix product `A * B`.  Eigen requires `A.cols() == B.rows()`. -/
def MatrixXd.mul (A B : MatrixXd) : Option MatrixXd :=
  if A.cols = B.rows then
    some { rows := A.rows, cols := B.cols
           entry := fun j i => ((List.range A.cols).map fun k => A.entry j k * B.entry k i).sum }
  else none

/-- Sum `M + b` of a matrix and a `VectorXd`.  Eigen requires equal shapes, and
`b` has the shape `b.size() × 1`. -/
def MatrixXd.addVector (M : MatrixXd) (b : Vt) : Option MatrixXd :=
  if M.rows = b.length ∧ M.cols = 1 then
    some { M with entry := fun j i => M.entry j i + coeff b j }
  else none

/-- A function applied to every coefficient. -/
def MatrixXd.map (f : fpt → fpt) (M : MatrixXd) : MatrixXd :=
  { M with entry := fun j i => f (M.entry j i) }

/-- Assignment `M = v` of a `VectorXd` to a matrix: `M` becomes the column
`v`. -/
def MatrixXd.ofVector (v : Vt) : MatrixXd :=
  { rows := v.length, cols := 1, entry := fun j _ => coeff v j }

/-- Assignment `v = M` of a matrix to a `VectorXd`.  Eigen requires `M` to have
a single column. -/
def MatrixXd.toVector (M : MatrixXd) : Option Vt :=
  if M.cols = 1 then some ((List.range M.rows).map fun j => M.entry j 0) else none

/-- Coefficient-wise sum `a + b`. -/
def vadd (a b : Vt) : Vt := List.zipWith (· + ·) a b

/-- Coefficient-wise difference `a - b`. -/
def vsub (a b : Vt) : Vt := List.zipWith (· - ·) a b

/-- Scalar multiple `c * a`. -/
def smul (c : fpt) (a : Vt) : Vt := a.map (c * ·)

/-- Unary minus `-a`. -/
def vneg (a : Vt) : Vt := a.map (- ·)

/-- Squared Euclidean norm `a.squaredNorm()`. -/
def squaredNorm (a : Vt) : fpt := (a.map fun x => x * x).sum

/-! ## Collaborators of the RBM that are not part of the sources -/

/-- The `DataSet` interface consumed by the RBM: `samples()` and
`getInstance(n)`. -/
structure DataSet where
  samples : Nat
  getInstance : Nat → Vt

/-- Modelled from the spec: the `RandomNumberGenerator` (missing from the
sources) is a stream of raw draws read at a cursor.  `uniform` holds the values
returned by `generate<double>(0.0, 1.0)`, `normal` those returned by
`sampleNormalDistribution<double>()`, `index` the raw values from which
`generateIndex` derives an index. -/
structure RandomNumberGenerator where
  uniform : Nat → fpt
  normal : Nat → fpt
  index : Nat → Nat
  cursor : Nat

/-- Advance the generator by one draw. -/
def RandomNumberGenerator.next (g : RandomNumberGenerator) : RandomNumberGenerator :=
  { g with cursor := g.cursor + 1 }

/-- Modelled from the spec: `OpenANNException`, whose header is not part of the
sources, is the failure that the caller of an unsupported operation receives;
it carries the message it was constructed with. -/
structure OpenANNException where
  message : String
  deriving DecidableEq, Repr

/-! ## RBM (`src/RBM.cpp`) -/

/-- State of an `RBM` object.  The weights, their statistics and the buffers
`pv`, `v`, `ph`, `h` are `Eigen::MatrixXd` (the getters of `RBM.cpp` return them
as such), the biases and their statistics are `Eigen::VectorXd`.  `logistic`
stands for `activationFunction(LOGISTIC, ·, ·)` applied to one coefficient
(`ActivationFunctions.h` is not part of the sources).  The members used only by
the backpropagation interface (`Wd`, `bhd`, `phd`, `deltas`, `e`, `backprop`)
are left out. -/
structure RBM where
  D : Nat
  H : Nat
  cdN : Nat
  stdDev : fpt
  W : MatrixXd
  posGradW : MatrixXd
  negGradW : MatrixXd
  bv : Vt
  posGradBv : Vt
  negGradBv : Vt
  bh : Vt
  posGradBh : Vt
  negGradBh : Vt
  pv : MatrixXd
  v : MatrixXd
  ph : MatrixXd
  h : MatrixXd
  K : Nat
  params : Vt
  trainSet : DataSet
  rng : RandomNumberGenerator
  logistic : fpt → fpt

namespace RBM

/-- Loop `for (i < n) b(i) = parameters(idx++)` of `setParameters`, on the pair
`(idx, b)`. -/
def fillVector (parameters : Vt) (n : Nat) (st : Nat × Vt) : Nat × Vt :=
  (List.range n).foldl
    (fun st i => (st.1 + 1, st.2.set i (coeff parameters st.1))) st

/-- Inner loop `for (i < D) W(j, i) = parameters(idx++)` of `setParameters`. -/
def fillRow (parameters : Vt) (D j : Nat) (st : Nat × MatrixXd) : Nat × MatrixXd :=
  (List.range D).foldl
    (fun st i => (st.1 + 1, st.2.set j i (coeff parameters st.1))) st

/-- Loop nest `for (j < H) for (i < D) W(j, i) = parameters(idx++)`. -/
def fillMatrix (parameters : Vt) (H D : Nat) (st : Nat × MatrixXd) : Nat × MatrixXd :=
  (List.range H).foldl (fun st j => fillRow parameters D j st) st

/-- `RBM::setParameters`. -/
def setParameters (parameters : Vt) (r : RBM) : RBM :=
  let stW := fillMatrix parameters r.H r.D (0, r.W)
  let stBv := fillVector parameters r.D (stW.1, r.bv)
  let stBh := fillVector parameters r.H (stBv.1, r.bh)
  { r with params := parameters, W := stW.2, bv := stBv.2, bh := stBh.2 }

/-- `RBM::currentParameters`. -/
def currentParameters (r : RBM) : Vt := r.params

/-- `RBM::dimension`. -/
def dimension (r : RBM) : Nat := r.K

/-- `RBM::examples`. -/
def examples (r : RBM) : Nat := r.trainSet.samples

/-- `RBM::providesInitialization`. -/
def providesInitialization (_r : RBM) : Bool := true

/-- Loop `for (k < K) params(k) = rng.sampleNormalDistribution() * stdDev` of
`RBM::initialize`, on the pair `(rng, params)`. -/
def drawParameters (stdDev : fpt) (K : Nat) (st : RandomNumberGenerator × Vt) :
    RandomNumberGenerator × Vt :=
  (List.range K).foldl
    (fun st k => (st.1.next, st.2.set k (st.1.normal st.1.cursor * stdDev))) st

/-- `RBM::initialize()` (spelled `initialise` here, the source's name being a
reserved word). -/
def initialise (r : RBM) : RBM :=
  let st := drawParameters r.stdDev r.K (r.rng, r.params)
  setParameters st.2 { r with rng := st.1, params := st.2 }

/-- Constructor `RBM::RBM(D, H, cdN, stdDev, backprop)`: the members are sized
as in the initializer list, then `initialize()` runs.  The data set is bound
later by `trainingSet(DataSet&)`; until then it is represented by the empty
data set given here. -/
def construct (D H cdN : Nat) (stdDev : fpt) (rng : RandomNumberGenerator)
    (logistic : fpt → fpt) : RBM :=
  initialise
    { D := D, H := H, cdN := cdN, stdDev := stdDev
      W := MatrixXd.zero H D, posGradW := MatrixXd.zero H D, negGradW := MatrixXd.zero H D
      bv := List.replicate D 0, posGradBv := List.replicate D 0
      negGradBv := List.replicate D 0
      bh := List.replicate H 0, posGradBh := List.replicate H 0
      negGradBh := List.replicate H 0
      pv := MatrixXd.zero 1 D, v := MatrixXd.zero 1 D
      ph := MatrixXd.zero 1 H, h := MatrixXd.zero 1 H
      K := D * H + D + H
      params := List.replicate (D * H + D + H) 0
      trainSet := { samples := 0, getInstance := fun _ => [] }
      rng := rng, logistic := logistic }

/-- `RBM::trainingSet(DataSet&)`. -/
def trainingSet (ds : DataSet) (r : RBM) : RBM := { r with trainSet := ds }

/-- `RBM::sampleHgivenV`: `ph = W * v + bh`, the logistic function on every
coefficient of `ph`, then one uniform draw per hidden unit for `h(j)`.  The call
returns when `W * v + bh` is a valid expression, that is, when `v` is a column
of `W.cols()` coefficients (and `bh` has `W.rows()` coefficients). -/
def sampleHgivenV (r : RBM) : Option RBM :=
  ((r.W.mul r.v).bind fun a => a.addVector r.bh).map fun a =>
    let st := (List.range r.H).foldl
      (fun (st : RandomNumberGenerator × MatrixXd) j =>
        (st.1.next,
          st.2.setLinear j
            (if (a.map r.logistic).linear j > st.1.uniform st.1.cursor then 1 else 0)))
      (r.rng, r.h)
    { r with ph := a.map r.logistic, h := st.2, rng := st.1 }

/-- `RBM::sampleVgivenH`: `pv = W.transpose() * h + bv`, the logistic function on
every coefficient of `pv`, then one uniform draw per visible unit for `v(i)`.
The call returns when `W.transpose() * h + bv` is a valid expression, that is,
when `h` is a column of `W.rows()` coefficients (and `bv` has `W.cols()`
coefficients). -/
def sampleVgivenH (r : RBM) : Option RBM :=
  ((r.W.transpose.mul r.h).bind fun a => a.addVector r.bv).map fun a =>
    let st := (List.range r.D).foldl
      (fun (st : RandomNumberGenerator × MatrixXd) i =>
        (st.1.next,
          st.2.setLinear i
            (if (a.map r.logistic).linear i > st.1.uniform st.1.cursor then 1 else 0)))
      (r.rng, r.v)
    { r with pv := a.map r.logistic, v := st.2, rng := st.1 }

/-- `RBM::reality`: `v = trainSet->getInstance(n)` (a `VectorXd`),
`sampleHgivenV()`, then `posGradW = ph * v.transpose()`, `posGradBv = v`,
`posGradBh = ph`. -/
def reality (n : Nat) (r : RBM) : Option RBM :=
  (sampleHgivenV { r with v := MatrixXd.ofVector (r.trainSet.getInstance n) }).bind fun r =>
  (r.ph.mul r.v.transpose).bind fun posGradW =>
  r.v.toVector.bind fun posGradBv =>
  r.ph.toVector.map fun posGradBh =>
    { r with posGradW := posGradW, posGradBv := posGradBv, posGradBh := posGradBh }

/-- Loop `for (n < cdN) { sampleVgivenH(); sampleHgivenV(); }` of
`RBM::daydream`. -/
def gibbsSteps (cdN : Nat) (r : RBM) : Option RBM :=
  (List.range cdN).foldlM (fun r _ => (sampleVgivenH r).bind sampleHgivenV) r

/-- `RBM::daydream`: the sampling loop, then `negGradW = ph * pv.transpose()`,
`negGradBv = pv`, `negGradBh = ph`. -/
def daydream (r : RBM) : Option RBM :=
  (gibbsSteps r.cdN r).bind fun r =>
  (r.ph.mul r.pv.transpose).bind fun negGradW =>
  r.pv.toVector.bind fun negGradBv =>
  r.ph.toVector.map fun negGradBh =>
    { r with negGradW := negGradW, negGradBv := negGradBv, negGradBh := negGradBh }

/-- Loop `for (i < n) gradient(idx++) = f(i)` of `gradient(unsigned int)`, on the
pair `(idx, gradient)`. -/
def storeVector (f : Nat → fpt) (n : Nat) (st : Nat × Vt) : Nat × Vt :=
  (List.range n).foldl (fun st i => (st.1 + 1, st.2.set st.1 (f i))) st

/-- Loop nest `for (j < H) for (i < D) gradient(idx++) = f(j, i)`. -/
def storeMatrix (f : Nat → Nat → fpt) (H D : Nat) (st : Nat × Vt) : Nat × Vt :=
  (List.range H).foldl (fun st j => storeVector (f j) D st) st

/-- The part of `RBM::gradient(unsigned int i)` that follows `reality(i)` and
`daydream()`: the vector it returns, computed from the recorded statistics.  The
fresh vector `gradient(dimension())` starts with zero entries here; the three
loops overwrite positions `0, 1, 2, …` in turn. -/
def gradientVector (r : RBM) : Vt :=
  let g0 : Vt := List.replicate (dimension r) 0
  let s1 := storeMatrix (fun j i => r.posGradW.entry j i - r.negGradW.entry j i) r.H r.D (0, g0)
  let s2 := storeVector (fun i => coeff r.posGradBv i - coeff r.negGradBv i) r.D s1
  let s3 := storeVector (fun j => coeff r.posGradBh j - coeff r.negGradBh j) r.H s2
  vneg s3.2

/-- `RBM::gradient(unsigned int i)`: the returned vector and the state the call
leaves behind, when `reality(i)` and `daydream()` return. -/
def gradient (i : Nat) (r : RBM) : Option (Vt × RBM) :=
  (reality i r).bind fun r => (daydream r).map fun r => (gradientVector r, r)

/-- `RBM::providesHessian`. -/
def providesHessian (_r : RBM) : Bool := false

/-- `RBM::hessian`: the body is a single `throw`.  The error value holds the
exception and the state of the RBM when it is thrown. -/
def hessian (r : RBM) : Except (OpenANNException × RBM) (MatrixXd × RBM) :=
  Except.error ({ message := "RBM::hessian() is not implemented!" }, r)

/-- `RBM::trainingSet(Eigen::MatrixXd&, Eigen::MatrixXd&)`: the body is a single
`throw`.  The error value holds the exception and the state of the RBM when it
is thrown. -/
def trainingSetMatrices (_trainingInput _trainingOutput : MatrixXd) (r : RBM) :
    Except (OpenANNException × RBM) RBM :=
  Except.error ({ message := "RBM::trainingSet(input, output) is not implemented!" }, r)

/-- A place of the RBM that `setParameters` writes: a weight, a visible bias or
a hidden bias. -/
inductive Slot where
  | weight (j i : Nat)
  | visibleBias (i : Nat)
  | hiddenBias (j : Nat)
  deriving DecidableEq, Repr

/-- The slot exists in an RBM with `D` visible and `H` hidden units. -/
def Slot.valid (D H : Nat) : Slot → Prop
  | .weight j i => j < H ∧ i < D
  | .visibleBias i => i < D
  | .hiddenBias j => j < H

/-- Position of the slot in the flat vector, as the claimed layout has it:
weights row by row, then the visible biases, then the hidden biases. -/
def Slot.index (D H : Nat) : Slot → Nat
  | .weight j i => j * D + i
  | .visibleBias i => H * D + i
  | .hiddenBias j => H * D + D + j

/-- Sizes fixed by the constructor's initializer list. -/
structure Sized (r : RBM) : Prop where
  K_eq : r.K = r.D * r.H + r.D + r.H
  bv_length : r.bv.length = r.D
  bh_length : r.bh.length = r.H

/-- Shapes that the constructor's initializer list gives to the weight matrix
(`W(H, D)`) and to the hidden states (`h(1, H)`); no function of `RBM.cpp`
assigns to `W` or to `h` as a whole, they are written one coefficient at a
time. -/
structure Shaped (r : RBM) : Prop where
  W_rows : r.W.rows = r.H
  W_cols : r.W.cols = r.D
  h_rows : r.h.rows = 1
  h_cols : r.h.cols = r.H

/-- What `sampleHgivenV` and `sampleVgivenH` leave alone in going from `r` to
`r'`: the sizes, the parameters, the data set, the logistic function, the
positive statistics, the shape of `h` and the stream of uniform draws (only the
cursor moves). -/
structure Frame (r r' : RBM) : Prop where
  D : r'.D = r.D
  H : r'.H = r.H
  cdN : r'.cdN = r.cdN
  K : r'.K = r.K
  W : r'.W = r.W
  bv : r'.bv = r.bv
  bh : r'.bh = r.bh
  params : r'.params = r.params
  trainSet : r'.trainSet = r.trainSet
  logistic : r'.logistic = r.logistic
  posGradW : r'.posGradW = r.posGradW
  posGradBv : r'.posGradBv = r.posGradBv
  posGradBh : r'.posGradBh = r.posGradBh
  h_rows : r'.h.rows = r.h.rows
  h_cols : r'.h.cols = r.h.cols
  uniform : r'.rng.uniform = r.rng.uniform

end RBM

/-! ## IDXLoader (`benchmarks/mnist/IDXLoader.h`)

The pixel and label loops of `IDXLoader::load`.  The header fields (`images`,
`rows`, `cols`, `items`) and the members `padToX`, `padToY` are parameters; a
stream is positioned behind its header. -/

namespace IDXLoader

/-- A binary file stream (`std::fstream`): the bytes of the file and the read
position. -/
structure Stream where
  bytes : Nat → Fin 256
  pos : Nat

/-- The private `read(stream, t)` for a one-byte `t` (`unsigned char tmp`): one
byte is read and `t = 255 - t` is applied (`sizeof(t) == 1`). -/
def read (s : Stream) : Nat × Stream :=
  (255 - (s.bytes s.pos).val, { s with pos := s.pos + 1 })

/-- The local `colNumber = padToX > cols ? padToX : cols`. -/
def colNumber (padToX cols : Nat) : Nat := if padToX > cols then padToX else cols

/-- The column count of `input`: `D = rows * cols`, raised to `padToX * padToY`
when that is larger. -/
def inputColumns (rows cols padToX padToY : Nat) : Nat :=
  if rows * cols < padToX * padToY then padToX * padToY else rows * cols

/-- Loop `for (; c < cols; c++)` of image `n`, row `r`: a byte is read and
`input(n, r * colNumber + c) = 1.0 - value / 255.0` is stored. -/
def loadPixels (n r cols cn : Nat) (st : Stream × MatrixXd) : Stream × MatrixXd :=
  (List.range cols).foldl
    (fun st c => ((read st.1).2, st.2.set n (r * cn + c) (1 - ((read st.1).1 : fpt) / 255))) st

/-- Loop `for (; c < padToX; c++)` that follows, with `c` starting at `cols` and
`lastC = cols - 1`: the last pixel of the row is replicated. -/
def padRow (n r cols padToX cn : Nat) (input : MatrixXd) : MatrixXd :=
  (List.range' cols (padToX - cols)).foldl
    (fun M c => M.set n (r * cn + c) (M.entry n (r * cn + cols - 1))) input

/-- Loop `for (; r < rows; r++)` of image `n`. -/
def loadRows (n rows cols padToX cn : Nat) (st : Stream × MatrixXd) : Stream × MatrixXd :=
  (List.range rows).foldl
    (fun st r => ((loadPixels n r cols cn st).1, padRow n r cols padToX cn (loadPixels n r cols cn st).2))
    st

/-- Loop `for (; r < padToY; r++)` that follows, with `r` starting at `rows` and
`lastR = rows - 1`: the last row is replicated. -/
def padRows (n rows padToX padToY cn : Nat) (input : MatrixXd) : MatrixXd :=
  (List.range' rows (padToY - rows)).foldl
    (fun M r => (List.range padToX).foldl
      (fun M c => M.set n (r * cn + c) (M.entry n ((rows - 1) * cn + c))) M) input

/-- Body of the loop `for (n < N)` over the images. -/
def loadImage (rows cols padToX padToY : Nat) (st : Stream × MatrixXd) (n : Nat) :
    Stream × MatrixXd :=
  let cn := colNumber padToX cols
  let st := loadRows n rows cols padToX cn st
  (st.1, padRows n rows padToX padToY cn st.2)

/-- The image part of `load`: `input.resize(N, D)` and the loop over the
images. -/
def loadInput (N rows cols padToX padToY : Nat) (s : Stream) : Stream × MatrixXd :=
  (List.range N).foldl (loadImage rows cols padToX padToY)
    (s, MatrixXd.zero N (inputColumns rows cols padToX padToY))

/-- Loop `for (c < F)` of label `n`:
`output(n, c) = (255 - (int) tmp) == c ? 1.0 : 0.0`. -/
def loadLabelRow (n F tmp : Nat) (output : MatrixXd) : MatrixXd :=
  (List.range F).foldl (fun M c => M.set n c (if 255 - tmp = c then 1 else 0)) output

/-- Loop `for (n < N)` over the labels: a byte is read, then row `n` is
written. -/
def loadLabels (N : Nat) (st : Stream × MatrixXd) : Stream × MatrixXd :=
  (List.range N).foldl
    (fun st n => ((read st.1).2, loadLabelRow n 10 (read st.1).1 st.2)) st

/-- The label part of `load`: `F = 10`, `output.resize(N, F)` and the loop over
the labels. -/
def loadOutput (N : Nat) (s : Stream) : Stream × MatrixXd :=
  loadLabels N (s, MatrixXd.zero N 10)

end IDXLoader

/-! ## Collaborators of the optimizer that are not part of the sources -/

/-- The `Optimizable` interface as `MBSGD` uses it.  `σ` is the state of the
bound object; the member functions that may change it return the new state. -/
structure Optimizable (σ : Type) where
  providesInitialization : σ → Bool
  dimension : σ → Nat
  examples : σ → Nat
  currentParameters : σ → Vt
  setParameters : Vt → σ → σ
  gradient : Nat → σ → Vt × σ
  finishedIteration : σ → σ

/-- The members of `StoppingCriteria` that `MBSGD::step` reads.  The constant
`StoppingCriteria::defaultValue` is a parameter `dv` of `step`. -/
structure StoppingCriteria where
  maximalFunctionEvaluations : Int
  maximalIterations : Int
  minimalSearchSpaceStep : fpt

/-- Modelled from the spec: `RandomNumberGenerator::generateIndex(n)`, a
"uniform discrete index in [0, n)": the raw draw reduced modulo `n`.  There is
no such index when `n ≤ 0`. -/
def RandomNumberGenerator.generateIndex (g : RandomNumberGenerator) (n : Int) :
    Option (Nat × RandomNumberGenerator) :=
  if n ≤ 0 then none else some (g.index g.cursor % n.toNat, g.next)

/-- Result of `a.norm() >= t`.  The Euclidean norm is the non-negative square
root of `squaredNorm a`, so the comparison holds exactly when `t ≤ 0` or
`t * t ≤ squaredNorm a`. -/
def normGe (a : Vt) (t : fpt) : Bool := decide (t ≤ 0 ∨ t * t ≤ squaredNorm a)

/-- `std::vector::resize(n)` on a vector of lists: truncate, or pad with empty
lists. -/
def resize (l : List (List Nat)) (n : Nat) : List (List Nat) :=
  l.take n ++ List.replicate (n - l.length) []

/-! ## MBSGD (`src/MBSGD.cpp`) -/

/-- State of an `MBSGD` object together with the object `opt` points to. -/
structure MBSGD (σ : Type) where
  alpha : fpt
  alphaDecay : fpt
  minAlpha : fpt
  eta : fpt
  etaGain : fpt
  maxEta : fpt
  batchSize : Int
  minGain : fpt
  maxGain : fpt
  useGain : Bool
  iteration : Int
  opt : σ
  stop : StoppingCriteria
  P : Nat
  N : Nat
  batches : Int
  gradient : Vt
  gains : Vt
  parameters : Vt
  momentum : Vt
  optimum : Vt
  batchAssignment : List (List Nat)
  rng : RandomNumberGenerator

namespace MBSGD

variable {σ : Type}

/-- Constructor `MBSGD::MBSGD(...)` followed by `setOptimizable(opt)` and
`setStopCriteria(stop)`.  The members that the constructor leaves
unset (`P`, `N`, `batches`) are given as `0`; the vectors are empty. -/
def construct (learningRate learningRateDecay minimalLearningRate momentum momentumGain
    maximalMomentum : fpt) (batchSize : Int) (minGain maxGain : fpt)
    (opt : σ) (stop : StoppingCriteria) (rng : RandomNumberGenerator) : MBSGD σ :=
  { alpha := learningRate, alphaDecay := learningRateDecay, minAlpha := minimalLearningRate
    eta := momentum, etaGain := momentumGain, maxEta := maximalMomentum
    batchSize := batchSize, minGain := minGain, maxGain := maxGain
    useGain := decide (minGain ≠ 1 ∨ maxGain ≠ 1)
    iteration := -1
    opt := opt, stop := stop
    P := 0, N := 0, batches := 0
    gradient := [], gains := [], parameters := [], momentum := [], optimum := []
    batchAssignment := [], rng := rng }

/-- `MBSGD::initialize` (spelled `initialise` here, the source's name being a
reserved word).  Fails on the integer division by `batchSize = 0` and when
`batchAssignment.resize(batches)` is asked for a negative size. -/
def initialise (O : Optimizable σ) (s : MBSGD σ) : Option (MBSGD σ) :=
  if s.batchSize = 0 then none
  else
    let P := O.dimension s.opt
    let N := O.examples s.opt
    let batches := Int.tdiv (N : Int) s.batchSize
    if batches < 0 then none
    else
      some { s with
        P := P, N := N, batches := batches
        gradient := List.replicate P 0
        gains := List.replicate P 1
        parameters := O.currentParameters s.opt
        momentum := List.replicate P 0
        batchAssignment := resize s.batchAssignment batches.toNat
        iteration := 0 }

/-- Loop `for (n < N) batchAssignment[rng.generateIndex(batches)].push_back(n)`,
on the pair `(rng, batchAssignment)`. -/
def assign (batches : Int) (N : Nat) (st : RandomNumberGenerator × List (List Nat)) :
    Option (RandomNumberGenerator × List (List Nat)) :=
  (List.range N).foldlM
    (fun st n => (st.1.generateIndex batches).map fun d =>
      (d.2, List.modify (fun l => l ++ [n]) d.1 st.2)) st

/-- First part of `step`: `OPENANN_CHECK(opt->providesInitialization())`, the
lazy `initialize()`, and the assignment loop.  It does not return when the
check fails, when `initialize()` fails, or when an example has no bin to go to
(`batches ≤ 0`). -/
def assignPhase (O : Optimizable σ) (s : MBSGD σ) : Option (MBSGD σ) :=
  if O.providesInitialization s.opt then
    (if s.iteration < 0 then initialise O s else some s).bind fun s =>
      (assign s.batches s.N (s.rng, s.batchAssignment)).map fun st =>
        { s with rng := st.1, batchAssignment := st.2 }
  else none

/-- Loop `for (it in batchAssignment[b]) gradient += opt->gradient(*it)`, on the
pair `(gradient, state of opt)`. -/
def sumGradients (O : Optimizable σ) (indices : List Nat) (st : Vt × σ) : Vt × σ :=
  indices.foldl (fun st i => (vadd st.1 (O.gradient i st.2).1, (O.gradient i st.2).2)) st

/-- The aggregated gradient of batch `b`: `gradient.fill(0.0)`, the sum over
the batch, `gradient /= (fpt) batchSize`. -/
def aggregate (O : Optimizable σ) (s : MBSGD σ) (b : Nat) : Vt × σ :=
  let st := sumGradients O (s.batchAssignment.getD b []) (s.gradient.map fun _ => 0, s.opt)
  (st.1.map fun x => x / (s.batchSize : fpt), st.2)

/-- Body of the loop `for (p < P)` in the `useGain` branch, on the pair
`(gains, gradient)`. -/
def adaptGain (minGain maxGain : fpt) (momentum : Vt) (st : Vt × Vt) (p : Nat) : Vt × Vt :=
  let gains :=
    if coeff momentum p * coeff st.2 p ≥ 0 then st.1.set p (coeff st.1 p + 0.05)
    else st.1.set p (coeff st.1 p * 0.95)
  let gains := gains.set p (min maxGain (max minGain (coeff gains p)))
  (gains, st.2.set p (coeff st.2 p * coeff gains p))

/-- Body of the loop `for (b < batches)` of `step`. -/
def processBatch (O : Optimizable σ) (s : MBSGD σ) (b : Nat) : MBSGD σ :=
  let agg := aggregate O s b
  let batchAssignment := s.batchAssignment.set b []
  let gg : Vt × Vt :=
    if s.useGain then
      (List.range s.P).foldl (adaptGain s.minGain s.maxGain s.momentum) (s.gains, agg.1)
    else (s.gains, agg.1)
  let momentum := vsub (smul s.eta s.momentum) (smul s.alpha gg.2)
  let parameters := vadd s.parameters momentum
  let opt := O.setParameters parameters agg.2
  let alpha := max (s.alpha * s.alphaDecay) s.minAlpha
  let eta := min (s.eta + s.etaGain) s.maxEta
  { s with
    gradient := gg.2, gains := gg.1, batchAssignment := batchAssignment
    momentum := momentum, parameters := parameters, opt := opt
    alpha := alpha, eta := eta }

/-- The first `k` iterations of the loop `for (b < batches)`. -/
def batchLoop (O : Optimizable σ) (k : Nat) (s : MBSGD σ) : MBSGD σ :=
  (List.range k).foldl (processBatch O) s

/-- Last part of `step`: `iteration++`, `finishedIteration()`, the stopping
test and the reset of `iteration`. -/
def finish (O : Optimizable σ) (dv : StoppingCriteria) (s : MBSGD σ) : Bool × MBSGD σ :=
  let s := { s with iteration := s.iteration + 1, opt := O.finishedIteration s.opt }
  let run : Bool :=
    (decide (s.stop.maximalIterations = dv.maximalFunctionEvaluations) ||
      decide (s.iteration ≤ s.stop.maximalIterations)) &&
    (decide (s.stop.minimalSearchSpaceStep = dv.minimalSearchSpaceStep) ||
      normGe s.momentum s.stop.minimalSearchSpaceStep)
  (run, if run then s else { s with iteration := -1 })

/-- `MBSGD::step`: the returned flag and the state after the call; `none` when
the call does not return. -/
def step (O : Optimizable σ) (dv : StoppingCriteria) (s : MBSGD σ) : Option (Bool × MBSGD σ) :=
  (assignPhase O s).map fun a => finish O dv (batchLoop O a.batches.toNat a)

/-- `MBSGD::result`. -/
def result (s : MBSGD σ) : Vt := s.optimum

/-- The state after `n` consecutive calls of `step`, whatever they returned. -/
def steps (O : Optimizable σ) (dv : StoppingCriteria) : Nat → MBSGD σ → Option (MBSGD σ)
  | 0, s => some s
  | n + 1, s => (steps O dv n s).bind fun t => (step O dv t).map Prod.snd

/-! ### Notions used to state the properties of `step` -/

/-- The constructor arguments and stopping criteria of `t` are those of `s`. -/
structure SameConfig (s t : MBSGD σ) : Prop where
  alphaDecay : t.alphaDecay = s.alphaDecay
  minAlpha : t.minAlpha = s.minAlpha
  etaGain : t.etaGain = s.etaGain
  maxEta : t.maxEta = s.maxEta
  batchSize : t.batchSize = s.batchSize
  minGain : t.minGain = s.minGain
  maxGain : t.maxGain = s.maxGain
  useGain : t.useGain = s.useGain
  stop : t.stop = s.stop

/-- Facts about the gain vector that every state reached from a constructed
optimizer satisfies. -/
structure GainInv (s : MBSGD σ) : Prop where
  length : s.gains.length = s.P
  flag : s.useGain = decide (s.minGain ≠ 1 ∨ s.maxGain ≠ 1)
  ones : s.useGain = false → s.gains = List.replicate s.P 1
  within : s.minGain ≤ 1 → 1 ≤ s.maxGain → ∀ x ∈ s.gains, s.minGain ≤ x ∧ x ≤ s.maxGain

/-- The iteration counter as `step` sees it after the lazy initialization: `0`
for an uninitialized optimizer. -/
def iterationBefore (s : MBSGD σ) : Int := if s.iteration < 0 then 0 else s.iteration

/-- Facts about the batch lists that hold between two calls of `step` on an
optimizer reached from a constructed one: every list is empty, and while a run
is in progress there are `batches` lists, `batches` is the quotient computed by
`initialize()`, and the assignment loop has a bin to draw. -/
structure RunInv (s : MBSGD σ) : Prop where
  empty : ∀ l ∈ s.batchAssignment, l = []
  length : 0 ≤ s.iteration → s.batchAssignment.length = s.batches.toNat
  quotient : 0 ≤ s.iteration → s.batches = Int.tdiv (s.N : Int) s.batchSize
  drawable : 0 ≤ s.iteration → 0 < s.batches ∨ s.N = 0
  counter : s.iteration = -1 ∨ 0 ≤ s.iteration

/-- The number of examples that the coming `step` works with: read from the
model when the step begins with `initialize()`, else the stored `N`. -/
def examplesAtStep (O : Optimizable σ) (s : MBSGD σ) : Nat :=
  if s.iteration < 0 then O.examples s.opt else s.N

/-- The vectors that the model returns when `gradient` is called for the
examples of `indices` in turn, the first call being made in state `m`. -/
def gradientsOf (O : Optimizable σ) : List Nat → σ → List Vt
  | [], _ => []
  | i :: rest, m => (O.gradient i m).1 :: gradientsOf O rest (O.gradient i m).2

/-- The state of the model after those calls. -/
def afterGradients (O : Optimizable σ) : List Nat → σ → σ
  | [], m => m
  | i :: rest, m => afterGradients O rest (O.gradient i m).2

/-- The optimizer holds the parameters that the model reports. -/
def Synchronised (O : Optimizable σ) (s : MBSGD σ) : Prop :=
  s.parameters = O.currentParameters s.opt

end MBSGD

/-- The RBM as the optimizer sees it.  `RBM.cpp` does not define
`finishedIteration`; the inherited one is taken to do nothing.  The interface
has no place for a call of `gradient` that does not return: here such a call
stands as the empty vector and the unchanged RBM.  It does not occur on an RBM
with one hidden unit, at least one CD step and examples of `D` entries, where
`RBM.gradient` returns. -/
def RBM.optimizable : Optimizable RBM :=
  { providesInitialization := RBM.providesInitialization
    dimension := RBM.dimension
    examples := RBM.examples
    currentParameters := RBM.currentParameters
    setParameters := RBM.setParameters
    gradient := fun i r => (RBM.gradient i r).getD ([], r)
    finishedIteration := fun r => r }

/-! ## Concrete objects used to exercise the definitions -/

namespace Example

/-- A model with `K` parameters and `N` examples whose gradient is the constant
vector `(g, …, g)` for every example; its state is its parameter vector. -/
def constModel (K N : Nat) (g : fpt) : Optimizable Vt :=
  { providesInitialization := fun _ => true
    dimension := fun _ => K
    examples := fun _ => N
    currentParameters := fun m => m
    setParameters := fun p _ => p
    gradient := fun _ m => (List.replicate K g, m)
    finishedIteration := fun m => m }

/-- A generator whose every raw draw is `0`. -/
def zeroRng : RandomNumberGenerator :=
  { uniform := fun _ => 0, normal := fun _ => 0, index := fun _ => 0, cursor := 0 }

/-- A value for `StoppingCriteria::defaultValue`. -/
def defaults : StoppingCriteria :=
  { maximalFunctionEvaluations := -1, maximalIterations := -1, minimalSearchSpaceStep := 0 }

/-- An RBM with two visible units and one hidden unit, bound to a data set of
four examples. -/
def rbm : RBM :=
  RBM.trainingSet { samples := 4, getInstance := fun _ => [1, 0] }
    (RBM.construct 2 1 1 1 zeroRng fun _ => 1 / 2)

/-- The RBM with one visible and one hidden unit and one CD step, with weight,
visible bias and hidden bias set to `0`, bound to the data set `ds`. -/
def trivialRBM (stdDev : fpt) (rng : RandomNumberGenerator) (logistic : fpt → fpt)
    (ds : DataSet) : RBM :=
  RBM.trainingSet ds (RBM.setParameters [0, 0, 0] (RBM.construct 1 1 1 stdDev rng logistic))

/-- A file stream, at position `0`, all of whose bytes are `b`. -/
def constStream (b : Fin 256) : IDXLoader.Stream := { bytes := fun _ => b, pos := 0 }

/-- Stopping criteria with `maximalIterations = 5` and the step-size threshold
at the value of `defaults`. -/
def fiveIterations : StoppingCriteria :=
  { maximalFunctionEvaluations := -1, maximalIterations := 5, minimalSearchSpaceStep := 0 }

/-- Stopping criteria with `maximalIterations = 0`: the first step ends the
run. -/
def noIterations : StoppingCriteria :=
  { maximalFunctionEvaluations := -1, maximalIterations := 0, minimalSearchSpaceStep := 0 }

end Example

namespace RBM

/-! ## Lemmas on `setParameters` -/

theorem fillVector_succ (p : Vt) (n : Nat) (st : Nat × Vt) :
    fillVector p (n + 1) st =
      ((fillVector p n st).1 + 1, (fillVector p n st).2.set n (coeff p (fillVector p n st).1)) := by
  simp [fillVector, List.range_succ, List.foldl_append]

theorem fillVector_fst (p : Vt) (n : Nat) (st : Nat × Vt) :
    (fillVector p n st).1 = st.1 + n := by
  induction n with
  | zero => simp [fillVector]
  | succ n ih => rw [fillVector_succ]; simp [ih]; omega

theorem fillVector_length (p : Vt) (n : Nat) (st : Nat × Vt) :
    (fillVector p n st).2.length = st.2.length := by
  induction n with
  | zero => simp [fillVector]
  | succ n ih => rw [fillVector_succ]; simp [ih]

theorem fillVector_getElem? (p : Vt) (n : Nat) (st : Nat × Vt) (i : Nat) :
    (fillVector p n st).2[i]? =
      if i < n ∧ i < st.2.length then some (coeff p (st.1 + i)) else st.2[i]? := by
  induction n with
  | zero => simp [fillVector]
  | succ n ih =>
    rw [fillVector_succ]
    simp only [List.getElem?_set, fillVector_length, fillVector_fst, ih]
    by_cases h1 : n = i
    · subst h1
      by_cases h2 : n < st.2.length
      · simp [h2]
      · simp [h2]; omega
    · simp only [h1, if_false]
      by_cases h3 : i < n
      · have : i < n + 1 := by omega
        simp [h3, this]
      · have : ¬ i < n + 1 := by omega
        simp [h3, this]

theorem fillRow_succ (p : Vt) (D j : Nat) (st : Nat × MatrixXd) :
    fillRow p (D + 1) j st =
      ((fillRow p D j st).1 + 1, (fillRow p D j st).2.set j D (coeff p (fillRow p D j st).1)) := by
  simp [fillRow, List.range_succ, List.foldl_append]

theorem fillRow_fst (p : Vt) (D j : Nat) (st : Nat × MatrixXd) :
    (fillRow p D j st).1 = st.1 + D := by
  induction D with
  | zero => simp [fillRow]
  | succ n ih => rw [fillRow_succ]; simp [ih]; omega

theorem fillRow_shape (p : Vt) (D j : Nat) (st : Nat × MatrixXd) :
    (fillRow p D j st).2.rows = st.2.rows ∧ (fillRow p D j st).2.cols = st.2.cols := by
  induction D with
  | zero => simp [fillRow]
  | succ n ih => rw [fillRow_succ]; simpa [MatrixXd.set] using ih

theorem fillRow_entry (p : Vt) (D j : Nat) (st : Nat × MatrixXd) (j' i' : Nat) :
    (fillRow p D j st).2.entry j' i' =
      if j' = j ∧ i' < D then coeff p (st.1 + i') else st.2.entry j' i' := by
  induction D with
  | zero => simp [fillRow]
  | succ n ih =>
    rw [fillRow_succ]
    simp only [MatrixXd.set, fillRow_fst, ih]
    by_cases h1 : j' = j
    · by_cases h2 : i' = n
      · subst h2; simp [h1]
      · by_cases h3 : i' < n
        · have : i' < n + 1 := by omega
          simp [h1, h2, h3, this]
        · have : ¬ i' < n + 1 := by omega
          simp [h1, h2, h3, this]
    · simp [h1]

theorem fillMatrix_succ (p : Vt) (H D : Nat) (st : Nat × MatrixXd) :
    fillMatrix p (H + 1) D st = fillRow p D H (fillMatrix p H D st) := by
  simp [fillMatrix, List.range_succ, List.foldl_append]

theorem fillMatrix_fst (p : Vt) (H D : Nat) (st : Nat × MatrixXd) :
    (fillMatrix p H D st).1 = st.1 + H * D := by
  induction H with
  | zero => simp [fillMatrix]
  | succ n ih => rw [fillMatrix_succ, fillRow_fst, ih]; ring

theorem fillMatrix_shape (p : Vt) (H D : Nat) (st : Nat × MatrixXd) :
    (fillMatrix p H D st).2.rows = st.2.rows ∧ (fillMatrix p H D st).2.cols = st.2.cols := by
  induction H with
  | zero => simp [fillMatrix]
  | succ n ih =>
    rw [fillMatrix_succ]
    exact ⟨(fillRow_shape _ _ _ _).1.trans ih.1, (fillRow_shape _ _ _ _).2.trans ih.2⟩

theorem fillMatrix_entry (p : Vt) (H D : Nat) (st : Nat × MatrixXd) (j' i' : Nat) :
    (fillMatrix p H D st).2.entry j' i' =
      if j' < H ∧ i' < D then coeff p (st.1 + j' * D + i') else st.2.entry j' i' := by
  induction H with
  | zero => simp [fillMatrix]
  | succ n ih =>
    rw [fillMatrix_succ, fillRow_entry, fillMatrix_fst, ih]
    by_cases h1 : j' = n
    · subst h1
      by_cases h2 : i' < D
      · simp [h2]
      · simp [h2]
    · by_cases h3 : j' < n
      · have : j' < n + 1 := by omega
        simp [h1, h3, this]
      · have : ¬ j' < n + 1 := by omega
        simp [h1, h3, this]


theorem fillVector_idem (p : Vt) (n k : Nat) (b : Vt) :
    (fillVector p n (k, (fillVector p n (k, b)).2)).2 = (fillVector p n (k, b)).2 := by
  apply List.ext_getElem?
  intro i
  rw [fillVector_getElem?]
  simp only [fillVector_length]
  rw [fillVector_getElem?]
  split <;> rfl

theorem fillMatrix_idem (p : Vt) (H D k : Nat) (W : MatrixXd) :
    (fillMatrix p H D (k, (fillMatrix p H D (k, W)).2)).2 = (fillMatrix p H D (k, W)).2 := by
  have hs := fillMatrix_shape p H D (k, (fillMatrix p H D (k, W)).2)
  have he : (fillMatrix p H D (k, (fillMatrix p H D (k, W)).2)).2.entry
      = (fillMatrix p H D (k, W)).2.entry := by
    funext j i
    rw [fillMatrix_entry]
    simp only []
    rw [fillMatrix_entry]
    split <;> rfl
  generalize fillMatrix p H D (k, (fillMatrix p H D (k, W)).2) = a at hs he
  generalize fillMatrix p H D (k, W) = b at hs he
  obtain ⟨a1, ⟨ar, ac, ae⟩⟩ := a
  obtain ⟨b1, ⟨br, bc, be⟩⟩ := b
  simp only at hs he
  simp [hs.1, hs.2, he]

theorem setParameters_idem (p : Vt) (r : RBM) :
    setParameters p (setParameters p r) = setParameters p r := by
  simp only [setParameters, fillMatrix_fst, fillVector_fst, fillMatrix_idem, fillVector_idem]

theorem slot_unique (D H k : Nat) (hk : k < D * H + D + H) :
    ∃! t : Slot, t.valid D H ∧ t.index D H = k := by
  by_cases h1 : k < H * D
  · have hD : 0 < D := by
      rcases Nat.eq_zero_or_pos D with h | h
      · subst h; simp at h1
      · exact h
    refine ⟨.weight (k / D) (k % D), ⟨⟨?_, Nat.mod_lt _ hD⟩, ?_⟩, ?_⟩
    · exact (Nat.div_lt_iff_lt_mul hD).2 h1
    · simp only [Slot.index]; exact Nat.div_add_mod' k D
    · rintro t ⟨hv, hi⟩
      cases t with
      | weight j i =>
        simp only [Slot.valid, Slot.index] at hv hi
        have hj : k / D = j := by
          rw [← hi, Nat.add_comm, Nat.add_mul_div_right _ _ hD, Nat.div_eq_of_lt hv.2, Nat.zero_add]
        have hi' : k % D = i := by
          rw [← hi, Nat.add_comm, Nat.add_mul_mod_self_right, Nat.mod_eq_of_lt hv.2]
        rw [hj, hi']
      | visibleBias i => simp only [Slot.index] at hi; omega
      | hiddenBias j => simp only [Slot.index] at hi; omega
  · have hHD : H * D = D * H := Nat.mul_comm _ _
    by_cases h2 : k < H * D + D
    · refine ⟨.visibleBias (k - H * D), ⟨?_, ?_⟩, ?_⟩
      · simp only [Slot.valid]; omega
      · simp only [Slot.index]; omega
      · rintro t ⟨hv, hi⟩
        cases t with
        | weight j i =>
          simp only [Slot.valid, Slot.index] at hv hi
          have : j * D + i < H * D := by
            calc j * D + i < j * D + D := by omega
              _ = (j + 1) * D := by ring
              _ ≤ H * D := Nat.mul_le_mul_right _ hv.1
          omega
        | visibleBias i => simp only [Slot.index] at hi; congr 1; omega
        | hiddenBias j => simp only [Slot.index] at hi; omega
    · refine ⟨.hiddenBias (k - (H * D + D)), ⟨?_, ?_⟩, ?_⟩
      · simp only [Slot.valid]; omega
      · simp only [Slot.index]; omega
      · rintro t ⟨hv, hi⟩
        cases t with
        | weight j i =>
          simp only [Slot.valid, Slot.index] at hv hi
          have : j * D + i < H * D := by
            calc j * D + i < j * D + D := by omega
              _ = (j + 1) * D := by ring
              _ ≤ H * D := Nat.mul_le_mul_right _ hv.1
          omega
        | visibleBias i => simp only [Slot.valid, Slot.index] at hv hi; omega
        | hiddenBias j => simp only [Slot.index] at hi; congr 1; omega

theorem setParameters_sized (p : Vt) (r : RBM) (hs : r.Sized) : (setParameters p r).Sized := by
  refine ⟨?_, ?_, ?_⟩
  · simpa [setParameters] using hs.K_eq
  · simpa [setParameters, fillVector_length] using hs.bv_length
  · simpa [setParameters, fillVector_length] using hs.bh_length

theorem construct_sized (D H cdN : Nat) (stdDev : fpt) (rng : RandomNumberGenerator)
    (logistic : fpt → fpt) : (construct D H cdN stdDev rng logistic).Sized := by
  unfold construct initialise
  apply setParameters_sized
  exact ⟨rfl, by simp, by simp⟩

/-- C1: on an RBM whose state was produced by `setParameters(p)` (for any vector
`p`, in particular one of length `K`) or by the constructor,
`setParameters(currentParameters())` returns the very same state: `params`, `W`,
`bv`, `bh` and every other member are unchanged. -/
theorem C1_setParameters_currentParameters_roundtrip :
    (∀ (r : RBM) (p : Vt),
      setParameters (currentParameters (setParameters p r)) (setParameters p r)
        = setParameters p r) ∧
    (∀ (D H cdN : Nat) (stdDev : fpt) (rng : RandomNumberGenerator) (logistic : fpt → fpt),
      setParameters (currentParameters (construct D H cdN stdDev rng logistic))
          (construct D H cdN stdDev rng logistic)
        = construct D H cdN stdDev rng logistic) := by
  constructor
  · intro r p
    have : currentParameters (setParameters p r) = p := rfl
    rw [this, setParameters_idem]
  · intro D H cdN stdDev rng logistic
    simp only [construct, initialise]
    generalize (drawParameters _ _ _) = st
    have : ∀ r, currentParameters (setParameters st.2 r) = st.2 := fun _ => rfl
    rw [this, setParameters_idem]

/-- C2: on an RBM sized by its constructor and for `p` of length
`K = D * H + D + H`, after `setParameters(p)`: `W(j, i) = p[j * D + i]`,
`bv(i) = p[H * D + i]`, `bh(j) = p[H * D + D + j]`; every written slot reads a
position inside `p`, and every position of `p` is read by exactly one slot. -/
theorem C2_setParameters_layout (r : RBM) (p : Vt) (hs : r.Sized) (hp : p.length = r.K) :
    (∀ j i, j < r.H → i < r.D → (setParameters p r).W.entry j i = coeff p (j * r.D + i)) ∧
    (∀ i, i < r.D → coeff (setParameters p r).bv i = coeff p (r.H * r.D + i)) ∧
    (∀ j, j < r.H → coeff (setParameters p r).bh j = coeff p (r.H * r.D + r.D + j)) ∧
    (∀ t : Slot, t.valid r.D r.H → t.index r.D r.H < p.length) ∧
    (∀ k, k < p.length → ∃! t : Slot, t.valid r.D r.H ∧ t.index r.D r.H = k) := by
  refine ⟨?_, ?_, ?_, ?_, ?_⟩
  · intro j i hj hi
    simp [setParameters, fillMatrix_entry, hj, hi]
  · intro i hi
    simp [setParameters, coeff, fillVector_getElem?, fillMatrix_fst, hi, hs.bv_length]
  · intro j hj
    simp [setParameters, coeff, fillVector_getElem?, fillMatrix_fst, fillVector_fst, hj,
      hs.bh_length]
  · intro t ht
    rw [hp, hs.K_eq]
    cases t with
    | weight j i =>
      simp only [Slot.valid, Slot.index] at ht ⊢
      have : j * r.D + i < r.H * r.D := by
        calc j * r.D + i < j * r.D + r.D := by omega
          _ = (j + 1) * r.D := by ring
          _ ≤ r.H * r.D := Nat.mul_le_mul_right _ ht.1
      have := Nat.mul_comm r.H r.D
      omega
    | visibleBias i =>
      simp only [Slot.valid, Slot.index] at ht ⊢
      have := Nat.mul_comm r.H r.D
      omega
    | hiddenBias j =>
      simp only [Slot.valid, Slot.index] at ht ⊢
      have := Nat.mul_comm r.H r.D
      omega
  · intro k hk
    rw [hp, hs.K_eq] at hk
    exact slot_unique r.D r.H k hk


theorem storeVector_succ (f : Nat → fpt) (n : Nat) (st : Nat × Vt) :
    storeVector f (n + 1) st =
      ((storeVector f n st).1 + 1, (storeVector f n st).2.set (storeVector f n st).1 (f n)) := by
  simp [storeVector, List.range_succ, List.foldl_append]

theorem storeVector_fst (f : Nat → fpt) (n : Nat) (st : Nat × Vt) :
    (storeVector f n st).1 = st.1 + n := by
  induction n with
  | zero => simp [storeVector]
  | succ n ih => rw [storeVector_succ]; simp [ih]; omega

theorem storeVector_length (f : Nat → fpt) (n : Nat) (st : Nat × Vt) :
    (storeVector f n st).2.length = st.2.length := by
  induction n with
  | zero => simp [storeVector]
  | succ n ih => rw [storeVector_succ]; simp [ih]

theorem storeVector_getElem?_written (f : Nat → fpt) (n : Nat) (st : Nat × Vt) (i : Nat)
    (hi : i < n) (hlen : st.1 + i < st.2.length) :
    (storeVector f n st).2[st.1 + i]? = some (f i) := by
  induction n with
  | zero => omega
  | succ n ih =>
    rw [storeVector_succ]
    simp only [List.getElem?_set, storeVector_length, storeVector_fst]
    by_cases h1 : i = n
    · subst h1; simp [hlen]
    · have h2 : ¬ st.1 + n = st.1 + i := by omega
      simp only [h2, if_false]
      exact ih (by omega)

theorem storeVector_getElem?_other (f : Nat → fpt) (n : Nat) (st : Nat × Vt) (k : Nat)
    (hk : k < st.1 ∨ st.1 + n ≤ k) :
    (storeVector f n st).2[k]? = st.2[k]? := by
  induction n with
  | zero => simp [storeVector]
  | succ n ih =>
    rw [storeVector_succ]
    simp only [List.getElem?_set, storeVector_length, storeVector_fst]
    have h2 : ¬ st.1 + n = k := by omega
    simp only [h2, if_false]
    exact ih (by omega)

theorem storeMatrix_succ (f : Nat → Nat → fpt) (H D : Nat) (st : Nat × Vt) :
    storeMatrix f (H + 1) D st = storeVector (f H) D (storeMatrix f H D st) := by
  simp [storeMatrix, List.range_succ, List.foldl_append]

theorem storeMatrix_fst (f : Nat → Nat → fpt) (H D : Nat) (st : Nat × Vt) :
    (storeMatrix f H D st).1 = st.1 + H * D := by
  induction H with
  | zero => simp [storeMatrix]
  | succ n ih => rw [storeMatrix_succ, storeVector_fst, ih]; ring

theorem storeMatrix_length (f : Nat → Nat → fpt) (H D : Nat) (st : Nat × Vt) :
    (storeMatrix f H D st).2.length = st.2.length := by
  induction H with
  | zero => simp [storeMatrix]
  | succ n ih => rw [storeMatrix_succ, storeVector_length, ih]

theorem storeMatrix_getElem?_written (f : Nat → Nat → fpt) (H D : Nat) (st : Nat × Vt)
    (j i : Nat) (hj : j < H) (hi : i < D) (hlen : st.1 + (j * D + i) < st.2.length) :
    (storeMatrix f H D st).2[st.1 + (j * D + i)]? = some (f j i) := by
  induction H with
  | zero => omega
  | succ n ih =>
    rw [storeMatrix_succ]
    by_cases h1 : j = n
    · subst h1
      have h := storeVector_getElem?_written (f j) D (storeMatrix f j D st) i hi
        (by rw [storeMatrix_fst, storeMatrix_length]; omega)
      rw [storeMatrix_fst] at h
      rw [← h]; congr 1; omega
    · have hjn : j < n := by omega
      have hlt : j * D + i < n * D := by
        calc j * D + i < j * D + D := by omega
          _ = (j + 1) * D := by ring
          _ ≤ n * D := Nat.mul_le_mul_right _ hjn
      rw [storeVector_getElem?_other _ _ _ _ (by rw [storeMatrix_fst]; omega)]
      exact ih hjn

theorem coeff_vneg (g : Vt) (k : Nat) : coeff (vneg g) k = - coeff g k := by
  simp only [coeff, vneg, List.getElem?_map]
  cases g[k]? <;> simp

theorem coeff_of_getElem? (v : Vt) (k : Nat) (x : fpt) (h : v[k]? = some x) :
    coeff v k = x := by
  simp [coeff, h]

end RBM

namespace RBM
open Example

/-- Witness for C2 on the example RBM (`D = 2`, `H = 1`, `K = 5`) and
`p = (1, 2, 3, 4, 5)`. -/
theorem C2_setParameters_layout_witness :
    rbm.Sized ∧ ([1, 2, 3, 4, 5] : Vt).length = rbm.K ∧
    (setParameters [1, 2, 3, 4, 5] rbm).W.entry 0 1 = 2 ∧
    coeff (setParameters [1, 2, 3, 4, 5] rbm).bv 1 = 4 ∧
    coeff (setParameters [1, 2, 3, 4, 5] rbm).bh 0 = 5 := by
  have hs : rbm.Sized := by
    have h := construct_sized 2 1 1 1 zeroRng fun _ => 1 / 2
    exact ⟨h.K_eq, h.bv_length, h.bh_length⟩
  have hp : ([1, 2, 3, 4, 5] : Vt).length = rbm.K := rfl
  have h := C2_setParameters_layout rbm [1, 2, 3, 4, 5] hs hp
  have hD : rbm.D = 2 := rfl
  have hH : rbm.H = 1 := rfl
  refine ⟨hs, hp, ?_, ?_, ?_⟩
  · have := h.1 0 1 (by rw [hH]; decide) (by rw [hD]; decide)
    rw [this, hD]; simp [coeff]
  · have := h.2.1 1 (by rw [hD]; decide)
    rw [this, hD, hH]; simp [coeff]
  · have := h.2.2.1 0 (by rw [hH]; decide)
    rw [this, hD, hH]; simp [coeff]

end RBM

namespace RBM

/-! ## Shapes of the buffers and the calls that return -/

theorem mul_eq_some {A B C : MatrixXd} (h : A.mul B = some C) :
    A.cols = B.rows ∧ C.rows = A.rows ∧ C.cols = B.cols ∧
    ∀ j i, C.entry j i = ((List.range A.cols).map fun k => A.entry j k * B.entry k i).sum := by
  unfold MatrixXd.mul at h
  split at h
  · rename_i hc
    simp only [Option.some.injEq] at h
    subst h
    exact ⟨hc, rfl, rfl, fun _ _ => rfl⟩
  · simp at h

theorem mul_isSome_iff (A B : MatrixXd) : (A.mul B).isSome ↔ A.cols = B.rows := by
  unfold MatrixXd.mul
  split <;> simp [*]

theorem addVector_eq_some {M C : MatrixXd} {b : Vt} (h : M.addVector b = some C) :
    M.rows = b.length ∧ M.cols = 1 ∧ C.rows = M.rows ∧ C.cols = 1 ∧
    ∀ j i, C.entry j i = M.entry j i + coeff b j := by
  unfold MatrixXd.addVector at h
  split at h
  · rename_i hc
    simp only [Option.some.injEq] at h
    subst h
    exact ⟨hc.1, hc.2, rfl, hc.2, fun _ _ => rfl⟩
  · simp at h

theorem addVector_isSome_iff (M : MatrixXd) (b : Vt) :
    (M.addVector b).isSome ↔ M.rows = b.length ∧ M.cols = 1 := by
  unfold MatrixXd.addVector
  split <;> simp [*]

theorem toVector_eq_some {M : MatrixXd} {v : Vt} (h : M.toVector = some v) :
    M.cols = 1 ∧ v.length = M.rows ∧ ∀ j, j < M.rows → coeff v j = M.entry j 0 := by
  unfold MatrixXd.toVector at h
  split at h
  · rename_i hc
    simp only [Option.some.injEq] at h
    subst h
    refine ⟨hc, by simp, ?_⟩
    intro j hj
    simp [coeff, hj]
  · simp at h

theorem toVector_isSome_iff (M : MatrixXd) : M.toVector.isSome ↔ M.cols = 1 := by
  unfold MatrixXd.toVector
  split <;> simp [*]

/-- Two single indices address the same coefficient only if they are equal. -/
theorem linear_index_inj (rows j k : Nat) (h1 : j % rows = k % rows) (h2 : j / rows = k / rows) :
    j = k := by
  have a := Nat.div_add_mod j rows
  have b := Nat.div_add_mod k rows
  rw [h1, h2] at a
  omega

theorem setLinear_linear (M : MatrixXd) (k : Nat) (x : fpt) (j : Nat) :
    (M.setLinear k x).linear j = if j = k then x else M.linear j := by
  unfold MatrixXd.setLinear MatrixXd.linear MatrixXd.set
  simp only []
  by_cases h : j = k
  · subst h; simp
  · rw [if_neg h, if_neg]
    rintro ⟨h1, h2⟩
    exact h (linear_index_inj _ _ _ h1 h2)

/-- The loop `for (j < n) s(j) = (double) (p(j) > rng.generate(0.0, 1.0))` shared by
`sampleHgivenV` and `sampleVgivenH`: it uses the draws at `cursor`, `cursor + 1`,
… and writes `1` exactly where the probability exceeds the draw; the shape of
`s` stays. -/
theorem sampleLoop_spec (p : MatrixXd) (n : Nat) (st : RandomNumberGenerator × MatrixXd) :
    ((List.range n).foldl
        (fun (st : RandomNumberGenerator × MatrixXd) j =>
          (st.1.next,
            st.2.setLinear j (if p.linear j > st.1.uniform st.1.cursor then 1 else 0)))
        st).1 = { st.1 with cursor := st.1.cursor + n } ∧
    ((List.range n).foldl
        (fun (st : RandomNumberGenerator × MatrixXd) j =>
          (st.1.next,
            st.2.setLinear j (if p.linear j > st.1.uniform st.1.cursor then 1 else 0)))
        st).2.rows = st.2.rows ∧
    ((List.range n).foldl
        (fun (st : RandomNumberGenerator × MatrixXd) j =>
          (st.1.next,
            st.2.setLinear j (if p.linear j > st.1.uniform st.1.cursor then 1 else 0)))
        st).2.cols = st.2.cols ∧
    ∀ j, ((List.range n).foldl
        (fun (st : RandomNumberGenerator × MatrixXd) j =>
          (st.1.next,
            st.2.setLinear j (if p.linear j > st.1.uniform st.1.cursor then 1 else 0)))
        st).2.linear j =
      if j < n then (if p.linear j > st.1.uniform (st.1.cursor + j) then 1 else 0)
      else st.2.linear j := by
  induction n with
  | zero => simp
  | succ n ih =>
    simp only [List.range_succ, List.foldl_append, List.foldl_cons, List.foldl_nil]
    obtain ⟨h1, h2, h3, h4⟩ := ih
    refine ⟨?_, ?_, ?_, ?_⟩
    · rw [h1]; simp [RandomNumberGenerator.next, Nat.add_assoc]
    · rw [← h2]; rfl
    · rw [← h3]; rfl
    · intro j
      rw [setLinear_linear, h1, h4 j]
      by_cases hj : j = n
      · subst hj; simp
      · rw [if_neg hj]
        by_cases h5 : j < n
        · have : j < n + 1 := by omega
          simp [h5, this]
        · have : ¬ j < n + 1 := by omega
          simp [h5, this]

/-- What `sampleHgivenV` does when it returns. -/
theorem sampleHgivenV_eq_some {r r' : RBM} (h : sampleHgivenV r = some r') :
    (r.W.cols = r.v.rows ∧ r.v.cols = 1 ∧ r.W.rows = r.bh.length) ∧
    ∃ (a h' : MatrixXd) (g : RandomNumberGenerator),
      r' = { r with ph := a.map r.logistic, h := h', rng := g } ∧
      g = { r.rng with cursor := r.rng.cursor + r.H } ∧
      a.rows = r.W.rows ∧ a.cols = 1 ∧ h'.rows = r.h.rows ∧ h'.cols = r.h.cols ∧
      (∀ j, j < r.H → h'.linear j =
        if (a.map r.logistic).linear j > r.rng.uniform (r.rng.cursor + j) then 1 else 0) := by
  unfold sampleHgivenV at h
  simp only [Option.map_eq_some', Option.bind_eq_some] at h
  obtain ⟨a, ⟨m, hm, ha⟩, rfl⟩ := h
  obtain ⟨m1, m2, m3, _⟩ := mul_eq_some hm
  obtain ⟨a1, a2, a3, a4, _⟩ := addVector_eq_some ha
  obtain ⟨l1, l2, l3, l4⟩ := sampleLoop_spec (a.map r.logistic) r.H (r.rng, r.h)
  refine ⟨⟨m1, by rw [← m3]; exact a2, by rw [← m2]; exact a1⟩, a, _, _, rfl, l1,
    by rw [a3, m2], a4, l2, l3, ?_⟩
  intro j hj
  rw [l4 j, if_pos hj]

theorem sampleHgivenV_isSome_iff (r : RBM) :
    (sampleHgivenV r).isSome ↔ r.W.cols = r.v.rows ∧ r.v.cols = 1 ∧ r.W.rows = r.bh.length := by
  constructor
  · intro h
    obtain ⟨r', hr⟩ := Option.isSome_iff_exists.mp h
    exact (sampleHgivenV_eq_some hr).1
  · rintro ⟨h1, h2, h3⟩
    simp [sampleHgivenV, MatrixXd.mul, MatrixXd.addVector, h1, h2, h3]

/-- What `sampleVgivenH` does when it returns. -/
theorem sampleVgivenH_eq_some {r r' : RBM} (h : sampleVgivenH r = some r') :
    (r.W.rows = r.h.rows ∧ r.h.cols = 1 ∧ r.W.cols = r.bv.length) ∧
    ∃ (a v' : MatrixXd) (g : RandomNumberGenerator),
      r' = { r with pv := a.map r.logistic, v := v', rng := g } ∧
      g = { r.rng with cursor := r.rng.cursor + r.D } ∧
      a.rows = r.W.cols ∧ a.cols = 1 ∧ v'.rows = r.v.rows ∧ v'.cols = r.v.cols ∧
      (∀ i, i < r.D → v'.linear i =
        if (a.map r.logistic).linear i > r.rng.uniform (r.rng.cursor + i) then 1 else 0) := by
  unfold sampleVgivenH at h
  simp only [Option.map_eq_some', Option.bind_eq_some] at h
  obtain ⟨a, ⟨m, hm, ha⟩, rfl⟩ := h
  obtain ⟨m1, m2, m3, _⟩ := mul_eq_some hm
  obtain ⟨a1, a2, a3, a4, _⟩ := addVector_eq_some ha
  obtain ⟨l1, l2, l3, l4⟩ := sampleLoop_spec (a.map r.logistic) r.D (r.rng, r.v)
  refine ⟨⟨m1, by rw [← m3]; exact a2, m2.symm.trans a1⟩, a, _, _, rfl, l1,
    a3.trans m2, a4, l2, l3, ?_⟩
  intro i hi
  rw [l4 i, if_pos hi]

theorem sampleVgivenH_isSome_iff (r : RBM) :
    (sampleVgivenH r).isSome ↔ r.W.rows = r.h.rows ∧ r.h.cols = 1 ∧ r.W.cols = r.bv.length := by
  constructor
  · intro h
    obtain ⟨r', hr⟩ := Option.isSome_iff_exists.mp h
    exact (sampleVgivenH_eq_some hr).1
  · rintro ⟨h1, h2, h3⟩
    simp [sampleVgivenH, MatrixXd.mul, MatrixXd.addVector, MatrixXd.transpose, h1, h2, h3]

end RBM
namespace RBM

theorem frame_refl (r : RBM) : Frame r r :=
  ⟨rfl, rfl, rfl, rfl, rfl, rfl, rfl, rfl, rfl, rfl, rfl, rfl, rfl, rfl, rfl, rfl⟩

theorem frame_trans {r s t : RBM} (a : Frame r s) (b : Frame s t) : Frame r t :=
  ⟨b.D.trans a.D, b.H.trans a.H, b.cdN.trans a.cdN, b.K.trans a.K, b.W.trans a.W,
    b.bv.trans a.bv, b.bh.trans a.bh, b.params.trans a.params, b.trainSet.trans a.trainSet,
    b.logistic.trans a.logistic, b.posGradW.trans a.posGradW, b.posGradBv.trans a.posGradBv,
    b.posGradBh.trans a.posGradBh, b.h_rows.trans a.h_rows, b.h_cols.trans a.h_cols,
    b.uniform.trans a.uniform⟩

theorem frame_shaped {r r' : RBM} (f : Frame r r') (s : r.Shaped) : r'.Shaped :=
  ⟨by rw [f.W, f.H]; exact s.W_rows, by rw [f.W, f.D]; exact s.W_cols,
    f.h_rows.trans s.h_rows, by rw [f.h_cols, f.H]; exact s.h_cols⟩

theorem sampleHgivenV_frame {r r' : RBM} (h : sampleHgivenV r = some r') :
    Frame r r' ∧ r'.v = r.v ∧ r'.pv = r.pv ∧ r'.ph.rows = r.W.rows ∧ r'.ph.cols = 1 := by
  obtain ⟨_, a, h', g, rfl, rfl, a1, a2, h1, h2, _⟩ := sampleHgivenV_eq_some h
  exact ⟨⟨rfl, rfl, rfl, rfl, rfl, rfl, rfl, rfl, rfl, rfl, rfl, rfl, rfl, h1, h2, rfl⟩, rfl,
    rfl, a1, a2⟩

theorem sampleVgivenH_frame {r r' : RBM} (h : sampleVgivenH r = some r') :
    Frame r r' ∧ r'.ph = r.ph ∧ r'.v.rows = r.v.rows ∧ r'.v.cols = r.v.cols ∧
    r'.pv.rows = r.W.cols ∧ r'.pv.cols = 1 := by
  obtain ⟨_, a, v', g, rfl, rfl, a1, a2, v1, v2, _⟩ := sampleVgivenH_eq_some h
  exact ⟨⟨rfl, rfl, rfl, rfl, rfl, rfl, rfl, rfl, rfl, rfl, rfl, rfl, rfl, rfl, rfl, rfl⟩, rfl,
    v1, v2, a1, a2⟩

/-- What `reality` does when it returns. -/
theorem reality_eq_some {n : Nat} {r r1 : RBM} (h : reality n r = some r1) :
    ∃ r0, sampleHgivenV { r with v := MatrixXd.ofVector (r.trainSet.getInstance n) } = some r0 ∧
      ∃ posGradW posGradBv posGradBh,
        r0.ph.mul r0.v.transpose = some posGradW ∧ r0.v.toVector = some posGradBv ∧
        r0.ph.toVector = some posGradBh ∧
        r1 = { r0 with posGradW := posGradW, posGradBv := posGradBv, posGradBh := posGradBh } := by
  unfold reality at h
  simp only [Option.bind_eq_some, Option.map_eq_some'] at h
  obtain ⟨r0, h0, pw, hw, pbv, hbv, pbh, hbh, rfl⟩ := h
  exact ⟨r0, h0, pw, pbv, pbh, hw, hbv, hbh, rfl⟩

/-- After `reality(n)`: the sizes, the parameters, the data set and the shape of
`h` are those of before, `v` is the example as a column and `ph` is a column. -/
theorem reality_shapes {n : Nat} {r r1 : RBM} (h : reality n r = some r1) :
    r1.D = r.D ∧ r1.H = r.H ∧ r1.cdN = r.cdN ∧ r1.K = r.K ∧ r1.W = r.W ∧ r1.bv = r.bv ∧
    r1.bh = r.bh ∧ r1.params = r.params ∧ r1.trainSet = r.trainSet ∧
    r1.logistic = r.logistic ∧ r1.h.rows = r.h.rows ∧ r1.h.cols = r.h.cols ∧
    r1.rng.uniform = r.rng.uniform ∧ r1.pv = r.pv ∧
    r1.v = MatrixXd.ofVector (r.trainSet.getInstance n) ∧
    r1.ph.rows = r.W.rows ∧ r1.ph.cols = 1 ∧
    (r.trainSet.getInstance n).length = r.W.cols ∧ r.W.rows = r.bh.length := by
  obtain ⟨r0, h0, pw, pbv, pbh, _, _, _, rfl⟩ := reality_eq_some h
  obtain ⟨f, fv, fpv, p1, p2⟩ := sampleHgivenV_frame h0
  obtain ⟨⟨c1, _, c3⟩, _⟩ := sampleHgivenV_eq_some h0
  exact ⟨f.D, f.H, f.cdN, f.K, f.W, f.bv, f.bh, f.params, f.trainSet, f.logistic, f.h_rows,
    f.h_cols, f.uniform, fpv, fv, p1, p2, c1.symm, c3⟩

theorem gibbsSteps_zero (r : RBM) : gibbsSteps 0 r = some r := rfl

theorem gibbsSteps_succ (n : Nat) (r : RBM) :
    gibbsSteps (n + 1) r =
      (gibbsSteps n r).bind fun r => (sampleVgivenH r).bind sampleHgivenV := by
  simp [gibbsSteps, List.range_succ, List.foldlM_append]

/-- The first pass of the sampling loop decides: if `sampleVgivenH` does not
return in the state before the loop, the loop does not. -/
theorem gibbsSteps_none (n : Nat) (r : RBM) (h : sampleVgivenH r = none) :
    gibbsSteps (n + 1) r = none := by
  simp [gibbsSteps, List.range_succ_eq_map, h]

/-- One pass of the sampling loop in an RBM with one hidden unit. -/
theorem gibbs_pass {r : RBM} (hs : r.Shaped) (hH : r.H = 1) (hbv : r.bv.length = r.D)
    (hbh : r.bh.length = r.H) (hv : r.v.rows = r.D ∧ r.v.cols = 1) :
    ∃ r', (sampleVgivenH r).bind sampleHgivenV = some r' ∧ Frame r r' ∧
      (r'.v.rows = r.D ∧ r'.v.cols = 1) ∧ (r'.ph.rows = r.H ∧ r'.ph.cols = 1) ∧
      (r'.pv.rows = r.D ∧ r'.pv.cols = 1) := by
  have h1 : (sampleVgivenH r).isSome :=
    (sampleVgivenH_isSome_iff r).mpr
      ⟨by rw [hs.W_rows, hs.h_rows, hH], by rw [hs.h_cols, hH], by rw [hs.W_cols, hbv]⟩
  obtain ⟨r1, e1⟩ := Option.isSome_iff_exists.mp h1
  obtain ⟨f1, _, v1, v2, p1, p2⟩ := sampleVgivenH_frame e1
  have h2 : (sampleHgivenV r1).isSome :=
    (sampleHgivenV_isSome_iff r1).mpr
      ⟨by rw [f1.W, hs.W_cols, v1, hv.1], by rw [v2, hv.2], by rw [f1.W, f1.bh, hs.W_rows, hbh]⟩
  obtain ⟨r2, e2⟩ := Option.isSome_iff_exists.mp h2
  obtain ⟨f2, w1, w2, q1, q2⟩ := sampleHgivenV_frame e2
  refine ⟨r2, by rw [e1]; exact e2, frame_trans f1 f2, ⟨by rw [w1, v1, hv.1], by rw [w1, v2, hv.2]⟩,
    ⟨by rw [q1, f1.W, hs.W_rows], q2⟩, ⟨by rw [w2, p1, hs.W_cols], by rw [w2, p2]⟩⟩

/-- The sampling loop of `daydream` in an RBM with one hidden unit: it returns,
and after at least one pass `pv` is a column of `D` coefficients. -/
theorem gibbsSteps_isSome (n : Nat) {r : RBM} (hs : r.Shaped) (hH : r.H = 1)
    (hbv : r.bv.length = r.D) (hbh : r.bh.length = r.H) (hv : r.v.rows = r.D ∧ r.v.cols = 1)
    (hph : r.ph.rows = r.H ∧ r.ph.cols = 1) :
    ∃ r', gibbsSteps n r = some r' ∧ Frame r r' ∧
      (r'.v.rows = r.D ∧ r'.v.cols = 1) ∧ (r'.ph.rows = r.H ∧ r'.ph.cols = 1) ∧
      (1 ≤ n → r'.pv.rows = r.D ∧ r'.pv.cols = 1) := by
  induction n with
  | zero => exact ⟨r, rfl, frame_refl r, hv, hph, fun h => absurd h (by decide)⟩
  | succ n ih =>
    obtain ⟨r1, e1, f1, v1, p1, _⟩ := ih
    obtain ⟨r2, e2, f2, v2, p2, q2⟩ := gibbs_pass (frame_shaped f1 hs) (by rw [f1.H, hH])
      (by rw [f1.bv, f1.D, hbv]) (by rw [f1.bh, f1.H, hbh]) (by rw [f1.D]; exact v1)
    refine ⟨r2, by rw [gibbsSteps_succ, e1]; exact e2, frame_trans f1 f2, ?_, ?_, fun _ => ?_⟩
    · rw [← f1.D]; exact v2
    · rw [← f1.H]; exact p2
    · rw [← f1.D]; exact q2

/-- What `daydream` does when it returns. -/
theorem daydream_eq_some {r r2 : RBM} (h : daydream r = some r2) :
    ∃ r1, gibbsSteps r.cdN r = some r1 ∧
      ∃ negGradW negGradBv negGradBh,
        r1.ph.mul r1.pv.transpose = some negGradW ∧ r1.pv.toVector = some negGradBv ∧
        r1.ph.toVector = some negGradBh ∧
        r2 = { r1 with negGradW := negGradW, negGradBv := negGradBv, negGradBh := negGradBh } := by
  unfold daydream at h
  simp only [Option.bind_eq_some, Option.map_eq_some'] at h
  obtain ⟨r1, h1, nw, hw, nbv, hbv, nbh, hbh, rfl⟩ := h
  exact ⟨r1, h1, nw, nbv, nbh, hw, hbv, hbh, rfl⟩

theorem gibbsSteps_frame (n : Nat) {r r' : RBM} (h : gibbsSteps n r = some r') : Frame r r' := by
  induction n generalizing r' with
  | zero =>
    simp only [gibbsSteps_zero, Option.some.injEq] at h
    subst h
    exact frame_refl r
  | succ n ih =>
    rw [gibbsSteps_succ] at h
    simp only [Option.bind_eq_some] at h
    obtain ⟨r1, e1, r2, e2, e3⟩ := h
    exact frame_trans (frame_trans (ih e1) (sampleVgivenH_frame e2).1) (sampleHgivenV_frame e3).1

theorem daydream_frame {r r2 : RBM} (h : daydream r = some r2) : Frame r r2 := by
  obtain ⟨r1, e1, nw, nbv, nbh, _, _, _, rfl⟩ := daydream_eq_some h
  have f := gibbsSteps_frame r.cdN e1
  exact ⟨f.D, f.H, f.cdN, f.K, f.W, f.bv, f.bh, f.params, f.trainSet, f.logistic, f.posGradW,
    f.posGradBv, f.posGradBh, f.h_rows, f.h_cols, f.uniform⟩

/-- What `gradient` does when it returns. -/
theorem gradient_eq_some {n : Nat} {r r2 : RBM} {g : Vt} (h : gradient n r = some (g, r2)) :
    ∃ r1, reality n r = some r1 ∧ daydream r1 = some r2 ∧ g = gradientVector r2 := by
  unfold gradient at h
  simp only [Option.bind_eq_some, Option.map_eq_some', Prod.mk.injEq] at h
  obtain ⟨r1, h1, r2', h2, rfl, rfl⟩ := h
  exact ⟨r1, h1, h2, rfl⟩

/-- With two or more hidden units and at least one CD step, `gradient` does not
return on an RBM shaped by its constructor: `h` is the row `1 × H`, so
`W.transpose() * h` in the first `sampleVgivenH()` of `daydream()` multiplies a
`D × H` matrix by a `1 × H` matrix. -/
theorem gradient_none (n : Nat) (r : RBM) (hs : r.Shaped) (hH : 2 ≤ r.H) (hc : 1 ≤ r.cdN) :
    gradient n r = none := by
  unfold gradient
  cases h1 : reality n r with
  | none => rfl
  | some r1 =>
    obtain ⟨_, eH, ec, _, eW, _, _, _, _, _, er, _⟩ := reality_shapes h1
    have hv : sampleVgivenH r1 = none := by
      rw [← Option.not_isSome_iff_eq_none, sampleVgivenH_isSome_iff]
      rintro ⟨a, _, _⟩
      rw [eW, er, hs.W_rows, hs.h_rows] at a
      omega
    have hd : daydream r1 = none := by
      unfold daydream
      obtain ⟨c, hc'⟩ : ∃ c, r1.cdN = c + 1 := ⟨r1.cdN - 1, by omega⟩
      rw [hc', gibbsSteps_none c r1 hv]
      rfl
    simp [hd]

/-- In an RBM with one hidden unit and at least one CD step whose example `n`
has `D` entries, `gradient(n)` returns; the sizes, the parameters, the data set
and the shapes of `W` and `h` are those of before. -/
theorem gradient_isSome (n : Nat) (r : RBM) (hs : r.Shaped) (hH : r.H = 1) (hc : 1 ≤ r.cdN)
    (hbv : r.bv.length = r.D) (hbh : r.bh.length = r.H)
    (hx : (r.trainSet.getInstance n).length = r.D) :
    ∃ g r', gradient n r = some (g, r') ∧ g = gradientVector r' ∧ r'.Shaped ∧ r'.D = r.D ∧
      r'.H = r.H ∧ r'.K = r.K ∧ r'.cdN = r.cdN ∧ r'.bv = r.bv ∧ r'.bh = r.bh ∧
      r'.params = r.params ∧ r'.trainSet = r.trainSet := by
  -- reality
  have h0 : (sampleHgivenV { r with v := MatrixXd.ofVector (r.trainSet.getInstance n) }).isSome :=
    (sampleHgivenV_isSome_iff _).mpr ⟨by rw [hs.W_cols, ← hx]; rfl, rfl, by rw [hs.W_rows, hbh]⟩
  obtain ⟨r0, e0⟩ := Option.isSome_iff_exists.mp h0
  obtain ⟨f0', v0, _, p1, p2⟩ := sampleHgivenV_frame e0
  have f0 : Frame r r0 :=
    ⟨f0'.D, f0'.H, f0'.cdN, f0'.K, f0'.W, f0'.bv, f0'.bh, f0'.params, f0'.trainSet,
      f0'.logistic, f0'.posGradW, f0'.posGradBv, f0'.posGradBh, f0'.h_rows, f0'.h_cols,
      f0'.uniform⟩
  have hv0 : r0.v.rows = r.D ∧ r0.v.cols = 1 := by
    rw [v0]; exact ⟨hx, rfl⟩
  have hp0 : r0.ph.rows = r.H ∧ r0.ph.cols = 1 := ⟨by rw [p1]; exact hs.W_rows, p2⟩
  obtain ⟨pw, epw⟩ := Option.isSome_iff_exists.mp
    ((mul_isSome_iff r0.ph r0.v.transpose).mpr (by rw [hp0.2]; exact hv0.2.symm))
  obtain ⟨pbv, epbv⟩ := Option.isSome_iff_exists.mp ((toVector_isSome_iff r0.v).mpr hv0.2)
  obtain ⟨pbh, epbh⟩ := Option.isSome_iff_exists.mp ((toVector_isSome_iff r0.ph).mpr hp0.2)
  have e1 : reality n r =
      some { r0 with posGradW := pw, posGradBv := pbv, posGradBh := pbh } := by
    unfold reality
    rw [e0]
    simp [epw, epbv, epbh]
  -- daydream
  have hs1 : RBM.Shaped { r0 with posGradW := pw, posGradBv := pbv, posGradBh := pbh } :=
    ⟨(frame_shaped f0 hs).W_rows, (frame_shaped f0 hs).W_cols, (frame_shaped f0 hs).h_rows, (frame_shaped f0 hs).h_cols⟩
  obtain ⟨r2, e2, f2, v2, q2, w2⟩ := gibbsSteps_isSome r0.cdN hs1 (f0.H.trans hH)
    (by show r0.bv.length = r0.D; rw [f0.bv, f0.D, hbv])
    (by show r0.bh.length = r0.H; rw [f0.bh, f0.H, hbh])
    (by show r0.v.rows = r0.D ∧ r0.v.cols = 1; rw [f0.D]; exact hv0)
    (by show r0.ph.rows = r0.H ∧ r0.ph.cols = 1; rw [f0.H]; exact hp0)
  obtain ⟨w3, w4⟩ := w2 (by rw [f0.cdN]; exact hc)
  obtain ⟨nw, enw⟩ := Option.isSome_iff_exists.mp
    ((mul_isSome_iff r2.ph r2.pv.transpose).mpr (by rw [q2.2]; exact w4.symm))
  obtain ⟨nbv, enbv⟩ := Option.isSome_iff_exists.mp ((toVector_isSome_iff r2.pv).mpr w4)
  obtain ⟨nbh, enbh⟩ := Option.isSome_iff_exists.mp ((toVector_isSome_iff r2.ph).mpr q2.2)
  have e3 : daydream { r0 with posGradW := pw, posGradBv := pbv, posGradBh := pbh } =
      some { r2 with negGradW := nw, negGradBv := nbv, negGradBh := nbh } := by
    unfold daydream
    show (gibbsSteps r0.cdN _).bind _ = _
    rw [e2]
    simp [enw, enbv, enbh]
  have hs2 := frame_shaped f2 hs1
  refine ⟨gradientVector { r2 with negGradW := nw, negGradBv := nbv, negGradBh := nbh },
    { r2 with negGradW := nw, negGradBv := nbv, negGradBh := nbh },
    by unfold gradient; rw [e1]; simp [e3], rfl,
    ⟨hs2.W_rows, hs2.W_cols, hs2.h_rows, hs2.h_cols⟩, f2.D.trans f0.D, f2.H.trans f0.H,
    f2.K.trans f0.K, f2.cdN.trans f0.cdN, f2.bv.trans f0.bv, f2.bh.trans f0.bh,
    f2.params.trans f0.params, f2.trainSet.trans f0.trainSet⟩

/-- Where `RBM::gradient` returns, the optimizer receives what it returns. -/
theorem optimizable_gradient {n : Nat} {r : RBM} {x : Vt × RBM} (h : gradient n r = some x) :
    RBM.optimizable.gradient n r = x := by
  simp [RBM.optimizable, h]

end RBM
namespace RBM
open Example

/-! ## The gradient vector (C3) -/

theorem setParameters_shaped (p : Vt) (r : RBM) (hs : r.Shaped) : (setParameters p r).Shaped := by
  refine ⟨?_, ?_, hs.h_rows, hs.h_cols⟩
  · show (fillMatrix p r.H r.D (0, r.W)).2.rows = r.H
    rw [(fillMatrix_shape _ _ _ _).1]; exact hs.W_rows
  · show (fillMatrix p r.H r.D (0, r.W)).2.cols = r.D
    rw [(fillMatrix_shape _ _ _ _).2]; exact hs.W_cols

theorem construct_shaped (D H cdN : Nat) (stdDev : fpt) (rng : RandomNumberGenerator)
    (logistic : fpt → fpt) : (construct D H cdN stdDev rng logistic).Shaped := by
  unfold construct initialise
  apply setParameters_shaped
  exact ⟨rfl, rfl, rfl, rfl⟩

/-- The vector that `gradient(i)` returns has `dimension()` entries in the layout
of the parameter vector: entry `j * D + i` is `-(posGradW(j, i) - negGradW(j, i))`,
entry `H * D + i` is `-(posGradBv(i) - negGradBv(i))`, entry `H * D + D + j` is
`-(posGradBh(j) - negGradBh(j))`. -/
theorem gradientVector_layout (r : RBM) (hK : r.K = r.D * r.H + r.D + r.H) :
    (gradientVector r).length = dimension r ∧
    (∀ j i, j < r.H → i < r.D →
      coeff (gradientVector r) (j * r.D + i) = -(r.posGradW.entry j i - r.negGradW.entry j i)) ∧
    (∀ i, i < r.D →
      coeff (gradientVector r) (r.H * r.D + i) = -(coeff r.posGradBv i - coeff r.negGradBv i)) ∧
    (∀ j, j < r.H →
      coeff (gradientVector r) (r.H * r.D + r.D + j)
        = -(coeff r.posGradBh j - coeff r.negGradBh j)) := by
  have hmul : r.H * r.D = r.D * r.H := Nat.mul_comm _ _
  refine ⟨?_, ?_, ?_, ?_⟩
  · simp [gradientVector, vneg, storeVector_length, storeMatrix_length, dimension]
  · intro j i hj hi
    have hlt : j * r.D + i < r.H * r.D := by
      calc j * r.D + i < j * r.D + r.D := by omega
        _ = (j + 1) * r.D := by ring
        _ ≤ r.H * r.D := Nat.mul_le_mul_right _ hj
    simp only [gradientVector, dimension]
    rw [coeff_vneg]
    congr 1
    apply coeff_of_getElem?
    rw [storeVector_getElem?_other _ _ _ _ (by
          left; simp only [storeVector_fst, storeMatrix_fst]; omega),
        storeVector_getElem?_other _ _ _ _ (by
          left; simp only [storeMatrix_fst]; omega)]
    have h := storeMatrix_getElem?_written
      (fun j i => r.posGradW.entry j i - r.negGradW.entry j i) r.H r.D
      (0, List.replicate r.K 0) j i hj hi (by simp only [List.length_replicate]; omega)
    simp only [Nat.zero_add] at h
    exact h
  · intro i hi
    simp only [gradientVector, dimension]
    rw [coeff_vneg]
    congr 1
    apply coeff_of_getElem?
    rw [storeVector_getElem?_other _ _ _ _ (by
          left; simp only [storeVector_fst, storeMatrix_fst]; omega)]
    have h := storeVector_getElem?_written
      (fun i => coeff r.posGradBv i - coeff r.negGradBv i) r.D
      (storeMatrix (fun j i => r.posGradW.entry j i - r.negGradW.entry j i) r.H r.D
        (0, List.replicate r.K 0))
      i hi (by rw [storeMatrix_fst, storeMatrix_length]
               simp only [List.length_replicate]; omega)
    simp only [storeMatrix_fst, Nat.zero_add] at h
    exact h
  · intro j hj
    simp only [gradientVector, dimension]
    rw [coeff_vneg]
    congr 1
    apply coeff_of_getElem?
    have h := storeVector_getElem?_written
      (fun j => coeff r.posGradBh j - coeff r.negGradBh j) r.H
      (storeVector (fun i => coeff r.posGradBv i - coeff r.negGradBv i) r.D
        (storeMatrix (fun j i => r.posGradW.entry j i - r.negGradW.entry j i) r.H r.D
          (0, List.replicate r.K 0)))
      j hj (by rw [storeVector_fst, storeVector_length, storeMatrix_fst, storeMatrix_length]
               simp only [List.length_replicate]; omega)
    simp only [storeVector_fst, storeMatrix_fst, Nat.zero_add] at h
    exact h

/-- Where `gradient(n)` returns, on an RBM with `K = D * H + D + H`, the vector
has `dimension()` entries in the layout of the parameter vector, filled from the
statistics that the call recorded. -/
theorem gradient_layout {n : Nat} {r r' : RBM} {g : Vt} (h : gradient n r = some (g, r'))
    (hK : r.K = r.D * r.H + r.D + r.H) :
    g.length = dimension r ∧
    (∀ j i, j < r.H → i < r.D →
      coeff g (j * r.D + i) = -(r'.posGradW.entry j i - r'.negGradW.entry j i)) ∧
    (∀ i, i < r.D →
      coeff g (r.H * r.D + i) = -(coeff r'.posGradBv i - coeff r'.negGradBv i)) ∧
    (∀ j, j < r.H →
      coeff g (r.H * r.D + r.D + j) = -(coeff r'.posGradBh j - coeff r'.negGradBh j)) := by
  obtain ⟨r1, h1, h2, rfl⟩ := gradient_eq_some h
  obtain ⟨eD, eH, _, eK, _⟩ := reality_shapes h1
  have f := daydream_frame h2
  have hD : r'.D = r.D := f.D.trans eD
  have hH : r'.H = r.H := f.H.trans eH
  have hK' : r'.K = r.K := f.K.trans eK
  have := gradientVector_layout r' (by rw [hK', hD, hH]; exact hK)
  rw [hD, hH] at this
  refine ⟨by rw [this.1]; exact hK', this.2.1, this.2.2.1, this.2.2.2⟩

/-- C3 fails on the code for an RBM with two or more hidden units and at least
one CD step: `gradient(n)` returns no vector at all, whatever the sizes, the
parameters, the data set and the draws are; so for `D = 2`, `H = 2`, `cdN = 1`,
where `dimension()` is `8`.  (On the example RBM, which has one hidden unit, the
call returns a vector of `dimension() = 5` entries.) -/
theorem C3_gradient_does_not_return :
    (∀ (D H cdN : Nat) (stdDev : fpt) (rng : RandomNumberGenerator) (logistic : fpt → fpt)
        (ds : DataSet) (p : Vt) (n : Nat),
      gradient n (trainingSet ds (construct D (H + 2) (cdN + 1) stdDev rng logistic)) = none ∧
      gradient n
        (setParameters p (trainingSet ds (construct D (H + 2) (cdN + 1) stdDev rng logistic)))
          = none) ∧
    gradient 0 (trainingSet { samples := 1, getInstance := fun _ => [1, 0] }
      (construct 2 2 1 1 zeroRng fun _ => 1 / 2)) = none ∧
    dimension (trainingSet { samples := 1, getInstance := fun _ => [1, 0] }
      (construct 2 2 1 1 zeroRng fun _ => 1 / 2)) = 8 ∧
    (∃ g r', gradient 0 rbm = some (g, r') ∧ g.length = 5 ∧ dimension rbm = 5) := by
  have key : ∀ (D H cdN : Nat) (stdDev : fpt) (rng : RandomNumberGenerator)
      (logistic : fpt → fpt) (ds : DataSet),
      (trainingSet ds (construct D H cdN stdDev rng logistic)).Shaped ∧
      (trainingSet ds (construct D H cdN stdDev rng logistic)).H = H ∧
      (trainingSet ds (construct D H cdN stdDev rng logistic)).cdN = cdN := by
    intro D H cdN stdDev rng logistic ds
    have hs := construct_shaped D H cdN stdDev rng logistic
    exact ⟨⟨hs.W_rows, hs.W_cols, hs.h_rows, hs.h_cols⟩, rfl, rfl⟩
  refine ⟨?_, ?_, rfl, ?_⟩
  · intro D H cdN stdDev rng logistic ds p n
    obtain ⟨hs, hH, hc⟩ := key D (H + 2) (cdN + 1) stdDev rng logistic ds
    refine ⟨gradient_none n _ hs (by rw [hH]; omega) (by rw [hc]; omega), ?_⟩
    exact gradient_none n _ (setParameters_shaped p _ hs)
      (by show (trainingSet ds (construct D (H + 2) (cdN + 1) stdDev rng logistic)).H ≥ 2
          rw [hH]; omega)
      (by show (trainingSet ds (construct D (H + 2) (cdN + 1) stdDev rng logistic)).cdN ≥ 1
          rw [hc]; omega)
  · obtain ⟨hs, hH, hc⟩ := key 2 2 1 1 zeroRng (fun _ => 1 / 2)
      { samples := 1, getInstance := fun _ => [1, 0] }
    exact gradient_none 0 _ hs (by rw [hH]) (by rw [hc])
  · obtain ⟨hs, hH, hc⟩ := key 2 1 1 1 zeroRng (fun _ => 1 / 2)
      { samples := 4, getInstance := fun _ => [1, 0] }
    have hz := construct_sized 2 1 1 1 zeroRng fun _ => 1 / 2
    obtain ⟨g, r', e, _, _, _, _, _⟩ := gradient_isSome 0 rbm hs hH (le_of_eq hc.symm)
      hz.bv_length hz.bh_length rfl
    exact ⟨g, r', e, (gradient_layout e rfl).1, rfl⟩

end RBM
namespace MBSGD

variable {σ : Type}

/-! ## Structure of one `step` -/

theorem SameConfig.refl (s : MBSGD σ) : SameConfig s s :=
  ⟨rfl, rfl, rfl, rfl, rfl, rfl, rfl, rfl, rfl⟩

theorem SameConfig.trans {s t u : MBSGD σ} (h1 : SameConfig s t) (h2 : SameConfig t u) :
    SameConfig s u :=
  ⟨h2.alphaDecay.trans h1.alphaDecay, h2.minAlpha.trans h1.minAlpha,
    h2.etaGain.trans h1.etaGain, h2.maxEta.trans h1.maxEta,
    h2.batchSize.trans h1.batchSize, h2.minGain.trans h1.minGain,
    h2.maxGain.trans h1.maxGain, h2.useGain.trans h1.useGain, h2.stop.trans h1.stop⟩

theorem initialise_eq_some {O : Optimizable σ} {s t : MBSGD σ} (h : initialise O s = some t) :
    s.batchSize ≠ 0 ∧ 0 ≤ Int.tdiv (O.examples s.opt : Int) s.batchSize ∧
    t = { s with
        P := O.dimension s.opt, N := O.examples s.opt
        batches := Int.tdiv (O.examples s.opt : Int) s.batchSize
        gradient := List.replicate (O.dimension s.opt) 0
        gains := List.replicate (O.dimension s.opt) 1
        parameters := O.currentParameters s.opt
        momentum := List.replicate (O.dimension s.opt) 0
        batchAssignment :=
          resize s.batchAssignment (Int.tdiv (O.examples s.opt : Int) s.batchSize).toNat
        iteration := 0 } := by
  unfold initialise at h
  by_cases h0 : s.batchSize = 0
  · simp [h0] at h
  · by_cases h1 : Int.tdiv (O.examples s.opt : Int) s.batchSize < 0
    · simp [h0, h1] at h
    · simp only [h0, h1, if_false, Option.some.injEq] at h
      exact ⟨h0, not_lt.mp h1, h.symm⟩

theorem initialise_isSome {O : Optimizable σ} {s : MBSGD σ} (h0 : s.batchSize ≠ 0)
    (h1 : 0 ≤ Int.tdiv (O.examples s.opt : Int) s.batchSize) :
    ∃ t, initialise O s = some t := by
  unfold initialise
  simp [h0, not_lt.mpr h1]

theorem batchLoop_zero (O : Optimizable σ) (s : MBSGD σ) : batchLoop O 0 s = s := rfl

theorem batchLoop_succ (O : Optimizable σ) (k : Nat) (s : MBSGD σ) :
    batchLoop O (k + 1) s = processBatch O (batchLoop O k s) k := by
  simp [batchLoop, List.range_succ, List.foldl_append]

theorem processBatch_config (O : Optimizable σ) (s : MBSGD σ) (b : Nat) :
    SameConfig s (processBatch O s b) :=
  ⟨rfl, rfl, rfl, rfl, rfl, rfl, rfl, rfl, rfl⟩

theorem batchLoop_config (O : Optimizable σ) (k : Nat) (s : MBSGD σ) :
    SameConfig s (batchLoop O k s) := by
  induction k with
  | zero => exact SameConfig.refl s
  | succ k ih => rw [batchLoop_succ]; exact ih.trans (processBatch_config O _ k)

theorem initialise_config {O : Optimizable σ} {s t : MBSGD σ} (h : initialise O s = some t) :
    SameConfig s t := by
  obtain ⟨_, _, rfl⟩ := initialise_eq_some h
  exact ⟨rfl, rfl, rfl, rfl, rfl, rfl, rfl, rfl, rfl⟩

/-- What `assignPhase` does when it returns. -/
theorem assignPhase_eq_some {O : Optimizable σ} {s a : MBSGD σ} (h : assignPhase O s = some a) :
    O.providesInitialization s.opt = true ∧
    ∃ s1 st, (if s.iteration < 0 then initialise O s else some s) = some s1 ∧
      assign s1.batches s1.N (s1.rng, s1.batchAssignment) = some st ∧
      a = { s1 with rng := st.1, batchAssignment := st.2 } := by
  unfold assignPhase at h
  by_cases hp : O.providesInitialization s.opt = true
  · simp only [hp, if_true] at h
    refine ⟨hp, ?_⟩
    cases h1 : (if s.iteration < 0 then initialise O s else some s) with
    | none => rw [h1] at h; simp at h
    | some s1 =>
      rw [h1] at h
      simp only [Option.some_bind, Option.map_eq_some'] at h
      obtain ⟨st, hst, rfl⟩ := h
      exact ⟨s1, st, rfl, hst, rfl⟩
  · simp [hp] at h

theorem assignPhase_config {O : Optimizable σ} {s a : MBSGD σ} (h : assignPhase O s = some a) :
    SameConfig s a := by
  obtain ⟨_, s1, st, h1, _, rfl⟩ := assignPhase_eq_some h
  have hc : SameConfig s s1 := by
    by_cases hi : s.iteration < 0
    · simp only [hi, if_true] at h1; exact initialise_config h1
    · simp only [hi, if_false, Option.some.injEq] at h1; subst h1; exact SameConfig.refl s
  exact ⟨hc.alphaDecay, hc.minAlpha, hc.etaGain, hc.maxEta, hc.batchSize, hc.minGain,
    hc.maxGain, hc.useGain, hc.stop⟩

theorem finish_config (O : Optimizable σ) (dv : StoppingCriteria) (s : MBSGD σ) :
    SameConfig s (finish O dv s).2 := by
  unfold finish
  simp only []
  split <;> exact ⟨rfl, rfl, rfl, rfl, rfl, rfl, rfl, rfl, rfl⟩

/-- What `step` does when it returns. -/
theorem step_eq_some {O : Optimizable σ} {dv : StoppingCriteria} {s : MBSGD σ}
    {r : Bool × MBSGD σ} (h : step O dv s = some r) :
    ∃ a, assignPhase O s = some a ∧ r = finish O dv (batchLoop O a.batches.toNat a) := by
  unfold step at h
  simp only [Option.map_eq_some'] at h
  obtain ⟨a, ha, rfl⟩ := h
  exact ⟨a, ha, rfl⟩

theorem step_config {O : Optimizable σ} {dv : StoppingCriteria} {s : MBSGD σ}
    {r : Bool × MBSGD σ} (h : step O dv s = some r) : SameConfig s r.2 := by
  obtain ⟨a, ha, rfl⟩ := step_eq_some h
  exact ((assignPhase_config ha).trans (batchLoop_config O _ a)).trans (finish_config O dv _)

theorem steps_succ_eq_some {O : Optimizable σ} {dv : StoppingCriteria} {n : Nat}
    {s t : MBSGD σ} (h : steps O dv (n + 1) s = some t) :
    ∃ u r, steps O dv n s = some u ∧ step O dv u = some r ∧ t = r.2 := by
  simp only [steps, Option.bind_eq_some, Option.map_eq_some'] at h
  obtain ⟨u, hu, r, hr, rfl⟩ := h
  exact ⟨u, r, hu, hr, rfl⟩

theorem steps_config {O : Optimizable σ} {dv : StoppingCriteria} {n : Nat} {s t : MBSGD σ}
    (h : steps O dv n s = some t) : SameConfig s t := by
  induction n generalizing t with
  | zero => simp only [steps, Option.some.injEq] at h; subst h; exact SameConfig.refl s
  | succ n ih =>
    obtain ⟨u, r, hu, hr, rfl⟩ := steps_succ_eq_some h
    exact (ih hu).trans (step_config hr)

end MBSGD

namespace MBSGD

variable {σ : Type}

/-! ## The schedule of `alpha` and `eta` -/

theorem processBatch_alpha (O : Optimizable σ) (s : MBSGD σ) (b : Nat) :
    (processBatch O s b).alpha = max (s.alpha * s.alphaDecay) s.minAlpha := rfl

theorem processBatch_eta (O : Optimizable σ) (s : MBSGD σ) (b : Nat) :
    (processBatch O s b).eta = min (s.eta + s.etaGain) s.maxEta := rfl

theorem assignPhase_schedule {O : Optimizable σ} {s a : MBSGD σ} (h : assignPhase O s = some a) :
    a.alpha = s.alpha ∧ a.eta = s.eta := by
  obtain ⟨_, s1, st, h1, _, rfl⟩ := assignPhase_eq_some h
  by_cases hi : s.iteration < 0
  · simp only [hi, if_true] at h1
    obtain ⟨_, _, rfl⟩ := initialise_eq_some h1
    exact ⟨rfl, rfl⟩
  · simp only [hi, if_false, Option.some.injEq] at h1; subst h1; exact ⟨rfl, rfl⟩

theorem finish_schedule (O : Optimizable σ) (dv : StoppingCriteria) (s : MBSGD σ) :
    (finish O dv s).2.alpha = s.alpha ∧ (finish O dv s).2.eta = s.eta := by
  unfold finish
  simp only []
  split <;> exact ⟨rfl, rfl⟩

/-- One batch update under a decay factor of at most one, from a non-negative
learning rate that is not below its floor. -/
theorem processBatch_alpha_le (O : Optimizable σ) (s : MBSGD σ) (b : Nat)
    (hdecay : s.alphaDecay ≤ 1) (hsign : 0 ≤ s.alphaDecay ∨ 0 ≤ s.minAlpha)
    (hmin : s.minAlpha ≤ s.alpha) (hpos : 0 ≤ s.alpha) :
    (processBatch O s b).alpha ≤ s.alpha ∧ s.minAlpha ≤ (processBatch O s b).alpha ∧
      0 ≤ (processBatch O s b).alpha := by
  rw [processBatch_alpha]
  refine ⟨max_le ?_ hmin, le_max_right _ _, ?_⟩
  · calc s.alpha * s.alphaDecay ≤ s.alpha * 1 := mul_le_mul_of_nonneg_left hdecay hpos
      _ = s.alpha := mul_one _
  · rcases hsign with h | h
    · exact le_trans (mul_nonneg hpos h) (le_max_left _ _)
    · exact le_trans h (le_max_right _ _)

theorem batchLoop_alpha_le (O : Optimizable σ) (s : MBSGD σ)
    (hdecay : s.alphaDecay ≤ 1) (hsign : 0 ≤ s.alphaDecay ∨ 0 ≤ s.minAlpha)
    (hmin : s.minAlpha ≤ s.alpha) (hpos : 0 ≤ s.alpha) (k : Nat) :
    (batchLoop O k s).alpha ≤ s.alpha ∧ s.minAlpha ≤ (batchLoop O k s).alpha ∧
      0 ≤ (batchLoop O k s).alpha ∧
      (batchLoop O (k + 1) s).alpha ≤ (batchLoop O k s).alpha := by
  induction k with
  | zero =>
    have h := processBatch_alpha_le O s 0 hdecay hsign hmin hpos
    exact ⟨le_refl _, hmin, hpos, by rw [batchLoop_succ]; exact h.1⟩
  | succ k ih =>
    have hc := batchLoop_config O (k + 1) s
    have h1 := processBatch_alpha_le O (batchLoop O k s) k
      (by rw [(batchLoop_config O k s).alphaDecay]; exact hdecay)
      (by rw [(batchLoop_config O k s).alphaDecay, (batchLoop_config O k s).minAlpha]
          exact hsign)
      (by rw [(batchLoop_config O k s).minAlpha]; exact ih.2.1) ih.2.2.1
    rw [(batchLoop_config O k s).minAlpha, ← batchLoop_succ] at h1
    have h2 := processBatch_alpha_le O (batchLoop O (k + 1) s) (k + 1)
      (by rw [hc.alphaDecay]; exact hdecay)
      (by rw [hc.alphaDecay, hc.minAlpha]; exact hsign)
      (by rw [hc.minAlpha]; exact h1.2.1) h1.2.2
    rw [← batchLoop_succ] at h2
    exact ⟨le_trans h1.1 ih.1, h1.2.1, h1.2.2, h2.1⟩

theorem step_alpha_le {O : Optimizable σ} {dv : StoppingCriteria} {s : MBSGD σ}
    {r : Bool × MBSGD σ} (h : step O dv s = some r)
    (hdecay : s.alphaDecay ≤ 1) (hsign : 0 ≤ s.alphaDecay ∨ 0 ≤ s.minAlpha)
    (hmin : s.minAlpha ≤ s.alpha) (hpos : 0 ≤ s.alpha) :
    r.2.alpha ≤ s.alpha ∧ s.minAlpha ≤ r.2.alpha ∧ 0 ≤ r.2.alpha := by
  obtain ⟨a, ha, rfl⟩ := step_eq_some h
  have hc := assignPhase_config ha
  obtain ⟨ea, _⟩ := assignPhase_schedule ha
  have hb := batchLoop_alpha_le O a (by rw [hc.alphaDecay]; exact hdecay)
    (by rw [hc.alphaDecay, hc.minAlpha]; exact hsign)
    (by rw [hc.minAlpha, ea]; exact hmin) (by rw [ea]; exact hpos) a.batches.toNat
  rw [(finish_schedule O dv _).1]
  rw [hc.minAlpha, ea] at hb
  exact ⟨hb.1, hb.2.1, hb.2.2.1⟩

theorem steps_alpha_inv {O : Optimizable σ} {dv : StoppingCriteria} {n : Nat} {s t : MBSGD σ}
    (h : steps O dv n s = some t)
    (hdecay : s.alphaDecay ≤ 1) (hsign : 0 ≤ s.alphaDecay ∨ 0 ≤ s.minAlpha)
    (hmin : s.minAlpha ≤ s.alpha) (hpos : 0 ≤ s.alpha) :
    t.alpha ≤ s.alpha ∧ s.minAlpha ≤ t.alpha ∧ 0 ≤ t.alpha := by
  induction n generalizing t with
  | zero => simp only [steps, Option.some.injEq] at h; subst h; exact ⟨le_refl _, hmin, hpos⟩
  | succ n ih =>
    obtain ⟨u, r, hu, hr, rfl⟩ := steps_succ_eq_some h
    have hc := steps_config hu
    have hi := ih hu
    have hs := step_alpha_le hr (by rw [hc.alphaDecay]; exact hdecay)
      (by rw [hc.alphaDecay, hc.minAlpha]; exact hsign)
      (by rw [hc.minAlpha]; exact hi.2.1) hi.2.2
    rw [hc.minAlpha] at hs
    exact ⟨le_trans hs.1 hi.1, hs.2.1, hs.2.2⟩

/-- One batch update under a non-negative momentum gain, from a momentum
coefficient that is not above its cap. -/
theorem processBatch_eta_ge (O : Optimizable σ) (s : MBSGD σ) (b : Nat)
    (hgain : 0 ≤ s.etaGain) (hmax : s.eta ≤ s.maxEta) :
    s.eta ≤ (processBatch O s b).eta ∧ (processBatch O s b).eta ≤ s.maxEta := by
  rw [processBatch_eta]
  exact ⟨le_min (le_add_of_nonneg_right hgain) hmax, min_le_right _ _⟩

theorem batchLoop_eta_ge (O : Optimizable σ) (s : MBSGD σ)
    (hgain : 0 ≤ s.etaGain) (hmax : s.eta ≤ s.maxEta) (k : Nat) :
    s.eta ≤ (batchLoop O k s).eta ∧ (batchLoop O k s).eta ≤ s.maxEta ∧
      (batchLoop O k s).eta ≤ (batchLoop O (k + 1) s).eta := by
  induction k with
  | zero =>
    have h := processBatch_eta_ge O s 0 hgain hmax
    exact ⟨le_refl _, hmax, by rw [batchLoop_succ]; exact h.1⟩
  | succ k ih =>
    have hc := batchLoop_config O (k + 1) s
    have h1 := processBatch_eta_ge O (batchLoop O k s) k
      (by rw [(batchLoop_config O k s).etaGain]; exact hgain)
      (by rw [(batchLoop_config O k s).maxEta]; exact ih.2.1)
    rw [(batchLoop_config O k s).maxEta, ← batchLoop_succ] at h1
    have h2 := processBatch_eta_ge O (batchLoop O (k + 1) s) (k + 1)
      (by rw [hc.etaGain]; exact hgain) (by rw [hc.maxEta]; exact h1.2)
    rw [← batchLoop_succ] at h2
    exact ⟨le_trans ih.1 h1.1, h1.2, h2.1⟩

theorem step_eta_ge {O : Optimizable σ} {dv : StoppingCriteria} {s : MBSGD σ}
    {r : Bool × MBSGD σ} (h : step O dv s = some r)
    (hgain : 0 ≤ s.etaGain) (hmax : s.eta ≤ s.maxEta) :
    s.eta ≤ r.2.eta ∧ r.2.eta ≤ s.maxEta := by
  obtain ⟨a, ha, rfl⟩ := step_eq_some h
  have hc := assignPhase_config ha
  obtain ⟨_, ea⟩ := assignPhase_schedule ha
  have hb := batchLoop_eta_ge O a (by rw [hc.etaGain]; exact hgain)
    (by rw [hc.maxEta, ea]; exact hmax) a.batches.toNat
  rw [(finish_schedule O dv _).2]
  rw [hc.maxEta, ea] at hb
  exact ⟨hb.1, hb.2.1⟩

theorem steps_eta_inv {O : Optimizable σ} {dv : StoppingCriteria} {n : Nat} {s t : MBSGD σ}
    (h : steps O dv n s = some t) (hgain : 0 ≤ s.etaGain) (hmax : s.eta ≤ s.maxEta) :
    s.eta ≤ t.eta ∧ t.eta ≤ s.maxEta := by
  induction n generalizing t with
  | zero => simp only [steps, Option.some.injEq] at h; subst h; exact ⟨le_refl _, hmax⟩
  | succ n ih =>
    obtain ⟨u, r, hu, hr, rfl⟩ := steps_succ_eq_some h
    have hc := steps_config hu
    have hi := ih hu
    have hs := step_eta_ge hr (by rw [hc.etaGain]; exact hgain)
      (by rw [hc.maxEta]; exact hi.2)
    rw [hc.maxEta] at hs
    exact ⟨le_trans hi.1 hs.1, hs.2⟩

end MBSGD

namespace MBSGD

variable {σ : Type}

/-! ## The gain vector -/

/-- The loop `for (p < P)` of the `useGain` branch, run for `n` iterations. -/
theorem gainLoop_succ (minGain maxGain : fpt) (momentum : Vt) (n : Nat) (st : Vt × Vt) :
    (List.range (n + 1)).foldl (adaptGain minGain maxGain momentum) st =
      adaptGain minGain maxGain momentum
        ((List.range n).foldl (adaptGain minGain maxGain momentum) st) n := by
  simp [List.range_succ, List.foldl_append]

theorem adaptGain_length (minGain maxGain : fpt) (momentum : Vt) (st : Vt × Vt) (p : Nat) :
    (adaptGain minGain maxGain momentum st p).1.length = st.1.length := by
  unfold adaptGain
  simp only []
  split <;> simp

theorem adaptGain_other (minGain maxGain : fpt) (momentum : Vt) (st : Vt × Vt) (p q : Nat)
    (hq : q ≠ p) : (adaptGain minGain maxGain momentum st p).1[q]? = st.1[q]? := by
  unfold adaptGain
  simp only []
  split <;> simp [List.getElem?_set, Ne.symm hq]

theorem adaptGain_self (minGain maxGain : fpt) (momentum : Vt) (st : Vt × Vt) (p : Nat)
    (hle : minGain ≤ maxGain) (x : fpt)
    (hx : (adaptGain minGain maxGain momentum st p).1[p]? = some x) :
    minGain ≤ x ∧ x ≤ maxGain := by
  unfold adaptGain at hx
  simp only [] at hx
  generalize (if coeff momentum p * coeff st.2 p ≥ 0 then st.1.set p (coeff st.1 p + 0.05)
    else st.1.set p (coeff st.1 p * 0.95)) = g at hx
  rw [List.getElem?_set] at hx
  by_cases hp : p < g.length
  · simp only [hp, if_true, Option.some.injEq] at hx
    subst hx
    exact ⟨le_min hle (le_max_left _ _), min_le_left _ _⟩
  · simp [hp] at hx

theorem gainLoop_length (minGain maxGain : fpt) (momentum : Vt) (n : Nat) (st : Vt × Vt) :
    ((List.range n).foldl (adaptGain minGain maxGain momentum) st).1.length = st.1.length := by
  induction n with
  | zero => simp
  | succ n ih => rw [gainLoop_succ, adaptGain_length, ih]

theorem gainLoop_getElem? (minGain maxGain : fpt) (momentum : Vt) (hle : minGain ≤ maxGain)
    (n : Nat) (st : Vt × Vt) (q : Nat) (x : fpt)
    (hx : ((List.range n).foldl (adaptGain minGain maxGain momentum) st).1[q]? = some x) :
    (q < n → minGain ≤ x ∧ x ≤ maxGain) ∧ (n ≤ q → st.1[q]? = some x) := by
  induction n generalizing x with
  | zero => simpa using hx
  | succ n ih =>
    rw [gainLoop_succ] at hx
    by_cases hqn : q = n
    · subst hqn
      exact ⟨fun _ => adaptGain_self _ _ _ _ _ hle x hx, fun h => absurd h (by omega)⟩
    · rw [adaptGain_other _ _ _ _ _ _ hqn] at hx
      have h := ih x hx
      exact ⟨fun hlt => h.1 (by omega), fun hge => h.2 (by omega)⟩

theorem processBatch_gains (O : Optimizable σ) (s : MBSGD σ) (b : Nat) :
    (processBatch O s b).gains =
      if s.useGain then
        ((List.range s.P).foldl (adaptGain s.minGain s.maxGain s.momentum)
          (s.gains, (aggregate O s b).1)).1
      else s.gains := by
  unfold processBatch
  simp only []
  split <;> rfl

theorem processBatch_gradient_noGain (O : Optimizable σ) (s : MBSGD σ) (b : Nat)
    (hg : s.useGain = false) :
    (processBatch O s b).gradient = (aggregate O s b).1 ∧
    (processBatch O s b).momentum
      = vsub (smul s.eta s.momentum) (smul s.alpha (aggregate O s b).1) := by
  unfold processBatch
  simp [hg]

theorem processBatch_P (O : Optimizable σ) (s : MBSGD σ) (b : Nat) :
    (processBatch O s b).P = s.P ∧ (processBatch O s b).N = s.N ∧
    (processBatch O s b).batches = s.batches ∧
    (processBatch O s b).iteration = s.iteration := ⟨rfl, rfl, rfl, rfl⟩

theorem batchLoop_P (O : Optimizable σ) (k : Nat) (s : MBSGD σ) :
    (batchLoop O k s).P = s.P ∧ (batchLoop O k s).N = s.N ∧
    (batchLoop O k s).batches = s.batches ∧ (batchLoop O k s).iteration = s.iteration := by
  induction k with
  | zero => exact ⟨rfl, rfl, rfl, rfl⟩
  | succ k ih => rw [batchLoop_succ]; exact ih

theorem processBatch_gains_length (O : Optimizable σ) (s : MBSGD σ) (b : Nat) :
    (processBatch O s b).gains.length = s.gains.length := by
  rw [processBatch_gains]
  split
  · rw [gainLoop_length]
  · rfl

/-- After one batch with gain adaptation, every gain is clamped. -/
theorem processBatch_gains_clamped (O : Optimizable σ) (s : MBSGD σ) (b : Nat)
    (hg : s.useGain = true) (hle : s.minGain ≤ s.maxGain) (hlen : s.gains.length = s.P) :
    ∀ x ∈ (processBatch O s b).gains, s.minGain ≤ x ∧ x ≤ s.maxGain := by
  intro x hx
  rw [processBatch_gains, if_pos hg] at hx
  obtain ⟨q, hq, hqx⟩ := List.getElem_of_mem hx
  have hq' : q < s.P := by rw [gainLoop_length] at hq; exact hlen ▸ hq
  have hsome : ((List.range s.P).foldl (adaptGain s.minGain s.maxGain s.momentum)
      (s.gains, (aggregate O s b).1)).1[q]? = some x := by
    rw [List.getElem?_eq_getElem hq, hqx]
  exact (gainLoop_getElem? _ _ _ hle _ _ _ _ hsome).1 hq'

theorem processBatch_gainInv (O : Optimizable σ) (s : MBSGD σ) (b : Nat) (h : GainInv s) :
    GainInv (processBatch O s b) := by
  refine ⟨?_, h.flag, ?_, ?_⟩
  · rw [processBatch_gains_length]; exact h.length
  · intro hg
    have hg' : s.useGain = false := hg
    rw [processBatch_gains, hg']
    exact h.ones hg'
  · intro h1 h2 x hx
    have h1' : s.minGain ≤ 1 := h1
    have h2' : 1 ≤ s.maxGain := h2
    show s.minGain ≤ x ∧ x ≤ s.maxGain
    cases hg : s.useGain with
    | true => exact processBatch_gains_clamped O s b hg (le_trans h1' h2') h.length x hx
    | false =>
      rw [processBatch_gains, hg] at hx
      exact h.within h1' h2' x hx

theorem batchLoop_gainInv (O : Optimizable σ) (k : Nat) (s : MBSGD σ) (h : GainInv s) :
    GainInv (batchLoop O k s) := by
  induction k with
  | zero => exact h
  | succ k ih => rw [batchLoop_succ]; exact processBatch_gainInv O _ k ih

theorem initialise_gainInv {O : Optimizable σ} {s t : MBSGD σ} (h : initialise O s = some t)
    (hs : GainInv s) : GainInv t := by
  obtain ⟨_, _, rfl⟩ := initialise_eq_some h
  refine ⟨by simp, hs.flag, fun _ => rfl, ?_⟩
  intro h1 h2 x hx
  have hx1 : x = 1 := (List.mem_replicate.mp hx).2
  subst hx1
  exact ⟨h1, h2⟩

theorem assignPhase_gainInv {O : Optimizable σ} {s a : MBSGD σ} (h : assignPhase O s = some a)
    (hs : GainInv s) : GainInv a := by
  obtain ⟨_, s1, st, h1, _, rfl⟩ := assignPhase_eq_some h
  have hc : GainInv s1 := by
    by_cases hi : s.iteration < 0
    · simp only [hi, if_true] at h1; exact initialise_gainInv h1 hs
    · simp only [hi, if_false, Option.some.injEq] at h1; subst h1; exact hs
  exact ⟨hc.length, hc.flag, hc.ones, hc.within⟩

theorem finish_gains (O : Optimizable σ) (dv : StoppingCriteria) (s : MBSGD σ) :
    (finish O dv s).2.gains = s.gains ∧ (finish O dv s).2.P = s.P ∧
    (finish O dv s).2.N = s.N ∧ (finish O dv s).2.batches = s.batches := by
  unfold finish
  simp only []
  split <;> exact ⟨rfl, rfl, rfl, rfl⟩

theorem finish_gainInv (O : Optimizable σ) (dv : StoppingCriteria) (s : MBSGD σ)
    (h : GainInv s) : GainInv (finish O dv s).2 := by
  have hc := finish_config O dv s
  obtain ⟨hg, hP, _, _⟩ := finish_gains O dv s
  refine ⟨by rw [hg, hP]; exact h.length, ?_, ?_, ?_⟩
  · rw [hc.useGain, hc.minGain, hc.maxGain]; exact h.flag
  · rw [hc.useGain, hg, hP]; exact h.ones
  · rw [hc.minGain, hc.maxGain, hg]; exact h.within

theorem step_gainInv {O : Optimizable σ} {dv : StoppingCriteria} {s : MBSGD σ}
    {r : Bool × MBSGD σ} (h : step O dv s = some r) (hs : GainInv s) : GainInv r.2 := by
  obtain ⟨a, ha, rfl⟩ := step_eq_some h
  exact finish_gainInv O dv _ (batchLoop_gainInv O _ a (assignPhase_gainInv ha hs))

theorem steps_gainInv {O : Optimizable σ} {dv : StoppingCriteria} {n : Nat} {s t : MBSGD σ}
    (h : steps O dv n s = some t) (hs : GainInv s) : GainInv t := by
  induction n generalizing t with
  | zero => simp only [steps, Option.some.injEq] at h; subst h; exact hs
  | succ n ih =>
    obtain ⟨u, r, hu, hr, rfl⟩ := steps_succ_eq_some h
    exact step_gainInv hr (ih hu)

theorem construct_gainInv (learningRate learningRateDecay minimalLearningRate momentum
    momentumGain maximalMomentum : fpt) (batchSize : Int) (minGain maxGain : fpt)
    (opt : σ) (stop : StoppingCriteria) (rng : RandomNumberGenerator) :
    GainInv (construct learningRate learningRateDecay minimalLearningRate momentum
      momentumGain maximalMomentum batchSize minGain maxGain opt stop rng) :=
  ⟨rfl, rfl, fun _ => rfl, fun _ _ x hx => absurd hx (List.not_mem_nil x)⟩

/-- A step that processes at least one batch with gain adaptation leaves every
gain clamped. -/
theorem step_gains_clamped {O : Optimizable σ} {dv : StoppingCriteria} {s : MBSGD σ}
    {r : Bool × MBSGD σ} (h : step O dv s = some r) (hs : GainInv s)
    (hg : s.useGain = true) (hle : s.minGain ≤ s.maxGain) (hb : 0 < r.2.batches) :
    ∀ x ∈ r.2.gains, s.minGain ≤ x ∧ x ≤ s.maxGain := by
  obtain ⟨a, ha, rfl⟩ := step_eq_some h
  have hca := assignPhase_config ha
  have hia := assignPhase_gainInv ha hs
  obtain ⟨hfg, _, _, hfb⟩ := finish_gains O dv (batchLoop O a.batches.toNat a)
  rw [hfb, (batchLoop_P O _ a).2.2.1] at hb
  rw [hfg]
  obtain ⟨k, hk⟩ : ∃ k, a.batches.toNat = k + 1 :=
    ⟨a.batches.toNat - 1, by omega⟩
  rw [hk, batchLoop_succ]
  have hck := batchLoop_config O k a
  have hik := batchLoop_gainInv O k a hia
  have := processBatch_gains_clamped O (batchLoop O k a) k
    (by rw [hck.useGain, hca.useGain]; exact hg)
    (by rw [hck.minGain, hck.maxGain, hca.minGain, hca.maxGain]; exact hle) hik.length
  rw [hck.minGain, hck.maxGain, hca.minGain, hca.maxGain] at this
  exact this

end MBSGD

namespace MBSGD

variable {σ : Type}

/-! ## The assignment loop -/

theorem assign_zero (batches : Int) (st : RandomNumberGenerator × List (List Nat)) :
    assign batches 0 st = some st := rfl

theorem assign_succ (batches : Int) (N : Nat) (st : RandomNumberGenerator × List (List Nat)) :
    assign batches (N + 1) st =
      (assign batches N st).bind fun st =>
        (st.1.generateIndex batches).map fun d =>
          (d.2, List.modify (fun l => l ++ [N]) d.1 st.2) := by
  simp [assign, List.range_succ, List.foldlM_append]

theorem generateIndex_pos (g : RandomNumberGenerator) (n : Int) (hn : 0 < n) :
    g.generateIndex n = some (g.index g.cursor % n.toNat, g.next) ∧
      g.index g.cursor % n.toNat < n.toNat := by
  constructor
  · simp [RandomNumberGenerator.generateIndex, not_le.mpr hn]
  · exact Nat.mod_lt _ (by omega)

theorem count_flatten_modify (i n : Nat) (l : List (List Nat)) (d : Nat) (hd : d < l.length) :
    List.count i (List.modify (fun l => l ++ [n]) d l).flatten =
      List.count i l.flatten + if n = i then 1 else 0 := by
  induction l generalizing d with
  | nil => simp at hd
  | cons x xs ih =>
    cases d with
    | zero =>
      simp only [List.modify_zero_cons, List.flatten_cons, List.count_append,
        List.count_singleton, beq_iff_eq]
      omega
    | succ d =>
      simp only [List.modify_succ_cons, List.flatten_cons, List.count_append]
      rw [ih d (by simpa using hd)]
      omega

/-- With at least one bin and `batches` lists, the assignment loop returns, keeps
the number of lists, and adds each index below `N` exactly once. -/
theorem assign_spec (batches : Int) (hb : 0 < batches) (N : Nat)
    (st : RandomNumberGenerator × List (List Nat)) (hlen : st.2.length = batches.toNat) :
    ∃ st', assign batches N st = some st' ∧ st'.2.length = st.2.length ∧
      st'.1.cursor = st.1.cursor + N ∧
      ∀ i, List.count i st'.2.flatten = List.count i st.2.flatten + if i < N then 1 else 0 := by
  induction N with
  | zero => exact ⟨st, rfl, rfl, rfl, fun i => by simp⟩
  | succ N ih =>
    obtain ⟨st1, h1, hl1, hc1, hcount⟩ := ih
    obtain ⟨hg, hlt⟩ := generateIndex_pos st1.1 batches hb
    refine ⟨(st1.1.next, List.modify (fun l => l ++ [N]) (st1.1.index st1.1.cursor % batches.toNat)
      st1.2), ?_, ?_, ?_, ?_⟩
    · rw [assign_succ, h1]
      simp only [Option.some_bind, hg, Option.map_some']
    · simp only [List.length_modify]; exact hl1
    · simp only [RandomNumberGenerator.next, hc1]; omega
    · intro i
      simp only []
      rw [count_flatten_modify i N st1.2 _ (by rw [hl1, hlen]; exact hlt), hcount i]
      by_cases h1 : N = i
      · subst h1; simp
      · by_cases h2 : i < N
        · have : i < N + 1 := by omega
          simp [h1, h2, this]
        · have : ¬ i < N + 1 := by omega
          simp [h1, h2, this]

theorem assign_eq_some_drawable {batches : Int} {N : Nat}
    {st st' : RandomNumberGenerator × List (List Nat)} (h : assign batches N st = some st') :
    0 < batches ∨ N = 0 := by
  cases N with
  | zero => exact Or.inr rfl
  | succ N =>
    left
    rw [assign_succ] at h
    simp only [Option.bind_eq_some, Option.map_eq_some'] at h
    obtain ⟨st1, _, d, hd, _⟩ := h
    by_contra hb
    simp [RandomNumberGenerator.generateIndex, not_lt.mp hb] at hd

theorem assign_length {batches : Int} {N : Nat}
    {st st' : RandomNumberGenerator × List (List Nat)} (h : assign batches N st = some st') :
    st'.2.length = st.2.length := by
  induction N generalizing st' with
  | zero => simp only [assign_zero, Option.some.injEq] at h; subst h; rfl
  | succ N ih =>
    rw [assign_succ] at h
    simp only [Option.bind_eq_some, Option.map_eq_some'] at h
    obtain ⟨st1, h1, d, _, rfl⟩ := h
    simp only [List.length_modify]
    exact ih h1

/-- A list of natural numbers whose sum is one has exactly one entry equal to
one, the others being zero. -/
theorem sum_eq_one_unique (l : List Nat) (h : l.sum = 1) :
    ∃ b, b < l.length ∧ l[b]? = some 1 ∧ ∀ b', b' ≠ b → l[b']?.getD 0 = 0 := by
  induction l with
  | nil => simp at h
  | cons x xs ih =>
    simp only [List.sum_cons] at h
    by_cases hx : x = 1
    · subst hx
      have hxs : xs.sum = 0 := by omega
      refine ⟨0, by simp, by simp, ?_⟩
      intro b' hb'
      obtain ⟨c, rfl⟩ : ∃ c, b' = c + 1 := ⟨b' - 1, by omega⟩
      simp only [List.getElem?_cons_succ]
      cases hc : xs[c]? with
      | none => rfl
      | some y =>
        have hmem : y ∈ xs := List.getElem?_mem hc
        have := List.single_le_sum (fun _ _ => Nat.zero_le _) y hmem
        simp only [Option.getD_some]; omega
    · have hx0 : x = 0 := by omega
      subst hx0
      obtain ⟨b, hb, hb1, hrest⟩ := ih (by omega)
      refine ⟨b + 1, by simpa using hb, by simpa using hb1, ?_⟩
      intro b' hb'
      cases b' with
      | zero => simp
      | succ c =>
        simp only [List.getElem?_cons_succ]
        exact hrest c (by omega)

end MBSGD

namespace MBSGD

variable {σ : Type}

/-! ## Invariants between two calls of `step` -/

theorem resize_length (l : List (List Nat)) (n : Nat) : (resize l n).length = n := by
  simp only [resize, List.length_append, List.length_take, List.length_replicate]
  omega

theorem resize_empty (l : List (List Nat)) (n : Nat) (h : ∀ x ∈ l, x = []) :
    ∀ x ∈ resize l n, x = [] := by
  intro x hx
  simp only [resize, List.mem_append] at hx
  rcases hx with hx | hx
  · exact h x (List.mem_of_mem_take hx)
  · exact (List.mem_replicate.mp hx).2

theorem tdiv_natCast_nonneg (N : Nat) (b : Int) (hb : 0 < b) : 0 ≤ Int.tdiv (N : Int) b :=
  Int.tdiv_nonneg (Int.ofNat_nonneg N) (le_of_lt hb)

theorem tdiv_natCast_pos (N : Nat) (b : Int) (hb : 0 < b) (hN : b ≤ (N : Int)) :
    0 < Int.tdiv (N : Int) b := by
  rw [Int.tdiv_eq_ediv (Int.ofNat_nonneg N) (le_of_lt hb)]
  have : (1 : Int) ≤ (N : Int) / b := (Int.le_ediv_iff_mul_le hb).2 (by simpa using hN)
  omega

theorem processBatch_batchAssignment (O : Optimizable σ) (s : MBSGD σ) (b : Nat) :
    (processBatch O s b).batchAssignment = s.batchAssignment.set b [] := rfl

theorem batchLoop_batchAssignment_length (O : Optimizable σ) (k : Nat) (s : MBSGD σ) :
    (batchLoop O k s).batchAssignment.length = s.batchAssignment.length := by
  induction k with
  | zero => rfl
  | succ k ih => rw [batchLoop_succ, processBatch_batchAssignment, List.length_set, ih]

theorem batchLoop_batchAssignment (O : Optimizable σ) (k : Nat) (s : MBSGD σ) (q : Nat)
    (l : List Nat) (h : (batchLoop O k s).batchAssignment[q]? = some l) :
    (q < k → l = []) ∧ (k ≤ q → s.batchAssignment[q]? = some l) := by
  induction k generalizing l with
  | zero => exact ⟨fun hq => absurd hq (by omega), fun _ => h⟩
  | succ k ih =>
    rw [batchLoop_succ, processBatch_batchAssignment, List.getElem?_set] at h
    by_cases hqk : k = q
    · subst hqk
      simp only [if_true] at h
      split at h
      · simp only [Option.some.injEq] at h
        exact ⟨fun _ => h.symm, fun hge => absurd hge (by omega)⟩
      · exact absurd h (by simp)
    · simp only [hqk, if_false] at h
      have := ih l h
      exact ⟨fun hlt => this.1 (by omega), fun hge => this.2 (by omega)⟩

theorem batchLoop_cleared (O : Optimizable σ) (s : MBSGD σ) :
    ∀ l ∈ (batchLoop O s.batchAssignment.length s).batchAssignment, l = [] := by
  intro l hl
  obtain ⟨q, hq, hql⟩ := List.getElem_of_mem hl
  have hsome : (batchLoop O s.batchAssignment.length s).batchAssignment[q]? = some l := by
    rw [List.getElem?_eq_getElem hq, hql]
  rw [batchLoop_batchAssignment_length] at hq
  exact (batchLoop_batchAssignment O _ s q l hsome).1 hq

theorem finish_fst (O : Optimizable σ) (dv : StoppingCriteria) (s : MBSGD σ) :
    (finish O dv s).1 =
      ((decide (s.stop.maximalIterations = dv.maximalFunctionEvaluations) ||
        decide (s.iteration + 1 ≤ s.stop.maximalIterations)) &&
      (decide (s.stop.minimalSearchSpaceStep = dv.minimalSearchSpaceStep) ||
        normGe s.momentum s.stop.minimalSearchSpaceStep)) := rfl

theorem finish_snd (O : Optimizable σ) (dv : StoppingCriteria) (s : MBSGD σ) :
    (finish O dv s).2.iteration = (if (finish O dv s).1 then s.iteration + 1 else -1) ∧
    (finish O dv s).2.momentum = s.momentum ∧
    (finish O dv s).2.batchAssignment = s.batchAssignment ∧
    (finish O dv s).2.parameters = s.parameters ∧
    (finish O dv s).2.opt = O.finishedIteration s.opt ∧
    (finish O dv s).2.rng = s.rng := by
  rw [finish_fst]
  unfold finish
  simp only []
  split <;> exact ⟨rfl, rfl, rfl, rfl, rfl, rfl⟩

/-- The state in which the lazy initialization leaves the counters and the
batch lists. -/
theorem assignPhase_spec {O : Optimizable σ} {s a : MBSGD σ} (h : assignPhase O s = some a)
    (hs : RunInv s) :
    a.iteration = iterationBefore s ∧ a.N = examplesAtStep O s ∧
    a.batches = Int.tdiv (a.N : Int) a.batchSize ∧ (0 < a.batches ∨ a.N = 0) ∧
    0 ≤ a.batches ∧ a.batchAssignment.length = a.batches.toNat ∧
    ∃ st1 : RandomNumberGenerator × List (List Nat),
      (∀ l ∈ st1.2, l = []) ∧ st1.2.length = a.batches.toNat ∧ st1.1 = s.rng ∧
      assign a.batches a.N st1 = some (a.rng, a.batchAssignment) := by
  obtain ⟨_, s1, st, h1, hst, rfl⟩ := assignPhase_eq_some h
  have hd := assign_eq_some_drawable hst
  have hl := assign_length hst
  by_cases hi : s.iteration < 0
  · simp only [hi, if_true] at h1
    obtain ⟨h0, hq, rfl⟩ := initialise_eq_some h1
    simp only [] at hd hl hst
    refine ⟨by simp [iterationBefore, hi], by simp [examplesAtStep, hi], rfl, hd, hq, ?_, ?_⟩
    · rw [hl, resize_length]
    · exact ⟨(s.rng, resize s.batchAssignment
        (Int.tdiv (O.examples s.opt : Int) s.batchSize).toNat),
        resize_empty _ _ hs.empty, resize_length _ _, rfl, hst⟩
  · simp only [hi, if_false, Option.some.injEq] at h1
    subst h1
    have hi' : 0 ≤ s.iteration := not_lt.mp hi
    have hb : 0 ≤ s.batches := by
      rcases hs.drawable hi' with h | h
      · exact le_of_lt h
      · rw [hs.quotient hi', h]; simp
    refine ⟨by simp [iterationBefore, hi], by simp [examplesAtStep, hi], hs.quotient hi', hd,
      hb, ?_, ?_⟩
    · simp only []; rw [hl]; exact hs.length hi'
    · exact ⟨(s.rng, s.batchAssignment), hs.empty, hs.length hi', rfl, hst⟩

theorem step_runInv {O : Optimizable σ} {dv : StoppingCriteria} {s : MBSGD σ}
    {r : Bool × MBSGD σ} (h : step O dv s = some r) (hs : RunInv s) : RunInv r.2 := by
  obtain ⟨a, ha, rfl⟩ := step_eq_some h
  obtain ⟨hit, _, hq, hd, hb0, hlen, _⟩ := assignPhase_spec ha hs
  obtain ⟨fi, _, fba, _, _, _⟩ := finish_snd O dv (batchLoop O a.batches.toNat a)
  obtain ⟨_, fP, fN, fb⟩ := finish_gains O dv (batchLoop O a.batches.toNat a)
  obtain ⟨_, bN, bb, bi⟩ := batchLoop_P O a.batches.toNat a
  have fc := (batchLoop_config O a.batches.toNat a).trans
    (finish_config O dv (batchLoop O a.batches.toNat a))
  have hit0 : 0 ≤ a.iteration := by
    rw [hit]; unfold iterationBefore; split <;> omega
  refine ⟨?_, ?_, ?_, ?_, ?_⟩
  · rw [fba]
    have := batchLoop_cleared O a
    rw [hlen] at this
    exact this
  · intro _
    rw [fba, batchLoop_batchAssignment_length, fb, bb]; exact hlen
  · intro _
    rw [fb, bb, fN, bN, fc.batchSize]; exact hq
  · intro _
    rw [fb, bb, fN, bN]; exact hd
  · rw [fi, bi]
    split
    · right; omega
    · left; rfl

theorem steps_runInv {O : Optimizable σ} {dv : StoppingCriteria} {n : Nat} {s t : MBSGD σ}
    (h : steps O dv n s = some t) (hs : RunInv s) : RunInv t := by
  induction n generalizing t with
  | zero => simp only [steps, Option.some.injEq] at h; subst h; exact hs
  | succ n ih =>
    obtain ⟨u, r, hu, hr, rfl⟩ := steps_succ_eq_some h
    exact step_runInv hr (ih hu)

theorem construct_runInv (learningRate learningRateDecay minimalLearningRate momentum
    momentumGain maximalMomentum : fpt) (batchSize : Int) (minGain maxGain : fpt)
    (opt : σ) (stop : StoppingCriteria) (rng : RandomNumberGenerator) :
    RunInv (construct learningRate learningRateDecay minimalLearningRate momentum
      momentumGain maximalMomentum batchSize minGain maxGain opt stop rng) :=
  ⟨fun l hl => absurd hl (List.not_mem_nil l),
    fun h => absurd (show (0 : Int) ≤ -1 from h) (by decide),
    fun h => absurd (show (0 : Int) ≤ -1 from h) (by decide),
    fun h => absurd (show (0 : Int) ≤ -1 from h) (by decide), Or.inl rfl⟩

/-- A call of `step` returns when the model can initialize itself and, if the
call begins with `initialize()`, the batch size is positive and at most the
number of examples (or there are no examples). -/
theorem assignPhase_isSome {O : Optimizable σ} {s : MBSGD σ} (hs : RunInv s)
    (hp : O.providesInitialization s.opt = true)
    (hstart : s.iteration < 0 →
      0 < s.batchSize ∧ (s.batchSize ≤ (O.examples s.opt : Int) ∨ O.examples s.opt = 0)) :
    ∃ a, assignPhase O s = some a := by
  have key : ∀ s1 : MBSGD σ, (0 < s1.batches ∨ s1.N = 0) →
      s1.batchAssignment.length = s1.batches.toNat →
      ∃ st, assign s1.batches s1.N (s1.rng, s1.batchAssignment) = some st := by
    intro s1 hd hl
    rcases hd with hd | hd
    · obtain ⟨st', h', _⟩ := assign_spec s1.batches hd s1.N (s1.rng, s1.batchAssignment) hl
      exact ⟨st', h'⟩
    · rw [hd]; exact ⟨_, assign_zero _ _⟩
  unfold assignPhase
  simp only [hp, if_true]
  by_cases hi : s.iteration < 0
  · obtain ⟨hbs, hN⟩ := hstart hi
    obtain ⟨t, ht⟩ := initialise_isSome (O := O) (s := s) (ne_of_gt hbs)
      (tdiv_natCast_nonneg _ _ hbs)
    obtain ⟨_, _, ht'⟩ := initialise_eq_some ht
    simp only [hi, if_true, ht, Option.some_bind]
    obtain ⟨st, hst⟩ := key t (by
        rw [ht']
        rcases hN with hN | hN
        · exact Or.inl (tdiv_natCast_pos _ _ hbs hN)
        · exact Or.inr hN) (by rw [ht']; exact resize_length _ _)
    exact ⟨_, by rw [hst]; rfl⟩
  · have hi' : 0 ≤ s.iteration := not_lt.mp hi
    simp only [hi, if_false, Option.some_bind]
    obtain ⟨st, hst⟩ := key s (hs.drawable hi') (hs.length hi')
    exact ⟨_, by rw [hst]; rfl⟩

theorem step_isSome {O : Optimizable σ} (dv : StoppingCriteria) {s : MBSGD σ} (hs : RunInv s)
    (hp : O.providesInitialization s.opt = true)
    (hstart : s.iteration < 0 →
      0 < s.batchSize ∧ (s.batchSize ≤ (O.examples s.opt : Int) ∨ O.examples s.opt = 0)) :
    ∃ r, step O dv s = some r := by
  obtain ⟨a, ha⟩ := assignPhase_isSome hs hp hstart
  exact ⟨_, by unfold step; rw [ha]; rfl⟩

/-- The flag and the counter after a call of `step` that returns. -/
theorem step_outcome {O : Optimizable σ} {dv : StoppingCriteria} {s : MBSGD σ}
    {r : Bool × MBSGD σ} (h : step O dv s = some r) (hs : RunInv s) :
    r.1 =
      ((decide (s.stop.maximalIterations = dv.maximalFunctionEvaluations) ||
        decide (iterationBefore s + 1 ≤ s.stop.maximalIterations)) &&
      (decide (s.stop.minimalSearchSpaceStep = dv.minimalSearchSpaceStep) ||
        normGe r.2.momentum s.stop.minimalSearchSpaceStep)) ∧
    r.2.iteration = (if r.1 then iterationBefore s + 1 else -1) := by
  obtain ⟨a, ha, rfl⟩ := step_eq_some h
  obtain ⟨hit, _⟩ := assignPhase_spec ha hs
  obtain ⟨fi, fm, _⟩ := finish_snd O dv (batchLoop O a.batches.toNat a)
  have hc := (assignPhase_config ha).trans (batchLoop_config O a.batches.toNat a)
  obtain ⟨_, _, _, bi⟩ := batchLoop_P O a.batches.toNat a
  refine ⟨?_, ?_⟩
  · rw [finish_fst, fm, hc.stop, bi, hit]
  · rw [fi, bi, hit]

end MBSGD

namespace MBSGD

variable {σ : Type}

/-! ## Runs of several steps -/

theorem steps_one {O : Optimizable σ} {dv : StoppingCriteria} {s : MBSGD σ}
    {r : Bool × MBSGD σ} (h : step O dv s = some r) : steps O dv 1 s = some r.2 := by
  simp [steps, h]

/-- Every call of `step` returns for a model that can always initialize itself
and always has at least `batchSize` examples (or none), when `batchSize` is
positive. -/
theorem steps_isSome {O : Optimizable σ} (dv : StoppingCriteria) {s : MBSGD σ} (hs : RunInv s)
    (hp : ∀ m, O.providesInitialization m = true) (hbs : 0 < s.batchSize)
    (hN : ∀ m, s.batchSize ≤ (O.examples m : Int) ∨ O.examples m = 0) (n : Nat) :
    ∃ t, steps O dv n s = some t := by
  induction n with
  | zero => exact ⟨s, rfl⟩
  | succ n ih =>
    obtain ⟨u, hu⟩ := ih
    have hc := steps_config hu
    obtain ⟨r, hr⟩ := step_isSome dv (steps_runInv hu hs) (hp u.opt)
      (fun _ => ⟨by rw [hc.batchSize]; exact hbs, by rw [hc.batchSize]; exact hN u.opt⟩)
    exact ⟨r.2, by simp [steps, hu, hr]⟩

/-! ## Gains (C4, C7) -/

/-- C4 (as amended): for a configuration with `minGain ≤ maxGain`, after any
number `n + 1 ≥ 1` of calls of `step` that returned, the gain vector has `P`
entries and each lies in `[minGain, maxGain]`, provided that the last call
processed at least one batch (`batches ≥ 1`) or that `minGain ≤ 1 ≤ maxGain`. -/
theorem C4_gains_within_bounds (O : Optimizable σ) (dv : StoppingCriteria)
    (learningRate learningRateDecay minimalLearningRate momentum momentumGain
      maximalMomentum : fpt) (batchSize : Int) (minGain maxGain : fpt)
    (opt : σ) (stop : StoppingCriteria) (rng : RandomNumberGenerator) (n : Nat) (s : MBSGD σ)
    (hle : minGain ≤ maxGain)
    (hs : steps O dv (n + 1) (construct learningRate learningRateDecay minimalLearningRate
      momentum momentumGain maximalMomentum batchSize minGain maxGain opt stop rng) = some s)
    (hb : 0 < s.batches ∨ (minGain ≤ 1 ∧ 1 ≤ maxGain)) :
    s.gains.length = s.P ∧ ∀ x ∈ s.gains, minGain ≤ x ∧ x ≤ maxGain := by
  obtain ⟨u, r, hu, hr, rfl⟩ := steps_succ_eq_some hs
  have hcu := steps_config hu
  have hiu := steps_gainInv hu (construct_gainInv _ _ _ _ _ _ _ _ _ _ _ _)
  have hir := step_gainInv hr hiu
  have hcr := hcu.trans (step_config hr)
  have emin : r.2.minGain = minGain := hcr.minGain
  have emax : r.2.maxGain = maxGain := hcr.maxGain
  refine ⟨hir.length, ?_⟩
  rcases hb with hb | ⟨h1, h2⟩
  · cases hg : u.useGain with
    | true =>
      have := step_gains_clamped hr hiu hg
        (by rw [hcu.minGain, hcu.maxGain]; exact hle) hb
      rw [hcu.minGain, hcu.maxGain] at this
      exact this
    | false =>
      have hflag := hiu.flag
      rw [hg, hcu.minGain, hcu.maxGain] at hflag
      have hboth : minGain = 1 ∧ maxGain = 1 := by
        have := of_decide_eq_false hflag.symm
        exact ⟨by_contra fun h => this (Or.inl h), by_contra fun h => this (Or.inr h)⟩
      have hones := hir.ones (by rw [(step_config hr).useGain]; exact hg)
      intro x hx
      rw [hones] at hx
      have hx1 : x = 1 := (List.mem_replicate.mp hx).2
      rw [hx1, hboth.1, hboth.2]
      exact ⟨le_refl _, le_refl _⟩
  · have := hir.within (by rw [emin]; exact h1) (by rw [emax]; exact h2)
    rw [emin, emax] at this
    exact this

/-- C7: an optimizer constructed with `minGain = maxGain = 1` keeps every gain
equal to `1` through any number of calls of `step`, and in every batch of a
further call the gradient that enters the momentum update is the aggregated
one (sum over the batch divided by `batchSize`), not rescaled by a gain. -/
theorem C7_gains_stay_one (O : Optimizable σ) (dv : StoppingCriteria)
    (learningRate learningRateDecay minimalLearningRate momentum momentumGain
      maximalMomentum : fpt) (batchSize : Int)
    (opt : σ) (stop : StoppingCriteria) (rng : RandomNumberGenerator) (n : Nat) (s : MBSGD σ)
    (hs : steps O dv n (construct learningRate learningRateDecay minimalLearningRate
      momentum momentumGain maximalMomentum batchSize 1 1 opt stop rng) = some s) :
    s.gains = List.replicate s.P 1 ∧ (∀ x ∈ s.gains, x = 1) ∧
    ∀ a, assignPhase O s = some a → ∀ k,
      (batchLoop O (k + 1) a).gains = List.replicate a.P 1 ∧
      (batchLoop O (k + 1) a).gradient = (aggregate O (batchLoop O k a) k).1 ∧
      (batchLoop O (k + 1) a).momentum =
        vsub (smul (batchLoop O k a).eta (batchLoop O k a).momentum)
          (smul (batchLoop O k a).alpha (aggregate O (batchLoop O k a) k).1) := by
  have hc := steps_config hs
  have hi := steps_gainInv hs (construct_gainInv _ _ _ _ _ _ _ 1 1 _ _ _)
  have hg : s.useGain = false := by rw [hc.useGain]; simp [construct]
  have hones := hi.ones hg
  refine ⟨hones, ?_, ?_⟩
  · intro x hx
    rw [hones] at hx
    exact (List.mem_replicate.mp hx).2
  · intro a ha k
    have hca := assignPhase_config ha
    have hia := assignPhase_gainInv ha hi
    have hck := batchLoop_config O k a
    have hgk : (batchLoop O k a).useGain = false := by rw [hck.useGain, hca.useGain]; exact hg
    have hik1 := batchLoop_gainInv O (k + 1) a hia
    have := hik1.ones (by rw [(batchLoop_config O (k + 1) a).useGain, hca.useGain]; exact hg)
    rw [(batchLoop_P O (k + 1) a).1] at this
    rw [batchLoop_succ] at this ⊢
    exact ⟨this, processBatch_gradient_noGain O _ k hgk⟩

/-! ## Learning rate and momentum coefficient (C5, C6) -/

/-- C5 (as amended): for a configuration with `learningRateDecay ≤ 1`,
`minimalLearningRate ≤ learningRate`, `0 ≤ learningRate`, and
`0 ≤ learningRateDecay` or `0 ≤ minimalLearningRate`: in every state `s` reached
by calls of `step`, `minimalLearningRate ≤ alpha ≤ learningRate`; a further call
that returns does not increase `alpha` and leaves it at least
`minimalLearningRate`; and within that call no batch update increases
`alpha`. -/
theorem C5_alpha_never_increases (O : Optimizable σ) (dv : StoppingCriteria)
    (learningRate learningRateDecay minimalLearningRate momentum momentumGain
      maximalMomentum : fpt) (batchSize : Int) (minGain maxGain : fpt)
    (opt : σ) (stop : StoppingCriteria) (rng : RandomNumberGenerator) (n : Nat) (s : MBSGD σ)
    (hdecay : learningRateDecay ≤ 1) (hmin : minimalLearningRate ≤ learningRate)
    (hlr : 0 ≤ learningRate) (hsign : 0 ≤ learningRateDecay ∨ 0 ≤ minimalLearningRate)
    (hs : steps O dv n (construct learningRate learningRateDecay minimalLearningRate
      momentum momentumGain maximalMomentum batchSize minGain maxGain opt stop rng) = some s) :
    minimalLearningRate ≤ s.alpha ∧ s.alpha ≤ learningRate ∧
    (∀ r, step O dv s = some r → r.2.alpha ≤ s.alpha ∧ minimalLearningRate ≤ r.2.alpha) ∧
    (∀ a, assignPhase O s = some a → ∀ k,
      (batchLoop O (k + 1) a).alpha ≤ (batchLoop O k a).alpha ∧
      minimalLearningRate ≤ (batchLoop O (k + 1) a).alpha) := by
  have hc := steps_config hs
  have hi := steps_alpha_inv hs hdecay hsign hmin hlr
  have e1 : s.alphaDecay = learningRateDecay := hc.alphaDecay
  have e2 : s.minAlpha = minimalLearningRate := hc.minAlpha
  refine ⟨hi.2.1, hi.1, ?_, ?_⟩
  · intro r hr
    have := step_alpha_le hr (by rw [e1]; exact hdecay) (by rw [e1, e2]; exact hsign)
      (by rw [e2]; exact hi.2.1) hi.2.2
    rw [e2] at this
    exact ⟨this.1, this.2.1⟩
  · intro a ha k
    have hca := assignPhase_config ha
    obtain ⟨ea, _⟩ := assignPhase_schedule ha
    have f1 : a.alphaDecay = learningRateDecay := hca.alphaDecay.trans e1
    have f2 : a.minAlpha = minimalLearningRate := hca.minAlpha.trans e2
    have hk := batchLoop_alpha_le O a (by rw [f1]; exact hdecay) (by rw [f1, f2]; exact hsign)
      (by rw [f2, ea]; exact hi.2.1) (by rw [ea]; exact hi.2.2)
    have h1 := hk k
    have h2 := hk (k + 1)
    rw [f2] at h2
    exact ⟨h1.2.2.2, h2.2.1⟩

/-- C6 (as amended): for a configuration with `0 ≤ momentumGain` and
`momentum ≤ maximalMomentum`: in every state `s` reached by calls of `step`,
`momentum ≤ eta ≤ maximalMomentum`; a further call that returns does not
decrease `eta` and leaves it at most `maximalMomentum`; and within that call no
batch update decreases `eta`. -/
theorem C6_eta_never_decreases (O : Optimizable σ) (dv : StoppingCriteria)
    (learningRate learningRateDecay minimalLearningRate momentum momentumGain
      maximalMomentum : fpt) (batchSize : Int) (minGain maxGain : fpt)
    (opt : σ) (stop : StoppingCriteria) (rng : RandomNumberGenerator) (n : Nat) (s : MBSGD σ)
    (hgain : 0 ≤ momentumGain) (hmax : momentum ≤ maximalMomentum)
    (hs : steps O dv n (construct learningRate learningRateDecay minimalLearningRate
      momentum momentumGain maximalMomentum batchSize minGain maxGain opt stop rng) = some s) :
    momentum ≤ s.eta ∧ s.eta ≤ maximalMomentum ∧
    (∀ r, step O dv s = some r → s.eta ≤ r.2.eta ∧ r.2.eta ≤ maximalMomentum) ∧
    (∀ a, assignPhase O s = some a → ∀ k,
      (batchLoop O k a).eta ≤ (batchLoop O (k + 1) a).eta ∧
      (batchLoop O (k + 1) a).eta ≤ maximalMomentum) := by
  have hc := steps_config hs
  have hi := steps_eta_inv hs hgain hmax
  have e1 : s.etaGain = momentumGain := hc.etaGain
  have e2 : s.maxEta = maximalMomentum := hc.maxEta
  refine ⟨hi.1, hi.2, ?_, ?_⟩
  · intro r hr
    have := step_eta_ge hr (by rw [e1]; exact hgain) (by rw [e2]; exact hi.2)
    rw [e2] at this
    exact this
  · intro a ha k
    have hca := assignPhase_config ha
    obtain ⟨_, ea⟩ := assignPhase_schedule ha
    have f1 : a.etaGain = momentumGain := hca.etaGain.trans e1
    have f2 : a.maxEta = maximalMomentum := hca.maxEta.trans e2
    have hk := batchLoop_eta_ge O a (by rw [f1]; exact hgain) (by rw [f2, ea]; exact hi.2)
    have h1 := hk k
    have h2 := hk (k + 1)
    rw [f2] at h2
    exact ⟨h1.2.2, h2.2.1⟩

end MBSGD

namespace MBSGD

variable {σ : Type}

/-! ## Termination test (C8, C9) -/

/-- The comparison `normGe a t` is the comparison of `t` with the Euclidean
norm, the real square root of `squaredNorm a`. -/
theorem normGe_iff (a : Vt) (t : fpt) :
    normGe a t = true ↔ (t : ℝ) ≤ Real.sqrt ((squaredNorm a : ℚ) : ℝ) := by
  unfold normGe
  rw [decide_eq_true_iff]
  by_cases ht : t ≤ 0
  · have h0 : (t : ℝ) ≤ 0 := by exact_mod_cast ht
    exact ⟨fun _ => le_trans h0 (Real.sqrt_nonneg _), fun _ => Or.inl ht⟩
  · have hpos : (0 : ℝ) < (t : ℝ) := by exact_mod_cast not_le.mp ht
    rw [Real.le_sqrt' hpos]
    constructor
    · rintro (h | h)
      · exact absurd h ht
      · have : ((t * t : ℚ) : ℝ) ≤ ((squaredNorm a : ℚ) : ℝ) := by exact_mod_cast h
        simpa [sq] using this
    · intro h
      right
      have : ((t * t : ℚ) : ℝ) ≤ ((squaredNorm a : ℚ) : ℝ) := by simpa [sq] using h
      exact_mod_cast this

/-- One call of `step` when the iteration bound is not the sentinel and the
step-size threshold is: the call returns, the flag tells whether the
incremented counter is within the bound. -/
theorem step_bounded (O : Optimizable σ) (dv : StoppingCriteria) {s : MBSGD σ} (hs : RunInv s)
    (hp : O.providesInitialization s.opt = true)
    (hstart : s.iteration < 0 →
      0 < s.batchSize ∧ (s.batchSize ≤ (O.examples s.opt : Int) ∨ O.examples s.opt = 0))
    (hmax : s.stop.maximalIterations ≠ dv.maximalFunctionEvaluations)
    (hstep : s.stop.minimalSearchSpaceStep = dv.minimalSearchSpaceStep) :
    ∃ t, step O dv s = some (decide (iterationBefore s + 1 ≤ s.stop.maximalIterations), t) ∧
      t.iteration = (if iterationBefore s + 1 ≤ s.stop.maximalIterations
        then iterationBefore s + 1 else -1) ∧
      RunInv t ∧ SameConfig s t := by
  obtain ⟨r, hr⟩ := step_isSome dv hs hp hstart
  obtain ⟨h1, h2⟩ := step_outcome hr hs
  have hflag : r.1 = decide (iterationBefore s + 1 ≤ s.stop.maximalIterations) := by
    rw [h1]; simp [hmax, hstep]
  refine ⟨r.2, ?_, ?_, step_runInv hr hs, step_config hr⟩
  · rw [hr, ← hflag]
  · rw [h2, hflag]; simp

/-- C8: with `maximalIterations = 5` (a bound, not the sentinel that `step`
compares it with) and `minimalSearchSpaceStep` at its sentinel, on a model that
can initialize itself and has at least `batchSize ≥ 1` examples (or none):
starting from an uninitialized optimizer (`iteration = -1`, freshly constructed
or left by an earlier run), the first five calls of `step` return `true` with
the counter at 1, 2, 3, 4, 5, and the sixth returns `false` and leaves the
counter at `-1`. -/
theorem C8_stops_after_five_iterations (O : Optimizable σ) (dv : StoppingCriteria)
    (learningRate learningRateDecay minimalLearningRate momentum momentumGain
      maximalMomentum : fpt) (batchSize : Int) (minGain maxGain : fpt)
    (opt : σ) (stop : StoppingCriteria) (rng : RandomNumberGenerator) (n : Nat) (s0 : MBSGD σ)
    (hs : steps O dv n (construct learningRate learningRateDecay minimalLearningRate
      momentum momentumGain maximalMomentum batchSize minGain maxGain opt stop rng) = some s0)
    (hit : s0.iteration = -1)
    (hmax : stop.maximalIterations = 5)
    (hstep : stop.minimalSearchSpaceStep = dv.minimalSearchSpaceStep)
    (hsentinel : dv.maximalFunctionEvaluations ≠ 5)
    (hp : ∀ m, O.providesInitialization m = true) (hbs : 0 < batchSize)
    (hN : batchSize ≤ (O.examples s0.opt : Int) ∨ O.examples s0.opt = 0) :
    ∃ s1 s2 s3 s4 s5 s6 : MBSGD σ,
      step O dv s0 = some (true, s1) ∧ s1.iteration = 1 ∧
      step O dv s1 = some (true, s2) ∧ s2.iteration = 2 ∧
      step O dv s2 = some (true, s3) ∧ s3.iteration = 3 ∧
      step O dv s3 = some (true, s4) ∧ s4.iteration = 4 ∧
      step O dv s4 = some (true, s5) ∧ s5.iteration = 5 ∧
      step O dv s5 = some (false, s6) ∧ s6.iteration = -1 := by
  have hc := steps_config hs
  have hi := steps_runInv hs (construct_runInv learningRate learningRateDecay
    minimalLearningRate momentum momentumGain maximalMomentum batchSize minGain maxGain opt
    stop rng)
  have hst0 : s0.stop = stop := hc.stop
  have ebs : s0.batchSize = batchSize := hc.batchSize
  have next : ∀ (s : MBSGD σ) (k : Int), RunInv s → s.stop = stop → 0 ≤ k → s.iteration = k →
      ∃ t, step O dv s = some (decide (k + 1 ≤ 5), t) ∧
        t.iteration = (if k + 1 ≤ 5 then k + 1 else -1) ∧ RunInv t ∧ t.stop = stop := by
    intro s k hs hst hk hit
    have hib : iterationBefore s = k := by
      unfold iterationBefore; rw [hit]; simp [not_lt.mpr hk]
    obtain ⟨t, h1, h2, h3, h4⟩ := step_bounded O dv hs (hp s.opt)
      (fun h => absurd h (by rw [hit]; exact not_lt.mpr hk))
      (by rw [hst, hmax]; exact fun h => hsentinel h.symm) (by rw [hst]; exact hstep)
    rw [hib, hst, hmax] at h1 h2
    exact ⟨t, h1, h2, h3, h4.stop.trans hst⟩
  obtain ⟨s1, a1, b1, c1, d1⟩ := step_bounded O dv hi (hp s0.opt)
    (fun _ => ⟨by rw [ebs]; exact hbs, by rw [ebs]; exact hN⟩)
    (by rw [hst0, hmax]; exact fun h => hsentinel h.symm) (by rw [hst0]; exact hstep)
  have hib0 : iterationBefore s0 = 0 := by
    simp [iterationBefore, hit]
  rw [hib0, hst0, hmax] at a1 b1
  have e1 : s1.iteration = 1 := by simpa using b1
  obtain ⟨s2, a2, b2, c2, d2⟩ := next s1 1 c1 (d1.stop.trans hst0) (by decide) e1
  have e2 : s2.iteration = 2 := by simpa using b2
  obtain ⟨s3, a3, b3, c3, d3⟩ := next s2 2 c2 d2 (by decide) e2
  have e3 : s3.iteration = 3 := by simpa using b3
  obtain ⟨s4, a4, b4, c4, d4⟩ := next s3 3 c3 d3 (by decide) e3
  have e4 : s4.iteration = 4 := by simpa using b4
  obtain ⟨s5, a5, b5, c5, d5⟩ := next s4 4 c4 d4 (by decide) e4
  have e5 : s5.iteration = 5 := by simpa using b5
  obtain ⟨s6, a6, b6, _, _⟩ := next s5 5 c5 d5 (by decide) e5
  have e6 : s6.iteration = -1 := by simpa using b6
  exact ⟨s1, s2, s3, s4, s5, s6, by simpa using a1, e1, by simpa using a2, e2,
    by simpa using a3, e3, by simpa using a4, e4, by simpa using a5, e5,
    by simpa using a6, e6⟩

/-- C9: in a state reached by calls of `step` on a constructed optimizer, a
further call returns (given a model that can initialize itself and, when the
call begins with `initialize()`, `1 ≤ batchSize ≤ N` or `N = 0`), and it returns
`true` exactly when (a) `maximalIterations` is the value that disables the
bound (the code compares with `defaultValue.maximalFunctionEvaluations`) or the
incremented counter is at most `maximalIterations`, and (b)
`minimalSearchSpaceStep` is its sentinel or the Euclidean norm of the momentum
vector is at least `minimalSearchSpaceStep`.  On `false` the counter is `-1`
afterwards, on `true` it is one more than before (an uninitialized optimizer
counting as `0`).  When the defaults of `maximalFunctionEvaluations` and
`maximalIterations` coincide, (a) reads the same with
`defaultValue.maximalIterations`. -/
theorem C9_step_return_value (O : Optimizable σ) (dv : StoppingCriteria)
    (learningRate learningRateDecay minimalLearningRate momentum momentumGain
      maximalMomentum : fpt) (batchSize : Int) (minGain maxGain : fpt)
    (opt : σ) (stop : StoppingCriteria) (rng : RandomNumberGenerator) (n : Nat) (s : MBSGD σ)
    (hs : steps O dv n (construct learningRate learningRateDecay minimalLearningRate
      momentum momentumGain maximalMomentum batchSize minGain maxGain opt stop rng) = some s)
    (hp : O.providesInitialization s.opt = true)
    (hstart : s.iteration < 0 →
      0 < batchSize ∧ (batchSize ≤ (O.examples s.opt : Int) ∨ O.examples s.opt = 0)) :
    ∃ r, step O dv s = some r ∧
      (r.1 = true ↔
        (stop.maximalIterations = dv.maximalFunctionEvaluations ∨
          iterationBefore s + 1 ≤ stop.maximalIterations) ∧
        (stop.minimalSearchSpaceStep = dv.minimalSearchSpaceStep ∨
          (stop.minimalSearchSpaceStep : ℝ) ≤ Real.sqrt ((squaredNorm r.2.momentum : ℚ) : ℝ))) ∧
      (dv.maximalFunctionEvaluations = dv.maximalIterations →
        (r.1 = true ↔
          (stop.maximalIterations = dv.maximalIterations ∨
            iterationBefore s + 1 ≤ stop.maximalIterations) ∧
          (stop.minimalSearchSpaceStep = dv.minimalSearchSpaceStep ∨
            (stop.minimalSearchSpaceStep : ℝ)
              ≤ Real.sqrt ((squaredNorm r.2.momentum : ℚ) : ℝ)))) ∧
      (r.1 = false → r.2.iteration = -1) ∧
      (r.1 = true → r.2.iteration = iterationBefore s + 1) := by
  have hc := steps_config hs
  have hi := steps_runInv hs (construct_runInv learningRate learningRateDecay
    minimalLearningRate momentum momentumGain maximalMomentum batchSize minGain maxGain opt
    stop rng)
  have est : s.stop = stop := hc.stop
  have ebs : s.batchSize = batchSize := hc.batchSize
  obtain ⟨r, hr⟩ := step_isSome dv hi hp (by rw [ebs]; exact hstart)
  obtain ⟨h1, h2⟩ := step_outcome hr hi
  rw [est] at h1
  have main : r.1 = true ↔
      (stop.maximalIterations = dv.maximalFunctionEvaluations ∨
        iterationBefore s + 1 ≤ stop.maximalIterations) ∧
      (stop.minimalSearchSpaceStep = dv.minimalSearchSpaceStep ∨
        (stop.minimalSearchSpaceStep : ℝ) ≤ Real.sqrt ((squaredNorm r.2.momentum : ℚ) : ℝ)) := by
    rw [← normGe_iff, h1]
    simp only [Bool.and_eq_true, Bool.or_eq_true, decide_eq_true_eq]
  refine ⟨r, hr, main, ?_, ?_, ?_⟩
  · intro heq
    rw [← heq]; exact main
  · intro hf
    rw [h2, hf]; simp
  · intro ht
    rw [h2, ht]; simp

end MBSGD

namespace MBSGD

variable {σ : Type}

/-! ## Batch assignment (C10) -/

theorem count_range (N i : Nat) : List.count i (List.range N) = if i < N then 1 else 0 := by
  by_cases h : i < N
  · rw [if_pos h]
    exact List.count_eq_one_of_mem (List.nodup_range N) (List.mem_range.mpr h)
  · rw [if_neg h]
    exact List.count_eq_zero_of_not_mem (fun hm => h (List.mem_range.mp hm))

/-- The assignment loop, started on `batches ≥ 1` empty lists, fills them with a
rearrangement of `0, …, N - 1`. -/
theorem assign_perm (batches : Int) (hb : 0 < batches) (N : Nat)
    (st st' : RandomNumberGenerator × List (List Nat)) (hlen : st.2.length = batches.toNat)
    (hempty : ∀ l ∈ st.2, l = []) (h : assign batches N st = some st') :
    st'.2.length = batches.toNat ∧ List.Perm st'.2.flatten (List.range N) := by
  obtain ⟨st'', h', hl, _, hcount⟩ := assign_spec batches hb N st hlen
  rw [h] at h'
  simp only [Option.some.injEq] at h'
  subst h'
  refine ⟨hl.trans hlen, ?_⟩
  rw [List.perm_iff_count]
  intro i
  rw [hcount i, count_range, List.flatten_eq_nil_iff.mpr hempty]
  simp

/-- C10: in a state reached by calls of `step` on a constructed optimizer with
`1 ≤ batchSize ≤ N` (`N` the number of examples the coming call works with),
the first part of a further call (lazy initialization and assignment loop)
returns with `batches = ⌊N / batchSize⌋ ≥ 1` batch lists in which every example
index `i < N` occurs in exactly one list, exactly once; the lists hold nothing
else and their sizes sum to `N`. -/
theorem C10_batch_assignment_partition (O : Optimizable σ) (dv : StoppingCriteria)
    (learningRate learningRateDecay minimalLearningRate momentum momentumGain
      maximalMomentum : fpt) (batchSize : Int) (minGain maxGain : fpt)
    (opt : σ) (stop : StoppingCriteria) (rng : RandomNumberGenerator) (n : Nat) (s : MBSGD σ)
    (hs : steps O dv n (construct learningRate learningRateDecay minimalLearningRate
      momentum momentumGain maximalMomentum batchSize minGain maxGain opt stop rng) = some s)
    (hp : O.providesInitialization s.opt = true)
    (hbs : 1 ≤ batchSize) (hN : batchSize ≤ (examplesAtStep O s : Int)) :
    ∃ a, assignPhase O s = some a ∧
      a.N = examplesAtStep O s ∧ a.batches = (a.N : Int) / batchSize ∧ 1 ≤ a.batches ∧
      a.batchAssignment.length = a.batches.toNat ∧
      (∀ i, i < a.N → ∃ b, b < a.batches.toNat ∧
        List.count i (a.batchAssignment.getD b []) = 1 ∧
        ∀ b', b' ≠ b → List.count i (a.batchAssignment.getD b' []) = 0) ∧
      (∀ l ∈ a.batchAssignment, ∀ i ∈ l, i < a.N) ∧
      (a.batchAssignment.map List.length).sum = a.N := by
  have hc := steps_config hs
  have hi := steps_runInv hs (construct_runInv learningRate learningRateDecay
    minimalLearningRate momentum momentumGain maximalMomentum batchSize minGain maxGain opt
    stop rng)
  have ebs : s.batchSize = batchSize := hc.batchSize
  have hpos : 0 < batchSize := by omega
  obtain ⟨a, ha⟩ := assignPhase_isSome hi hp (fun hlt => by
    rw [ebs]
    refine ⟨hpos, Or.inl ?_⟩
    simpa [examplesAtStep, hlt] using hN)
  obtain ⟨_, hNa, hq, _, _, hlen, st1, hempty, hlen1, _, hassign⟩ := assignPhase_spec ha hi
  have eba : a.batchSize = batchSize := (assignPhase_config ha).batchSize.trans ebs
  rw [eba] at hq
  have hbpos : 0 < a.batches := by
    rw [hq]; exact tdiv_natCast_pos _ _ hpos (by rw [hNa]; exact hN)
  obtain ⟨_, hperm⟩ := assign_perm a.batches hbpos a.N st1 _ hlen1 hempty hassign
  simp only [] at hperm
  have hcount : ∀ i, List.count i a.batchAssignment.flatten = if i < a.N then 1 else 0 := by
    intro i; rw [hperm.count_eq, count_range]
  refine ⟨a, ha, hNa, ?_, by omega, hlen, ?_, ?_, ?_⟩
  · rw [hq, Int.tdiv_eq_ediv (Int.ofNat_nonneg _) (le_of_lt hpos)]
  · intro i hiN
    have hsum : (a.batchAssignment.map (List.count i)).sum = 1 := by
      rw [← List.count_flatten, hcount i, if_pos hiN]
    obtain ⟨b, hb, hb1, hrest⟩ := sum_eq_one_unique _ hsum
    rw [List.length_map] at hb
    refine ⟨b, by rw [← hlen]; exact hb, ?_, ?_⟩
    · rw [List.getElem?_map] at hb1
      cases hl : a.batchAssignment[b]? with
      | none => rw [hl] at hb1; simp at hb1
      | some l =>
        rw [hl] at hb1
        simp only [Option.map_some', Option.some.injEq] at hb1
        simpa [List.getD_eq_getElem?_getD, hl] using hb1
    · intro b' hb'
      have := hrest b' hb'
      rw [List.getElem?_map] at this
      cases hl : a.batchAssignment[b']? with
      | none => simp [List.getD_eq_getElem?_getD, hl]
      | some l =>
        rw [hl] at this
        simpa [List.getD_eq_getElem?_getD, hl] using this
  · intro l hl i hil
    have hmem : i ∈ a.batchAssignment.flatten := List.mem_flatten.mpr ⟨l, hl, hil⟩
    exact List.mem_range.mp (hperm.mem_iff.mp hmem)
  · rw [← List.length_flatten, hperm.length_eq, List.length_range]

end MBSGD

namespace MBSGD
open Example

/-! ## The claims at concrete inputs -/

/-- C4 fails as stated, at two inputs.  (i) `minGain = 2 > maxGain = 1`, one
parameter, one example, `batchSize = 1`: the first step leaves the gain
`min(1, max(2, 1.05)) = 1`, which is not in `[2, 1]`.  (ii) `minGain = 2`,
`maxGain = 3`, a model without examples: the step processes no batch and the
gain keeps its initial value `1`, which is not in `[2, 3]`. -/
theorem C4_gains_outside_bounds :
    (∃ s, steps (constModel 1 1 1) defaults 1
        (construct 1 1 0 0 0 0 1 2 1 ([0] : Vt) defaults zeroRng) = some s ∧
      s.gains = [1] ∧ ¬ ∀ x ∈ s.gains, (2 : fpt) ≤ x ∧ x ≤ 1) ∧
    (∃ s, steps (constModel 1 0 1) defaults 1
        (construct 1 1 0 0 0 0 1 2 3 ([0] : Vt) defaults zeroRng) = some s ∧
      s.gains = [1] ∧ ¬ ∀ x ∈ s.gains, (2 : fpt) ≤ x ∧ x ≤ 3) := by
  have hA : (steps (constModel 1 1 1) defaults 1
      (construct 1 1 0 0 0 0 1 2 1 ([0] : Vt) defaults zeroRng)).map (fun s => s.gains)
        = some [1] := by
    simp [steps, step, assignPhase, initialise, assign, construct, constModel, finish,
      batchLoop, processBatch, RandomNumberGenerator.generateIndex, zeroRng, defaults,
      List.range_succ, resize, RandomNumberGenerator.next, List.modify, adaptGain, aggregate,
      sumGradients, coeff, vadd, vsub, smul]
  have hB : (steps (constModel 1 0 1) defaults 1
      (construct 1 1 0 0 0 0 1 2 3 ([0] : Vt) defaults zeroRng)).map (fun s => s.gains)
        = some [1] := by
    simp [steps, step, assignPhase, initialise, assign, construct, constModel, finish,
      batchLoop, processBatch, RandomNumberGenerator.generateIndex, zeroRng, defaults,
      List.range_succ, resize, RandomNumberGenerator.next, List.modify, adaptGain, aggregate,
      sumGradients, coeff, vadd, vsub, smul]
  rw [Option.map_eq_some'] at hA hB
  obtain ⟨sA, hsA, hgA⟩ := hA
  obtain ⟨sB, hsB, hgB⟩ := hB
  refine ⟨⟨sA, hsA, hgA, ?_⟩, ⟨sB, hsB, hgB, ?_⟩⟩
  · intro h
    have := (h 1 (by rw [hgA]; simp)).1
    norm_num at this
  · intro h
    have := (h 1 (by rw [hgB]; simp)).1
    norm_num at this

/-- Witness for C4: `minGain = 1/2`, `maxGain = 2`, `batchSize = 2` on the
example RBM, after one step. -/
theorem C4_gains_within_bounds_witness :
    ∃ s, steps RBM.optimizable defaults 1
        (construct 1 1 0 0 0 0 2 (1 / 2) 2 rbm defaults zeroRng) = some s ∧
      ((1 / 2 : fpt) ≤ 2) ∧ (0 < s.batches ∨ ((1 / 2 : fpt) ≤ 1 ∧ (1 : fpt) ≤ 2)) ∧
      s.gains.length = s.P ∧ ∀ x ∈ s.gains, (1 / 2 : fpt) ≤ x ∧ x ≤ 2 := by
  obtain ⟨r, hr⟩ := step_isSome (O := RBM.optimizable) defaults
    (construct_runInv 1 1 0 0 0 0 2 (1 / 2) 2 rbm defaults zeroRng) rfl
    (fun _ => ⟨by decide, Or.inl (by decide)⟩)
  have hs := steps_one hr
  have hle : (1 / 2 : fpt) ≤ 2 := by norm_num
  have hb : 0 < r.2.batches ∨ ((1 / 2 : fpt) ≤ 1 ∧ (1 : fpt) ≤ 2) :=
    Or.inr ⟨by norm_num, by norm_num⟩
  exact ⟨r.2, hs, hle, hb,
    C4_gains_within_bounds RBM.optimizable defaults 1 1 0 0 0 0 2 (1 / 2) 2 rbm defaults zeroRng 0
      r.2 hle hs hb⟩

/-- Witness for C7: `minGain = maxGain = 1`, `batchSize = 2` on the example RBM,
after one step. -/
theorem C7_gains_stay_one_witness :
    ∃ s, steps RBM.optimizable defaults 1
        (construct 1 1 0 0 0 0 2 1 1 rbm defaults zeroRng) = some s ∧
      s.gains = List.replicate s.P 1 := by
  obtain ⟨r, hr⟩ := step_isSome (O := RBM.optimizable) defaults
    (construct_runInv 1 1 0 0 0 0 2 1 1 rbm defaults zeroRng) rfl
    (fun _ => ⟨by decide, Or.inl (by decide)⟩)
  have hs := steps_one hr
  exact ⟨r.2, hs,
    (C7_gains_stay_one RBM.optimizable defaults 1 1 0 0 0 0 2 rbm defaults zeroRng 1 r.2 hs).1⟩

/-- C5 fails as stated, at four inputs (one parameter, one example,
`batchSize = 1`, so one batch update per step).  (i) `learningRateDecay = 2`:
`alpha` goes from `1` to `2`.  (ii) `learningRate = 0 < minimalLearningRate = 1`:
`alpha` goes from `0` to `1`.  (iii) `learningRate = -1`,
`learningRateDecay = 1/2`, `minimalLearningRate = -2`: `alpha` goes from `-1` to
`-1/2`.  (iv) `learningRate = 1`, `learningRateDecay = -1`,
`minimalLearningRate = -1`: `alpha` is `-1` after the first step and `1` after
the second. -/
theorem C5_alpha_increases :
    (∃ s, steps (constModel 1 1 1) defaults 1
        (construct 1 2 0 0 0 0 1 1 1 ([0] : Vt) defaults zeroRng) = some s ∧
      s.alpha = 2 ∧ ¬ s.alpha ≤ 1) ∧
    (∃ s, steps (constModel 1 1 1) defaults 1
        (construct 0 1 1 0 0 0 1 1 1 ([0] : Vt) defaults zeroRng) = some s ∧
      s.alpha = 1 ∧ ¬ s.alpha ≤ 0) ∧
    (∃ s, steps (constModel 1 1 1) defaults 1
        (construct (-1) (1 / 2) (-2) 0 0 0 1 1 1 ([0] : Vt) defaults zeroRng) = some s ∧
      s.alpha = -1 / 2 ∧ ¬ s.alpha ≤ -1) ∧
    (∃ s r, steps (constModel 1 1 1) defaults 1
        (construct 1 (-1) (-1) 0 0 0 1 1 1 ([0] : Vt) defaults zeroRng) = some s ∧
      step (constModel 1 1 1) defaults s = some r ∧
      s.alpha = -1 ∧ r.2.alpha = 1 ∧ ¬ r.2.alpha ≤ s.alpha) := by
  have h1 : (steps (constModel 1 1 1) defaults 1
      (construct 1 2 0 0 0 0 1 1 1 ([0] : Vt) defaults zeroRng)).map (fun s => s.alpha)
        = some 2 := by
    simp [steps, step, assignPhase, initialise, assign, construct, constModel, finish,
      batchLoop, processBatch, RandomNumberGenerator.generateIndex, zeroRng, defaults,
      List.range_succ, resize, RandomNumberGenerator.next, List.modify]
  have h2 : (steps (constModel 1 1 1) defaults 1
      (construct 0 1 1 0 0 0 1 1 1 ([0] : Vt) defaults zeroRng)).map (fun s => s.alpha)
        = some 1 := by
    simp [steps, step, assignPhase, initialise, assign, construct, constModel, finish,
      batchLoop, processBatch, RandomNumberGenerator.generateIndex, zeroRng, defaults,
      List.range_succ, resize, RandomNumberGenerator.next, List.modify]
  have h3 : (steps (constModel 1 1 1) defaults 1
      (construct (-1) (1 / 2) (-2) 0 0 0 1 1 1 ([0] : Vt) defaults zeroRng)).map
        (fun s => s.alpha) = some (-1 / 2) := by
    simp [steps, step, assignPhase, initialise, assign, construct, constModel, finish,
      batchLoop, processBatch, RandomNumberGenerator.generateIndex, zeroRng, defaults,
      List.range_succ, resize, RandomNumberGenerator.next, List.modify]
    norm_num
  have h4 : (steps (constModel 1 1 1) defaults 1
      (construct 1 (-1) (-1) 0 0 0 1 1 1 ([0] : Vt) defaults zeroRng)).map
        (fun s => s.alpha) = some (-1) := by
    simp [steps, step, assignPhase, initialise, assign, construct, constModel, finish,
      batchLoop, processBatch, RandomNumberGenerator.generateIndex, zeroRng, defaults,
      List.range_succ, resize, RandomNumberGenerator.next, List.modify]
  have h5 : (steps (constModel 1 1 1) defaults 2
      (construct 1 (-1) (-1) 0 0 0 1 1 1 ([0] : Vt) defaults zeroRng)).map
        (fun s => s.alpha) = some 1 := by
    simp [steps, step, assignPhase, initialise, assign, construct, constModel, finish,
      batchLoop, processBatch, RandomNumberGenerator.generateIndex, zeroRng, defaults,
      List.range_succ, resize, RandomNumberGenerator.next, List.modify, aggregate,
      sumGradients, coeff, vadd, vsub, smul, normGe, squaredNorm]
  rw [Option.map_eq_some'] at h1 h2 h3 h4 h5
  obtain ⟨s1, e1, a1⟩ := h1
  obtain ⟨s2, e2, a2⟩ := h2
  obtain ⟨s3, e3, a3⟩ := h3
  obtain ⟨s4, e4, a4⟩ := h4
  obtain ⟨s5, e5, a5⟩ := h5
  obtain ⟨u, r, hu, hr, rfl⟩ := steps_succ_eq_some e5
  rw [e4] at hu
  simp only [Option.some.injEq] at hu
  subst hu
  refine ⟨⟨s1, e1, a1, ?_⟩, ⟨s2, e2, a2, ?_⟩, ⟨s3, e3, a3, ?_⟩, ⟨s4, r, e4, hr, a4, a5, ?_⟩⟩
  · rw [a1]; norm_num
  · rw [a2]; norm_num
  · rw [a3]; norm_num
  · rw [a4, a5]; norm_num

/-- Witness for C5: `learningRate = 1`, `learningRateDecay = 1/2`,
`minimalLearningRate = 1/10` on the example RBM, after one step. -/
theorem C5_alpha_never_increases_witness :
    ∃ s, steps RBM.optimizable defaults 1
        (construct 1 (1 / 2) (1 / 10) 0 0 0 2 1 1 rbm defaults zeroRng) = some s ∧
      (1 / 10 : fpt) ≤ s.alpha ∧ s.alpha ≤ 1 := by
  obtain ⟨r, hr⟩ := step_isSome (O := RBM.optimizable) defaults
    (construct_runInv 1 (1 / 2) (1 / 10) 0 0 0 2 1 1 rbm defaults zeroRng) rfl
    (fun _ => ⟨by decide, Or.inl (by decide)⟩)
  have hs := steps_one hr
  have h := C5_alpha_never_increases RBM.optimizable defaults 1 (1 / 2) (1 / 10) 0 0 0 2 1 1 rbm
    defaults zeroRng 1 r.2 (by norm_num) (by norm_num) (by norm_num) (Or.inl (by norm_num)) hs
  exact ⟨r.2, hs, h.1, h.2.1⟩

/-- C6 fails as stated, at two inputs (one parameter, one example,
`batchSize = 1`).  (i) `momentumGain = -1`, `momentum = 1`,
`maximalMomentum = 2`: `eta` goes from `1` to `0`.  (ii) `momentum = 1`,
`maximalMomentum = 1/2`, `momentumGain = 0`: `eta` goes from `1` to `1/2`. -/
theorem C6_eta_decreases :
    (∃ s, steps (constModel 1 1 1) defaults 1
        (construct 1 1 0 1 (-1) 2 1 1 1 ([0] : Vt) defaults zeroRng) = some s ∧
      s.eta = 0 ∧ ¬ (1 : fpt) ≤ s.eta) ∧
    (∃ s, steps (constModel 1 1 1) defaults 1
        (construct 1 1 0 1 0 (1 / 2) 1 1 1 ([0] : Vt) defaults zeroRng) = some s ∧
      s.eta = 1 / 2 ∧ ¬ (1 : fpt) ≤ s.eta) := by
  have h1 : (steps (constModel 1 1 1) defaults 1
      (construct 1 1 0 1 (-1) 2 1 1 1 ([0] : Vt) defaults zeroRng)).map (fun s => s.eta)
        = some 0 := by
    simp [steps, step, assignPhase, initialise, assign, construct, constModel, finish,
      batchLoop, processBatch, RandomNumberGenerator.generateIndex, zeroRng, defaults,
      List.range_succ, resize, RandomNumberGenerator.next, List.modify]
  have h2 : (steps (constModel 1 1 1) defaults 1
      (construct 1 1 0 1 0 (1 / 2) 1 1 1 ([0] : Vt) defaults zeroRng)).map (fun s => s.eta)
        = some (1 / 2) := by
    simp [steps, step, assignPhase, initialise, assign, construct, constModel, finish,
      batchLoop, processBatch, RandomNumberGenerator.generateIndex, zeroRng, defaults,
      List.range_succ, resize, RandomNumberGenerator.next, List.modify]
    norm_num
  rw [Option.map_eq_some'] at h1 h2
  obtain ⟨s1, e1, a1⟩ := h1
  obtain ⟨s2, e2, a2⟩ := h2
  refine ⟨⟨s1, e1, a1, ?_⟩, ⟨s2, e2, a2, ?_⟩⟩
  · rw [a1]; norm_num
  · rw [a2]; norm_num

/-- Witness for C6: `momentum = 1/2`, `momentumGain = 1/10`,
`maximalMomentum = 9/10` on the example RBM, after one step. -/
theorem C6_eta_never_decreases_witness :
    ∃ s, steps RBM.optimizable defaults 1
        (construct 1 1 0 (1 / 2) (1 / 10) (9 / 10) 2 1 1 rbm defaults zeroRng) = some s ∧
      (1 / 2 : fpt) ≤ s.eta ∧ s.eta ≤ 9 / 10 := by
  obtain ⟨r, hr⟩ := step_isSome (O := RBM.optimizable) defaults
    (construct_runInv 1 1 0 (1 / 2) (1 / 10) (9 / 10) 2 1 1 rbm defaults zeroRng) rfl
    (fun _ => ⟨by decide, Or.inl (by decide)⟩)
  have hs := steps_one hr
  have h := C6_eta_never_decreases RBM.optimizable defaults 1 1 0 (1 / 2) (1 / 10) (9 / 10) 2 1 1
    rbm defaults zeroRng 1 r.2 (by norm_num) (by norm_num) hs
  exact ⟨r.2, hs, h.1, h.2.1⟩

/-- Witness for C8: the example RBM with `batchSize = 2`, `maximalIterations = 5`
and the defaults `-1`, `-1`, `0`. -/
theorem C8_stops_after_five_iterations_witness :
    ∃ s1 s2 s3 s4 s5 s6 : MBSGD RBM,
      step RBM.optimizable defaults
        (construct 1 1 0 0 0 0 2 1 1 rbm fiveIterations zeroRng) = some (true, s1) ∧
      s1.iteration = 1 ∧
      step RBM.optimizable defaults s1 = some (true, s2) ∧ s2.iteration = 2 ∧
      step RBM.optimizable defaults s2 = some (true, s3) ∧ s3.iteration = 3 ∧
      step RBM.optimizable defaults s3 = some (true, s4) ∧ s4.iteration = 4 ∧
      step RBM.optimizable defaults s4 = some (true, s5) ∧ s5.iteration = 5 ∧
      step RBM.optimizable defaults s5 = some (false, s6) ∧ s6.iteration = -1 :=
  C8_stops_after_five_iterations RBM.optimizable defaults 1 1 0 0 0 0 2 1 1 rbm fiveIterations
    zeroRng 0 (construct 1 1 0 0 0 0 2 1 1 rbm fiveIterations zeroRng) rfl rfl rfl rfl
    (by decide) (fun _ => rfl) (by decide) (Or.inl (by decide))

/-- Witness for C9: the first step of an optimizer on the example RBM with
`batchSize = 2` and `maximalIterations = 5`. -/
theorem C9_step_return_value_witness :
    ∃ r, step RBM.optimizable defaults
        (construct 1 1 0 0 0 0 2 1 1 rbm fiveIterations zeroRng) = some r ∧
      (r.1 = false → r.2.iteration = -1) ∧ (r.1 = true → r.2.iteration = 1) := by
  obtain ⟨r, hr, _, _, h3, h4⟩ := C9_step_return_value RBM.optimizable defaults 1 1 0 0 0 0 2 1 1
    rbm fiveIterations zeroRng 0 (construct 1 1 0 0 0 0 2 1 1 rbm fiveIterations zeroRng) rfl rfl
    (fun _ => ⟨by decide, Or.inl (by decide)⟩)
  exact ⟨r, hr, h3, h4⟩

/-- Witness for C10: the first step of an optimizer on the example RBM (`N = 4`)
with `batchSize = 2`: two batch lists whose sizes sum to four. -/
theorem C10_batch_assignment_partition_witness :
    ∃ a, assignPhase RBM.optimizable
        (construct 1 1 0 0 0 0 2 1 1 rbm fiveIterations zeroRng) = some a ∧
      a.N = 4 ∧ a.batches = 2 ∧ (a.batchAssignment.map List.length).sum = 4 := by
  obtain ⟨a, ha, hN, hb, _, _, _, _, hsum⟩ := C10_batch_assignment_partition RBM.optimizable
    defaults 1 1 0 0 0 0 2 1 1 rbm fiveIterations zeroRng 0
    (construct 1 1 0 0 0 0 2 1 1 rbm fiveIterations zeroRng) rfl rfl (by decide) (by decide)
  have hN4 : a.N = 4 := hN
  refine ⟨a, ha, hN4, ?_, ?_⟩
  · rw [hb, hN4]; decide
  · rw [hsum, hN4]

end MBSGD

namespace RBM
open Example

/-! ## Sampling (C12) and the unsupported operations (C14) -/

/-- C14: `hessian()` and `trainingSet(trainingInput, trainingOutput)` never return
a value: for every RBM state and every argument each throws an
`OpenANNException` saying that the operation is not implemented, with the RBM
in the state it had at the call; `providesHessian()` returns `false`. -/
theorem C14_unimplemented_operations_throw :
    (∀ r : RBM, hessian r =
      Except.error ({ message := "RBM::hessian() is not implemented!" }, r)) ∧
    (∀ (r : RBM) (x : MatrixXd × RBM), hessian r ≠ Except.ok x) ∧
    (∀ (r : RBM) (trainingInput trainingOutput : MatrixXd),
      trainingSetMatrices trainingInput trainingOutput r =
        Except.error
          ({ message := "RBM::trainingSet(input, output) is not implemented!" }, r)) ∧
    (∀ (r : RBM) (trainingInput trainingOutput : MatrixXd) (x : RBM),
      trainingSetMatrices trainingInput trainingOutput r ≠ Except.ok x) ∧
    (∀ r : RBM, providesHessian r = false) := by
  refine ⟨fun _ => rfl, ?_, fun _ _ _ => rfl, ?_, fun _ => rfl⟩
  · intro r x h
    simp [hessian] at h
  · intro r a b x h
    simp [trainingSetMatrices] at h

end RBM
namespace RBM
open Example

/-! ## CD-1 on the trivial RBM (C13) -/

/-- On the trivial RBM every activation probability is `logistic 0`, so
`gradient(n)` returns and the gradient of a one-entry example `(x)` does not
depend on the draws. -/
theorem trivialRBM_gradient (stdDev : fpt) (rng : RandomNumberGenerator) (logistic : fpt → fpt)
    (ds : DataSet) (n : Nat) (x : fpt) (hl : logistic 0 = 1 / 2) (hx : ds.getInstance n = [x]) :
    (gradient n (trivialRBM stdDev rng logistic ds)).map Prod.fst
      = some [1 / 4 - x / 2, 1 / 2 - x, 0] := by
  simp [gradient, gradientVector, trivialRBM, trainingSet, setParameters, construct, initialise,
    drawParameters, fillMatrix, fillRow, fillVector, daydream, gibbsSteps, reality,
    sampleHgivenV, sampleVgivenH, storeMatrix, storeVector, dimension, List.range_succ,
    MatrixXd.set, MatrixXd.zero, MatrixXd.mul, MatrixXd.addVector, MatrixXd.map,
    MatrixXd.ofVector, MatrixXd.toVector, MatrixXd.transpose, MatrixXd.linear,
    MatrixXd.setLinear, coeff, vneg, hl, hx, RandomNumberGenerator.next]
  ring

/-- The expectation of a quantity that is the same for all draws is that
quantity, whatever the distribution of the draws. -/
theorem expectation_of_constant {Ω : Type} [MeasurableSpace Ω] (μ : MeasureTheory.Measure Ω)
    [MeasureTheory.IsProbabilityMeasure μ] (f : Ω → fpt) (c : fpt) (h : ∀ ω, f ω = c) :
    ∫ ω, ((f ω : fpt) : ℝ) ∂μ = ((c : fpt) : ℝ) := by
  have : (fun ω => ((f ω : fpt) : ℝ)) = fun _ => ((c : fpt) : ℝ) := by
    funext ω; rw [h ω]
  rw [this, MeasureTheory.integral_const]
  simp

/-- C13 (as amended): for the RBM with `D = 1`, `H = 1`, `cdSteps = 1`, weight and
biases `0`, a logistic function with `logistic 0 = 1/2` and a training example
`(x)`, `gradient(n)` returns `(1/4 - x/2, 1/2 - x, 0)` for every sequence of
uniform draws; hence each entry has that value in expectation, for every
probability distribution of the draws; and the gradient is the zero vector
exactly when `x = 1/2`. -/
theorem C13_trivial_rbm_gradient (stdDev : fpt) (rng : RandomNumberGenerator)
    (logistic : fpt → fpt) (ds : DataSet) (n : Nat) (x : fpt)
    (hl : logistic 0 = 1 / 2) (hx : ds.getInstance n = [x]) :
    (∀ u : Nat → fpt,
      (gradient n (trivialRBM stdDev { rng with uniform := u } logistic ds)).map Prod.fst
        = some [1 / 4 - x / 2, 1 / 2 - x, 0]) ∧
    (∀ (Ω : Type) [MeasurableSpace Ω] (μ : MeasureTheory.Measure Ω)
      [MeasureTheory.IsProbabilityMeasure μ] (U : Ω → Nat → fpt) (k : Nat),
      ∫ ω, ((coeff (((gradient n
          (trivialRBM stdDev { rng with uniform := U ω } logistic ds)).map Prod.fst).getD [])
            k : fpt) : ℝ) ∂μ
        = ((coeff [1 / 4 - x / 2, 1 / 2 - x, 0] k : fpt) : ℝ)) ∧
    (([1 / 4 - x / 2, 1 / 2 - x, 0] : Vt) = [0, 0, 0] ↔ x = 1 / 2) := by
  have h1 : ∀ u : Nat → fpt,
      (gradient n (trivialRBM stdDev { rng with uniform := u } logistic ds)).map Prod.fst
        = some [1 / 4 - x / 2, 1 / 2 - x, 0] :=
    fun u => trivialRBM_gradient stdDev _ logistic ds n x hl hx
  refine ⟨h1, ?_, ?_⟩
  · intro Ω _ μ _ U k
    exact expectation_of_constant μ _ _ (fun ω => by rw [h1 (U ω)]; rfl)
  · constructor
    · intro h
      simp only [List.cons.injEq, and_true] at h
      linarith [h.2]
    · intro h
      subst h
      norm_num

/-- Witness for C13: the example `(1/2)` has the zero gradient. -/
theorem C13_trivial_rbm_gradient_witness :
    ((fun _ : fpt => (1 / 2 : fpt)) 0 = 1 / 2 ∧
      ({ samples := 1, getInstance := fun _ => [1 / 2] } : DataSet).getInstance 0 = [1 / 2]) ∧
    (gradient 0 (trivialRBM 1 zeroRng (fun _ => 1 / 2)
      { samples := 1, getInstance := fun _ => [1 / 2] })).map Prod.fst = some [0, 0, 0] := by
  have h := (C13_trivial_rbm_gradient 1 zeroRng (fun _ => 1 / 2)
    { samples := 1, getInstance := fun _ => [1 / 2] } 0 (1 / 2) rfl rfl).1 zeroRng.uniform
  refine ⟨⟨rfl, rfl⟩, ?_⟩
  have e : ([1 / 4 - 1 / 2 / 2, 1 / 2 - 1 / 2, 0] : Vt) = [0, 0, 0] := by norm_num
  rw [← e]
  exact h

/-- C13 fails as stated for the training example `(1)`: with the weight and the
biases at `0` and `logistic 0 = 1/2`, `gradient(0)` returns `(-1/4, -1/2, 0)`
whatever the uniform draws are, so its first entry is `-1/4` in expectation under
every distribution of the draws, not `0`. -/
theorem C13_gradient_not_zero_in_expectation :
    ((fun u : Nat → fpt =>
        (gradient 0 (trivialRBM 1 { zeroRng with uniform := u } (fun _ => 1 / 2)
          { samples := 1, getInstance := fun _ => [1] })).map Prod.fst)
      = fun _ => some [-1 / 4, -1 / 2, 0]) ∧
    (([-1 / 4, -1 / 2, 0] : Vt) ≠ [0, 0, 0]) ∧
    (∀ (Ω : Type) [MeasurableSpace Ω] (μ : MeasureTheory.Measure Ω)
      [MeasureTheory.IsProbabilityMeasure μ] (U : Ω → Nat → fpt),
      ∫ ω, ((coeff (((gradient 0 (trivialRBM 1 { zeroRng with uniform := U ω } (fun _ => 1 / 2)
          { samples := 1, getInstance := fun _ => [1] })).map Prod.fst).getD []) 0 : fpt) : ℝ) ∂μ
        = -1 / 4) := by
  have h1 : ∀ u : Nat → fpt,
      (gradient 0 (trivialRBM 1 { zeroRng with uniform := u } (fun _ => 1 / 2)
          { samples := 1, getInstance := fun _ => [1] })).map Prod.fst
        = some [-1 / 4, -1 / 2, 0] := by
    intro u
    rw [trivialRBM_gradient 1 _ (fun _ => 1 / 2) { samples := 1, getInstance := fun _ => [1] }
      0 1 rfl rfl]
    norm_num
  refine ⟨funext h1, by norm_num, ?_⟩
  intro Ω _ μ _ U
  have := expectation_of_constant μ
    (fun ω => coeff (((gradient 0 (trivialRBM 1 { zeroRng with uniform := U ω } (fun _ => 1 / 2)
          { samples := 1, getInstance := fun _ => [1] })).map Prod.fst).getD []) 0) (-1 / 4)
    (fun ω => by beta_reduce; rw [h1 (U ω)]; simp [coeff])
  rw [this]
  norm_num

end RBM

namespace IDXLoader

/-! ## Pixel scaling (C15) -/

/-- The value stored for a pixel, as a function of the byte of the file:
`1 - (255 - b) / 255`. -/
theorem stored_pixel (b : Fin 256) :
    (1 : fpt) - ((255 - b.val : Nat) : fpt) / 255 = (b.val : fpt) / 255 := by
  have h : b.val ≤ 255 := by omega
  rw [Nat.cast_sub h]
  push_cast
  ring

theorem set_entry (M : MatrixXd) (j i : Nat) (x : fpt) (j' i' : Nat) :
    (M.set j i x).entry j' i' = if j' = j ∧ i' = i then x else M.entry j' i' := rfl

/-- A loop whose every iteration leaves an entry alone leaves it alone. -/
theorem foldl_frame {α β : Type} (entry : β → fpt) (F : β → α → β) (l : List α)
    (h : ∀ M c, c ∈ l → entry (F M c) = entry M) (M : β) :
    entry (l.foldl F M) = entry M := by
  induction l generalizing M with
  | nil => rfl
  | cons c cs ih =>
    rw [List.foldl_cons, ih (fun M c hc => h M c (List.mem_cons_of_mem _ hc)),
      h M c (List.mem_cons_self _ _)]

theorem loadPixels_succ (n r cols cn : Nat) (st : Stream × MatrixXd) :
    loadPixels n r (cols + 1) cn st =
      ((read (loadPixels n r cols cn st).1).2,
        (loadPixels n r cols cn st).2.set n (r * cn + cols)
          (1 - ((read (loadPixels n r cols cn st).1).1 : fpt) / 255)) := by
  simp [loadPixels, List.range_succ, List.foldl_append]

theorem loadPixels_stream (n r cols cn : Nat) (st : Stream × MatrixXd) :
    (loadPixels n r cols cn st).1 = { st.1 with pos := st.1.pos + cols } := by
  induction cols with
  | zero => rfl
  | succ k ih => rw [loadPixels_succ]; simp [ih, read, Nat.add_assoc]

theorem loadPixels_entry (n r cols cn : Nat) (st : Stream × MatrixXd) (n' k : Nat) :
    (loadPixels n r cols cn st).2.entry n' k =
      if n' = n ∧ r * cn ≤ k ∧ k < r * cn + cols
      then ((st.1.bytes (st.1.pos + (k - r * cn))).val : fpt) / 255
      else st.2.entry n' k := by
  induction cols with
  | zero =>
    rw [if_neg (by rintro ⟨_, a, b⟩; omega)]
    rfl
  | succ c ih =>
    rw [loadPixels_succ]
    simp only [set_entry, loadPixels_stream, read, ih]
    by_cases h1 : n' = n ∧ k = r * cn + c
    · obtain ⟨h1a, h1b⟩ := h1
      subst h1a h1b
      have e : r * cn + c - r * cn = c := by omega
      simp [e, stored_pixel]
    · rw [if_neg h1]
      by_cases h2 : n' = n ∧ r * cn ≤ k ∧ k < r * cn + c
      · have h3 : n' = n ∧ r * cn ≤ k ∧ k < r * cn + (c + 1) := ⟨h2.1, h2.2.1, by omega⟩
        rw [if_pos h2, if_pos h3]
      · have h3 : ¬ (n' = n ∧ r * cn ≤ k ∧ k < r * cn + (c + 1)) := by
          rintro ⟨a, b, d⟩
          by_cases hk : k = r * cn + c
          · exact h1 ⟨a, hk⟩
          · exact h2 ⟨a, b, by omega⟩
        rw [if_neg h2, if_neg h3]

theorem padRow_frame (n r cols padToX cn : Nat) (M : MatrixXd) (n' k : Nat)
    (h : n' ≠ n ∨ k < r * cn + cols ∨ r * cn + padToX ≤ k) :
    (padRow n r cols padToX cn M).entry n' k = M.entry n' k := by
  unfold padRow
  apply foldl_frame (fun M : MatrixXd => M.entry n' k)
  intro M c hc
  rw [List.mem_range'_1] at hc
  simp only [set_entry]
  rw [if_neg]
  rintro ⟨a, b⟩
  rcases h with h | h | h
  · exact h a
  · omega
  · omega

theorem padRows_frame (n rows padToX padToY cn : Nat) (M : MatrixXd) (n' k : Nat)
    (h : n' ≠ n ∨ k < rows * cn) :
    (padRows n rows padToX padToY cn M).entry n' k = M.entry n' k := by
  unfold padRows
  apply foldl_frame (fun M : MatrixXd => M.entry n' k)
  intro M r hr
  rw [List.mem_range'_1] at hr
  apply foldl_frame (fun M : MatrixXd => M.entry n' k)
  intro M c hc
  simp only [set_entry]
  rw [if_neg]
  rintro ⟨a, b⟩
  rcases h with h | h
  · exact h a
  · have : rows * cn ≤ r * cn := Nat.mul_le_mul_right _ hr.1
    omega

theorem loadRows_succ (n rows cols padToX cn : Nat) (st : Stream × MatrixXd) :
    loadRows n (rows + 1) cols padToX cn st =
      ((loadPixels n rows cols cn (loadRows n rows cols padToX cn st)).1,
        padRow n rows cols padToX cn
          (loadPixels n rows cols cn (loadRows n rows cols padToX cn st)).2) := by
  simp [loadRows, List.range_succ, List.foldl_append]

theorem loadRows_stream (n rows cols padToX cn : Nat) (st : Stream × MatrixXd) :
    (loadRows n rows cols padToX cn st).1 = { st.1 with pos := st.1.pos + rows * cols } := by
  induction rows with
  | zero => simp [loadRows]
  | succ k ih =>
    rw [loadRows_succ]
    simp only [loadPixels_stream, ih]
    congr 1
    ring

theorem loadRows_frame (n rows cols padToX cn : Nat) (st : Stream × MatrixXd) (n' k : Nat)
    (h : n' ≠ n) : (loadRows n rows cols padToX cn st).2.entry n' k = st.2.entry n' k := by
  induction rows with
  | zero => simp [loadRows]
  | succ r ih =>
    rw [loadRows_succ]
    simp only []
    rw [padRow_frame _ _ _ _ _ _ _ _ (Or.inl h), loadPixels_entry, if_neg (fun hh => h hh.1), ih]

theorem loadRows_entry (n rows cols padToX cn : Nat) (st : Stream × MatrixXd)
    (hcols : cols ≤ cn) (r c : Nat) (hr : r < rows) (hc : c < cols) :
    (loadRows n rows cols padToX cn st).2.entry n (r * cn + c) =
      ((st.1.bytes (st.1.pos + r * cols + c)).val : fpt) / 255 := by
  induction rows with
  | zero => omega
  | succ R ih =>
    rw [loadRows_succ]
    simp only []
    rw [padRow_frame _ _ _ _ _ _ _ _ (Or.inr (Or.inl (by
      by_cases hR : r = R
      · subst hR; omega
      · have : (r + 1) * cn ≤ R * cn := Nat.mul_le_mul_right _ (by omega)
        have e : (r + 1) * cn = r * cn + cn := by ring
        omega)))]
    rw [loadPixels_entry, loadRows_stream]
    by_cases hR : r = R
    · subst hR
      have e : r * cn + c - r * cn = c := by omega
      rw [if_pos ⟨rfl, by omega, by omega⟩, e]
    · have hlt : r * cn + c < R * cn := by
        have : (r + 1) * cn ≤ R * cn := Nat.mul_le_mul_right _ (by omega)
        have e : (r + 1) * cn = r * cn + cn := by ring
        omega
      rw [if_neg (fun hh => by omega)]
      exact ih (by omega)

theorem colNumber_ge (padToX cols : Nat) :
    cols ≤ colNumber padToX cols ∧ padToX ≤ colNumber padToX cols := by
  unfold colNumber
  split <;> omega

theorem loadImage_stream (rows cols padToX padToY : Nat) (st : Stream × MatrixXd) (n : Nat) :
    (loadImage rows cols padToX padToY st n).1 = { st.1 with pos := st.1.pos + rows * cols } := by
  simp only [loadImage, loadRows_stream]

theorem loadImage_frame (rows cols padToX padToY : Nat) (st : Stream × MatrixXd) (n n' k : Nat)
    (h : n' ≠ n) : (loadImage rows cols padToX padToY st n).2.entry n' k = st.2.entry n' k := by
  simp only [loadImage]
  rw [padRows_frame _ _ _ _ _ _ _ _ (Or.inl h), loadRows_frame _ _ _ _ _ _ _ _ h]

theorem loadImage_entry (rows cols padToX padToY : Nat) (st : Stream × MatrixXd) (n : Nat)
    (r c : Nat) (hr : r < rows) (hc : c < cols) :
    (loadImage rows cols padToX padToY st n).2.entry n (r * colNumber padToX cols + c) =
      ((st.1.bytes (st.1.pos + r * cols + c)).val : fpt) / 255 := by
  obtain ⟨h1, _⟩ := colNumber_ge padToX cols
  simp only [loadImage]
  rw [padRows_frame _ _ _ _ _ _ _ _ (Or.inr (by
      have : (r + 1) * colNumber padToX cols ≤ rows * colNumber padToX cols :=
        Nat.mul_le_mul_right _ (by omega)
      have e : (r + 1) * colNumber padToX cols
          = r * colNumber padToX cols + colNumber padToX cols := by ring
      omega))]
  exact loadRows_entry n rows cols padToX _ st h1 r c hr hc

theorem loadImages_succ (N rows cols padToX padToY : Nat) (st : Stream × MatrixXd) :
    (List.range (N + 1)).foldl (loadImage rows cols padToX padToY) st =
      loadImage rows cols padToX padToY
        ((List.range N).foldl (loadImage rows cols padToX padToY) st) N := by
  simp [List.range_succ, List.foldl_append]

theorem loadImages_stream (N rows cols padToX padToY : Nat) (st : Stream × MatrixXd) :
    ((List.range N).foldl (loadImage rows cols padToX padToY) st).1 =
      { st.1 with pos := st.1.pos + N * (rows * cols) } := by
  induction N with
  | zero => simp
  | succ k ih =>
    rw [loadImages_succ, loadImage_stream, ih]
    simp only []
    congr 1
    ring

theorem loadImages_entry (N rows cols padToX padToY : Nat) (st : Stream × MatrixXd)
    (n r c : Nat) (hn : n < N) (hr : r < rows) (hc : c < cols) :
    ((List.range N).foldl (loadImage rows cols padToX padToY) st).2.entry n
        (r * colNumber padToX cols + c) =
      ((st.1.bytes (st.1.pos + n * (rows * cols) + r * cols + c)).val : fpt) / 255 := by
  induction N with
  | zero => omega
  | succ M ih =>
    rw [loadImages_succ]
    by_cases hM : n = M
    · subst hM
      rw [loadImage_entry _ _ _ _ _ _ _ _ hr hc, loadImages_stream]
    · rw [loadImage_frame _ _ _ _ _ _ _ _ hM]
      exact ih (by omega)

/-- A loop whose every iteration keeps a quantity keeps it. -/
theorem foldl_keeps {α β γ : Type} (g : β → γ) (F : β → α → β) (l : List α)
    (h : ∀ M c, g (F M c) = g M) (M : β) : g (l.foldl F M) = g M := by
  induction l generalizing M with
  | nil => rfl
  | cons c cs ih => rw [List.foldl_cons, ih, h]

/-- The loops of `load` write coefficients of `input` and never resize it. -/
theorem loadImage_shape (rows cols padToX padToY : Nat) (st : Stream × MatrixXd) (n : Nat) :
    ((loadImage rows cols padToX padToY st n).2.rows,
      (loadImage rows cols padToX padToY st n).2.cols) = (st.2.rows, st.2.cols) := by
  have h1 : ∀ (r : Nat) (st : Stream × MatrixXd),
      ((loadPixels n r cols (colNumber padToX cols) st).2.rows,
        (loadPixels n r cols (colNumber padToX cols) st).2.cols) = (st.2.rows, st.2.cols) := by
    intro r st
    unfold loadPixels
    apply foldl_keeps (fun st : Stream × MatrixXd => (st.2.rows, st.2.cols))
    intro _ _; rfl
  have h2 : ∀ (r : Nat) (M : MatrixXd),
      ((padRow n r cols padToX (colNumber padToX cols) M).rows,
        (padRow n r cols padToX (colNumber padToX cols) M).cols) = (M.rows, M.cols) := by
    intro r M
    unfold padRow
    apply foldl_keeps (fun M : MatrixXd => (M.rows, M.cols))
    intro _ _; rfl
  have h3 : ∀ st : Stream × MatrixXd,
      ((loadRows n rows cols padToX (colNumber padToX cols) st).2.rows,
        (loadRows n rows cols padToX (colNumber padToX cols) st).2.cols)
        = (st.2.rows, st.2.cols) := by
    intro st
    unfold loadRows
    apply foldl_keeps (fun st : Stream × MatrixXd => (st.2.rows, st.2.cols))
    intro st r
    exact (h2 r _).trans (h1 r st)
  have h4 : ∀ M : MatrixXd,
      ((padRows n rows padToX padToY (colNumber padToX cols) M).rows,
        (padRows n rows padToX padToY (colNumber padToX cols) M).cols) = (M.rows, M.cols) := by
    intro M
    unfold padRows
    apply foldl_keeps (fun M : MatrixXd => (M.rows, M.cols))
    intro M _
    apply foldl_keeps (fun M : MatrixXd => (M.rows, M.cols))
    intro _ _; rfl
  exact (h4 _).trans (h3 st)

theorem loadInput_shape (N rows cols padToX padToY : Nat) (s : Stream) :
    (loadInput N rows cols padToX padToY s).2.rows = N ∧
    (loadInput N rows cols padToX padToY s).2.cols = inputColumns rows cols padToX padToY := by
  have h := foldl_keeps (fun st : Stream × MatrixXd => (st.2.rows, st.2.cols))
    (loadImage rows cols padToX padToY) (List.range N)
    (fun st n => loadImage_shape rows cols padToX padToY st n)
    (s, MatrixXd.zero N (inputColumns rows cols padToX padToY))
  exact ⟨congrArg Prod.fst h, congrArg Prod.snd h⟩

/-- With no padding in `x` (`padToX ≤ cols`), or padding in `y` to at least the
image height, the column of a pixel is a column of `input`. -/
theorem pixel_column_lt (rows cols padToX padToY r c : Nat) (hr : r < rows) (hc : c < cols)
    (hp : padToX ≤ cols ∨ rows ≤ padToY) :
    r * colNumber padToX cols + c < inputColumns rows cols padToX padToY := by
  have hD1 : rows * cols ≤ inputColumns rows cols padToX padToY := by
    unfold inputColumns; split <;> omega
  have hD2 : padToX * padToY ≤ inputColumns rows cols padToX padToY := by
    unfold inputColumns; split <;> omega
  by_cases hx : padToX > cols
  · have hy : rows ≤ padToY := by rcases hp with h | h <;> omega
    have e : colNumber padToX cols = padToX := by simp [colNumber, hx]
    have h1 : (r + 1) * padToX ≤ padToY * padToX := Nat.mul_le_mul_right _ (by omega)
    have h2 : (r + 1) * padToX = r * padToX + padToX := by ring
    have h3 : padToY * padToX = padToX * padToY := Nat.mul_comm _ _
    rw [e]; omega
  · have e : colNumber padToX cols = cols := by simp [colNumber, hx]
    have h1 : (r + 1) * cols ≤ rows * cols := Nat.mul_le_mul_right _ (by omega)
    have h2 : (r + 1) * cols = r * cols + cols := by ring
    rw [e]; omega

/-- C15: for every image `n < N` and pixel `(r, c)` of it, `load` stores at
`input(n, r * colNumber + c)` the value `b / 255`, where `b` is the byte of the
file at the pixel's position (the private `read` turns it into `255 - b` and
`load` stores `1 - (255 - b) / 255`); the stored value lies in `[0, 1]`, it is
`0` for the byte `0` and `1` for the byte `255`.  `input` has `N` rows and `D`
columns, and the pixel's column is one of them when there is no padding in `x`
or the padding in `y` reaches the image height. -/
theorem C15_pixel_scaling (N rows cols padToX padToY : Nat) (s : Stream) (n r c : Nat)
    (hn : n < N) (hr : r < rows) (hc : c < cols) :
    (read { s with pos := s.pos + n * (rows * cols) + r * cols + c }).1 =
      255 - (s.bytes (s.pos + n * (rows * cols) + r * cols + c)).val ∧
    (loadInput N rows cols padToX padToY s).2.entry n (r * colNumber padToX cols + c) =
      ((s.bytes (s.pos + n * (rows * cols) + r * cols + c)).val : fpt) / 255 ∧
    0 ≤ (loadInput N rows cols padToX padToY s).2.entry n (r * colNumber padToX cols + c) ∧
    (loadInput N rows cols padToX padToY s).2.entry n (r * colNumber padToX cols + c) ≤ 1 ∧
    ((s.bytes (s.pos + n * (rows * cols) + r * cols + c)).val = 0 →
      (loadInput N rows cols padToX padToY s).2.entry n (r * colNumber padToX cols + c) = 0) ∧
    ((s.bytes (s.pos + n * (rows * cols) + r * cols + c)).val = 255 →
      (loadInput N rows cols padToX padToY s).2.entry n (r * colNumber padToX cols + c) = 1) ∧
    (loadInput N rows cols padToX padToY s).2.rows = N ∧
    (loadInput N rows cols padToX padToY s).2.cols = inputColumns rows cols padToX padToY ∧
    (padToX ≤ cols ∨ rows ≤ padToY →
      r * colNumber padToX cols + c < inputColumns rows cols padToX padToY) := by
  have h := loadImages_entry N rows cols padToX padToY
    (s, MatrixXd.zero N (inputColumns rows cols padToX padToY)) n r c hn hr hc
  have e : (loadInput N rows cols padToX padToY s).2.entry n (r * colNumber padToX cols + c) =
      ((s.bytes (s.pos + n * (rows * cols) + r * cols + c)).val : fpt) / 255 := h
  have hb : (s.bytes (s.pos + n * (rows * cols) + r * cols + c)).val ≤ 255 := by omega
  have hb' : ((s.bytes (s.pos + n * (rows * cols) + r * cols + c)).val : fpt) ≤ 255 := by
    exact_mod_cast hb
  refine ⟨rfl, e, ?_, ?_, ?_, ?_, (loadInput_shape N rows cols padToX padToY s).1,
    (loadInput_shape N rows cols padToX padToY s).2,
    pixel_column_lt rows cols padToX padToY r c hr hc⟩
  · rw [e]; positivity
  · rw [e, div_le_one (by norm_num)]; exact hb'
  · intro h0; rw [e, h0]; simp
  · intro h255; rw [e, h255]; norm_num

end IDXLoader

namespace IDXLoader
open Example

/-- Witness for C15: one image of one pixel whose byte is `255` is stored as
`1`. -/
theorem C15_pixel_scaling_witness :
    ((0 : Nat) < 1 ∧ (0 : Nat) < 1 ∧ (0 : Nat) < 1) ∧
    (loadInput 1 1 1 1 1 (constStream 255)).2.entry 0 (0 * colNumber 1 1 + 0) = 1 :=
  ⟨⟨by decide, by decide, by decide⟩,
    (C15_pixel_scaling 1 1 1 1 1 (constStream 255) 0 0 0 (by decide) (by decide)
      (by decide)).2.2.2.2.2.1 rfl⟩

/-! ## One-hot labels (C16) -/

theorem loadLabelRow_entry (n F tmp : Nat) (M : MatrixXd) (n' c : Nat) :
    (loadLabelRow n F tmp M).entry n' c =
      if n' = n ∧ c < F then (if 255 - tmp = c then 1 else 0) else M.entry n' c := by
  induction F with
  | zero => simp [loadLabelRow]
  | succ k ih =>
    have hs : loadLabelRow n (k + 1) tmp M =
        (loadLabelRow n k tmp M).set n k (if 255 - tmp = k then 1 else 0) := by
      simp [loadLabelRow, List.range_succ, List.foldl_append]
    rw [hs, set_entry, ih]
    by_cases h1 : n' = n ∧ c = k
    · obtain ⟨a, b⟩ := h1
      subst a b
      simp
    · rw [if_neg h1]
      by_cases h2 : n' = n ∧ c < k
      · have h3 : n' = n ∧ c < k + 1 := ⟨h2.1, by omega⟩
        rw [if_pos h2, if_pos h3]
      · have h3 : ¬ (n' = n ∧ c < k + 1) := by
          rintro ⟨a, b⟩
          by_cases hk : c = k
          · exact h1 ⟨a, hk⟩
          · exact h2 ⟨a, by omega⟩
        rw [if_neg h2, if_neg h3]

theorem loadLabels_succ (N : Nat) (st : Stream × MatrixXd) :
    loadLabels (N + 1) st =
      ((read (loadLabels N st).1).2,
        loadLabelRow N 10 (read (loadLabels N st).1).1 (loadLabels N st).2) := by
  simp [loadLabels, List.range_succ, List.foldl_append]

theorem loadLabels_stream (N : Nat) (st : Stream × MatrixXd) :
    (loadLabels N st).1 = { st.1 with pos := st.1.pos + N } := by
  induction N with
  | zero => rfl
  | succ k ih => rw [loadLabels_succ]; simp [ih, read, Nat.add_assoc]

theorem loadLabels_entry (N : Nat) (st : Stream × MatrixXd) (n c : Nat) (hn : n < N)
    (hc : c < 10) :
    (loadLabels N st).2.entry n c = if (st.1.bytes (st.1.pos + n)).val = c then 1 else 0 := by
  induction N with
  | zero => omega
  | succ M ih =>
    rw [loadLabels_succ]
    simp only [loadLabelRow_entry, loadLabels_stream, read]
    by_cases hM : n = M
    · subst hM
      have hb : (st.1.bytes (st.1.pos + n)).val ≤ 255 := by omega
      have e : 255 - (255 - (st.1.bytes (st.1.pos + n)).val) = (st.1.bytes (st.1.pos + n)).val := by
        omega
      rw [if_pos ⟨rfl, hc⟩, e]
    · rw [if_neg (fun h => hM h.1)]
      exact ih (by omega)

/-- C16: for every label `n < N` whose byte `b` in the label file is at most `9`,
row `n` of the output matrix (ten columns) holds `1` in column `b` and `0` in the
other nine columns, so exactly one `1`. -/
theorem C16_one_hot_labels (N : Nat) (s : Stream) (n : Nat) (hn : n < N)
    (hb : (s.bytes (s.pos + n)).val ≤ 9) :
    (loadOutput N s).2.entry n (s.bytes (s.pos + n)).val = 1 ∧
    (∀ c, c < 10 → c ≠ (s.bytes (s.pos + n)).val → (loadOutput N s).2.entry n c = 0) ∧
    ((List.range 10).map fun c => (loadOutput N s).2.entry n c).count 1 = 1 := by
  have h : ∀ c, c < 10 → (loadOutput N s).2.entry n c =
      if (s.bytes (s.pos + n)).val = c then 1 else 0 :=
    fun c hc => loadLabels_entry N (s, MatrixXd.zero N 10) n c hn hc
  refine ⟨?_, ?_, ?_⟩
  · rw [h _ (by omega), if_pos rfl]
  · intro c hc hne
    rw [h c hc, if_neg (Ne.symm hne)]
  · have hrow : ((List.range 10).map fun c => (loadOutput N s).2.entry n c) =
        (List.range 10).map fun c => if (s.bytes (s.pos + n)).val = c then (1 : fpt) else 0 := by
      apply List.map_congr_left
      intro c hc
      exact h c (List.mem_range.mp hc)
    rw [hrow]
    generalize (s.bytes (s.pos + n)).val = b at hb
    interval_cases b <;> simp [List.range_succ]

/-- Witness for C16: one label with byte `3`. -/
theorem C16_one_hot_labels_witness :
    ((0 : Nat) < 1 ∧ ((constStream 3).bytes ((constStream 3).pos + 0)).val ≤ 9) ∧
    (loadOutput 1 (constStream 3)).2.entry 0 3 = 1 :=
  ⟨⟨by decide, by decide⟩, (C16_one_hot_labels 1 (constStream 3) 0 (by decide) (by decide)).1⟩

end IDXLoader

namespace MBSGD
open Example

variable {σ : Type}

/-! ## `result()` (C11) -/

theorem processBatch_optimum (O : Optimizable σ) (s : MBSGD σ) (b : Nat) :
    (processBatch O s b).optimum = s.optimum := rfl

theorem batchLoop_optimum (O : Optimizable σ) (k : Nat) (s : MBSGD σ) :
    (batchLoop O k s).optimum = s.optimum := by
  induction k with
  | zero => rfl
  | succ k ih => rw [batchLoop_succ, processBatch_optimum, ih]

/-- No call of `step` assigns `optimum`. -/
theorem step_optimum {O : Optimizable σ} {dv : StoppingCriteria} {s : MBSGD σ}
    {r : Bool × MBSGD σ} (h : step O dv s = some r) : r.2.optimum = s.optimum := by
  obtain ⟨a, ha, rfl⟩ := step_eq_some h
  obtain ⟨_, s1, st, h1, _, rfl⟩ := assignPhase_eq_some ha
  have e1 : s1.optimum = s.optimum := by
    by_cases hi : s.iteration < 0
    · simp only [hi, if_true] at h1
      obtain ⟨_, _, rfl⟩ := initialise_eq_some h1
      rfl
    · simp only [hi, if_false, Option.some.injEq] at h1; subst h1; rfl
  have e2 : ∀ t : MBSGD σ, (finish O dv t).2.optimum = t.optimum := by
    intro t
    unfold finish
    simp only []
    split <;> rfl
  rw [e2, batchLoop_optimum]
  exact e1

/-- After any number of calls of `step` on a constructed optimizer, `result()`
is still the empty vector that the constructor left in `optimum`. -/
theorem steps_result {O : Optimizable σ} {dv : StoppingCriteria} {n : Nat} {s t : MBSGD σ}
    (h : steps O dv n s = some t) : result t = result s := by
  induction n generalizing t with
  | zero => simp only [steps, Option.some.injEq] at h; subst h; rfl
  | succ n ih =>
    obtain ⟨u, r, hu, hr, rfl⟩ := steps_succ_eq_some h
    exact (step_optimum hr).trans (ih hu)

/-- C11 fails on the code: after one call of `step` on a model with one
parameter (initially `0`), one example and gradient `(1)`, with
`learningRate = 1` and `batchSize = 1`, the parameter vector of the optimizer
and of the model is `(-1)`, of length `dimension() = 1`, but `result()` is the
empty vector. -/
theorem C11_result_is_not_the_parameter_vector :
    ∃ s, steps (constModel 1 1 1) defaults 1
        (construct 1 1 0 0 0 0 1 1 1 ([0] : Vt) defaults zeroRng) = some s ∧
      s.parameters = [-1] ∧ (constModel 1 1 1).currentParameters s.opt = [-1] ∧
      (constModel 1 1 1).dimension s.opt = 1 ∧ result s = [] ∧ result s ≠ s.parameters := by
  have h : (steps (constModel 1 1 1) defaults 1
      (construct 1 1 0 0 0 0 1 1 1 ([0] : Vt) defaults zeroRng)).map
        (fun s => (s.parameters, s.opt)) = some ([-1], [-1]) := by
    simp [steps, step, assignPhase, initialise, assign, construct, constModel, finish,
      batchLoop, processBatch, RandomNumberGenerator.generateIndex, zeroRng, defaults,
      List.range_succ, resize, RandomNumberGenerator.next, List.modify, aggregate,
      sumGradients, coeff, vadd, vsub, smul]
  rw [Option.map_eq_some'] at h
  obtain ⟨s, hs, hp⟩ := h
  simp only [Prod.mk.injEq] at hp
  have hr : result s = [] := steps_result hs
  refine ⟨s, hs, hp.1, hp.2, rfl, hr, ?_⟩
  rw [hr, hp.1]
  simp

end MBSGD

namespace MBSGD
open Example

variable {σ : Type}

/-! ## One batch update (C17) -/

theorem sumGradients_eq (O : Optimizable σ) (indices : List Nat) (g : Vt) (m : σ) :
    sumGradients O indices (g, m) =
      ((gradientsOf O indices m).foldl vadd g, afterGradients O indices m) := by
  induction indices generalizing g m with
  | nil => rfl
  | cons i rest ih =>
    simp only [sumGradients, List.foldl_cons, gradientsOf, afterGradients]
    exact ih _ _

theorem coeff_vadd (a b : Vt) (h : a.length = b.length) (p : Nat) :
    coeff (vadd a b) p = coeff a p + coeff b p := by
  simp only [coeff, vadd, List.getElem?_zipWith]
  by_cases hp : p < a.length
  · have hp' : p < b.length := h ▸ hp
    simp [List.getElem?_eq_getElem hp, List.getElem?_eq_getElem hp']
  · have hp' : ¬ p < b.length := h ▸ hp
    simp [List.getElem?_eq_none (not_lt.mp hp), List.getElem?_eq_none (not_lt.mp hp')]

theorem length_vadd (a b : Vt) (h : a.length = b.length) : (vadd a b).length = a.length := by
  simp [vadd, h]

/-- The sum of vectors of one length, coefficient by coefficient. -/
theorem foldl_vadd (vs : List Vt) (g : Vt) (h : ∀ v ∈ vs, v.length = g.length) :
    (vs.foldl vadd g).length = g.length ∧
    ∀ p, coeff (vs.foldl vadd g) p = coeff g p + (vs.map fun v => coeff v p).sum := by
  induction vs generalizing g with
  | nil => simp
  | cons v rest ih =>
    have hv : g.length = v.length := (h v (List.mem_cons_self _ _)).symm
    have hl := length_vadd g v hv
    obtain ⟨h1, h2⟩ := ih (vadd g v)
      (fun w hw => by rw [hl]; exact h w (List.mem_cons_of_mem _ hw))
    refine ⟨by rw [List.foldl_cons, h1, hl], ?_⟩
    intro p
    rw [List.foldl_cons, h2 p, coeff_vadd g v hv p, List.map_cons, List.sum_cons]
    ring

theorem coeff_map_div (v : Vt) (c : fpt) (p : Nat) :
    coeff (v.map fun x => x / c) p = coeff v p / c := by
  simp only [coeff, List.getElem?_map]
  cases v[p]? <;> simp

theorem coeff_map_zero (v : Vt) (p : Nat) : coeff (v.map fun _ => (0 : fpt)) p = 0 := by
  simp only [coeff, List.getElem?_map]
  cases v[p]? <;> simp

/-- The aggregated gradient of a batch: each coefficient is the sum of that
coefficient over the gradients of the batch's examples, divided by
`batchSize`. -/
theorem aggregate_spec (O : Optimizable σ) (s : MBSGD σ) (b : Nat)
    (h : ∀ v ∈ gradientsOf O (s.batchAssignment.getD b []) s.opt, v.length = s.gradient.length) :
    (aggregate O s b).1.length = s.gradient.length ∧
    (aggregate O s b).2 = afterGradients O (s.batchAssignment.getD b []) s.opt ∧
    ∀ p, coeff (aggregate O s b).1 p =
      ((gradientsOf O (s.batchAssignment.getD b []) s.opt).map fun v => coeff v p).sum
        / (s.batchSize : fpt) := by
  obtain ⟨h1, h2⟩ := foldl_vadd (gradientsOf O (s.batchAssignment.getD b []) s.opt)
    (s.gradient.map fun _ => 0) (fun v hv => by rw [List.length_map]; exact h v hv)
  unfold aggregate
  simp only [sumGradients_eq]
  refine ⟨by rw [List.length_map, h1, List.length_map], trivial, ?_⟩
  intro p
  rw [coeff_map_div, h2 p, coeff_map_zero, zero_add]

theorem mem_gradientsOf (O : Optimizable σ) (K : Nat)
    (hg : ∀ i m, (O.gradient i m).1.length = K) (indices : List Nat) (m : σ) :
    ∀ v ∈ gradientsOf O indices m, v.length = K := by
  induction indices generalizing m with
  | nil => intro v hv; simp [gradientsOf] at hv
  | cons i rest ih =>
    intro v hv
    simp only [gradientsOf, List.mem_cons] at hv
    rcases hv with hv | hv
    · rw [hv]; exact hg i m
    · exact ih _ v hv

/-- With gains disabled, a batch update keeps the gradient buffer at `P`
entries when the model's gradients have `P` entries. -/
theorem processBatch_gradient_length (O : Optimizable σ) (s : MBSGD σ) (b : Nat)
    (hgain : s.useGain = false) (hlen : s.gradient.length = s.P)
    (hg : ∀ i m, (O.gradient i m).1.length = s.P) :
    (processBatch O s b).gradient.length = s.P := by
  rw [(processBatch_gradient_noGain O s b hgain).1,
    (aggregate_spec O s b (fun v hv => by
      rw [hlen]; exact mem_gradientsOf O s.P hg _ _ v hv)).1, hlen]

theorem batchLoop_gradient_length (O : Optimizable σ) (s : MBSGD σ) (k : Nat)
    (hgain : s.useGain = false) (hlen : s.gradient.length = s.P)
    (hg : ∀ i m, (O.gradient i m).1.length = s.P) :
    (batchLoop O k s).gradient.length = s.P := by
  induction k with
  | zero => exact hlen
  | succ k ih =>
    rw [batchLoop_succ]
    have hP := (batchLoop_P O k s).1
    have := processBatch_gradient_length O (batchLoop O k s) k
      (by rw [(batchLoop_config O k s).useGain]; exact hgain) (by rw [hP]; exact ih)
      (by rw [hP]; exact hg)
    rw [hP] at this
    exact this

/-- Between steps of an optimizer with gains disabled, on a model of constant
dimension `K` whose gradients have `K` entries, the gradient buffer has `P`
entries, and `P = K` while a run is in progress. -/
theorem steps_gradient_length {O : Optimizable σ} {dv : StoppingCriteria} (K : Nat)
    (hK : ∀ m, O.dimension m = K) (hg : ∀ i m, (O.gradient i m).1.length = K)
    {n : Nat} {s t : MBSGD σ} (h : steps O dv n s = some t) (hgain : s.useGain = false)
    (hlen : s.gradient.length = s.P) (hP : 0 ≤ s.iteration → s.P = K) :
    t.gradient.length = t.P ∧ (0 ≤ t.iteration → t.P = K) := by
  induction n generalizing t with
  | zero => simp only [steps, Option.some.injEq] at h; subst h; exact ⟨hlen, hP⟩
  | succ n ih =>
    obtain ⟨u, r, hu, hr, rfl⟩ := steps_succ_eq_some h
    obtain ⟨iu1, iu2⟩ := ih hu
    have hgu : u.useGain = false := by rw [(steps_config hu).useGain]; exact hgain
    obtain ⟨a, ha, rfl⟩ := step_eq_some hr
    have hga : a.useGain = false := by rw [(assignPhase_config ha).useGain]; exact hgu
    obtain ⟨_, s1, st, h1, _, rfl⟩ := assignPhase_eq_some ha
    have hs1 : s1.gradient.length = s1.P ∧ s1.P = K := by
      by_cases hi : u.iteration < 0
      · simp only [hi, if_true] at h1
        obtain ⟨_, _, rfl⟩ := initialise_eq_some h1
        exact ⟨by simp, hK _⟩
      · simp only [hi, if_false, Option.some.injEq] at h1
        subst h1
        exact ⟨iu1, iu2 (not_lt.mp hi)⟩
    have hl := batchLoop_gradient_length O
      { s1 with rng := st.1, batchAssignment := st.2 } (s1.batches.toNat) hga hs1.1
      (by rw [show ({ s1 with rng := st.1, batchAssignment := st.2 } : MBSGD σ).P = s1.P from rfl,
            hs1.2]; exact hg)
    obtain ⟨_, fP, _, _⟩ := finish_gains O dv
      (batchLoop O s1.batches.toNat { s1 with rng := st.1, batchAssignment := st.2 })
    have fg : ∀ t : MBSGD σ, (finish O dv t).2.gradient = t.gradient := by
      intro t
      unfold finish
      simp only []
      split <;> rfl
    have bP := (batchLoop_P O s1.batches.toNat
      { s1 with rng := st.1, batchAssignment := st.2 }).1
    refine ⟨?_, fun _ => ?_⟩
    · rw [fg, fP, bP]; exact hl
    · rw [fP, bP]; exact hs1.2

end MBSGD

namespace MBSGD
open Example

variable {σ : Type}

theorem batchLoop_batchAssignment_current (O : Optimizable σ) (k : Nat) (s : MBSGD σ) :
    (batchLoop O k s).batchAssignment[k]? = s.batchAssignment[k]? := by
  cases h : (batchLoop O k s).batchAssignment[k]? with
  | some l => exact ((batchLoop_batchAssignment O k s k l h).2 (le_refl k)).symm
  | none =>
    rw [List.getElem?_eq_none_iff] at h
    rw [batchLoop_batchAssignment_length] at h
    exact (List.getElem?_eq_none_iff.mpr h).symm

/-- C17: in a step of an optimizer constructed with `minGain = maxGain = 1`, on
a model of dimension `K` whose gradients have `K` entries, the update for batch
`k < batches` works on the indices that the assignment loop put into list `k`;
each coefficient of the aggregated gradient is the sum of that coefficient over
the gradients of those examples, divided by `batchSize`; the new momentum is
`eta * momentum - alpha * gradient` with the `alpha` and `eta` from before the
batch; the new parameters are the old ones plus the new momentum; the model
(in the state the gradient calls left it in) receives exactly these parameters
through `setParameters`; list `k` is empty afterwards; `alpha` and `eta` are
decayed and increased only after that. -/
theorem C17_batch_update (O : Optimizable σ) (dv : StoppingCriteria)
    (learningRate learningRateDecay minimalLearningRate momentum momentumGain
      maximalMomentum : fpt) (batchSize : Int)
    (opt : σ) (stop : StoppingCriteria) (rng : RandomNumberGenerator)
    (K n k : Nat) (s a : MBSGD σ)
    (hK : ∀ m, O.dimension m = K) (hg : ∀ i m, (O.gradient i m).1.length = K)
    (hs : steps O dv n (construct learningRate learningRateDecay minimalLearningRate
      momentum momentumGain maximalMomentum batchSize 1 1 opt stop rng) = some s)
    (ha : assignPhase O s = some a) (hk : k < a.batches.toNat) :
    (batchLoop O k a).batchAssignment[k]? = a.batchAssignment[k]? ∧
    (batchLoop O (k + 1) a).gradient.length = K ∧
    (∀ p, coeff (batchLoop O (k + 1) a).gradient p =
      ((gradientsOf O (a.batchAssignment.getD k []) (batchLoop O k a).opt).map
        fun v => coeff v p).sum / (batchSize : fpt)) ∧
    (batchLoop O (k + 1) a).momentum =
      vsub (smul (batchLoop O k a).eta (batchLoop O k a).momentum)
        (smul (batchLoop O k a).alpha (batchLoop O (k + 1) a).gradient) ∧
    (batchLoop O (k + 1) a).parameters =
      vadd (batchLoop O k a).parameters (batchLoop O (k + 1) a).momentum ∧
    (batchLoop O (k + 1) a).opt =
      O.setParameters (batchLoop O (k + 1) a).parameters
        (afterGradients O (a.batchAssignment.getD k []) (batchLoop O k a).opt) ∧
    (batchLoop O (k + 1) a).batchAssignment[k]? = some [] ∧
    (batchLoop O (k + 1) a).alpha =
      max ((batchLoop O k a).alpha * learningRateDecay) minimalLearningRate ∧
    (batchLoop O (k + 1) a).eta =
      min ((batchLoop O k a).eta + momentumGain) maximalMomentum := by
  have hc := steps_config hs
  have hca := assignPhase_config ha
  have hi := steps_runInv hs (construct_runInv learningRate learningRateDecay
    minimalLearningRate momentum momentumGain maximalMomentum batchSize 1 1 opt stop rng)
  have hgs : s.useGain = false := by rw [hc.useGain]; simp [construct]
  have hga : a.useGain = false := by rw [hca.useGain]; exact hgs
  obtain ⟨hit, _, _, _, _, hlen, _⟩ := assignPhase_spec ha hi
  -- the gradient buffer has `K` entries when the batches are processed
  obtain ⟨l1, l2⟩ := steps_gradient_length K hK hg hs rfl rfl
    (fun h => absurd (show (0 : Int) ≤ -1 from h) (by decide))
  have haP : a.gradient.length = a.P ∧ a.P = K := by
    obtain ⟨_, s1, st, h1, _, rfl⟩ := assignPhase_eq_some ha
    by_cases hlt : s.iteration < 0
    · simp only [hlt, if_true] at h1
      obtain ⟨_, _, rfl⟩ := initialise_eq_some h1
      exact ⟨by simp, hK _⟩
    · simp only [hlt, if_false, Option.some.injEq] at h1
      subst h1
      exact ⟨l1, l2 (not_lt.mp hlt)⟩
  have hck := batchLoop_config O k a
  have hPk := (batchLoop_P O k a).1
  have hgk : (batchLoop O k a).useGain = false := by rw [hck.useGain]; exact hga
  have hlk : (batchLoop O k a).gradient.length = K := by
    rw [batchLoop_gradient_length O a k hga haP.1 (by rw [haP.2]; exact hg), haP.2]
  have hcur := batchLoop_batchAssignment_current O k a
  have hlist : (batchLoop O k a).batchAssignment.getD k [] = a.batchAssignment.getD k [] := by
    rw [List.getD_eq_getElem?_getD, List.getD_eq_getElem?_getD, hcur]
  obtain ⟨g1, g2, g3⟩ := aggregate_spec O (batchLoop O k a) k
    (fun v hv => by rw [hlk]; exact mem_gradientsOf O K hg _ _ v hv)
  obtain ⟨n1, n2⟩ := processBatch_gradient_noGain O (batchLoop O k a) k hgk
  have ebs : (batchLoop O k a).batchSize = batchSize :=
    hck.batchSize.trans (hca.batchSize.trans hc.batchSize)
  have egrad : (batchLoop O (k + 1) a).gradient = (aggregate O (batchLoop O k a) k).1 := by
    rw [batchLoop_succ]; exact n1
  have emom : (batchLoop O (k + 1) a).momentum =
      vsub (smul (batchLoop O k a).eta (batchLoop O k a).momentum)
        (smul (batchLoop O k a).alpha (batchLoop O (k + 1) a).gradient) := by
    rw [egrad, batchLoop_succ]; exact n2
  refine ⟨hcur, ?_, ?_, emom, ?_, ?_, ?_, ?_, ?_⟩
  · rw [egrad, g1, hlk]
  · intro p
    rw [egrad, g3 p, hlist, ebs]
  · rw [batchLoop_succ]; rfl
  · rw [← hlist, ← g2, batchLoop_succ]; rfl
  · rw [batchLoop_succ, processBatch_batchAssignment, List.getElem?_set]
    have : k < (batchLoop O k a).batchAssignment.length := by
      rw [batchLoop_batchAssignment_length, hlen]; exact hk
    simp [this]
  · rw [batchLoop_succ, processBatch_alpha, hck.alphaDecay, hck.minAlpha, hca.alphaDecay,
      hca.minAlpha, hc.alphaDecay, hc.minAlpha]
    rfl
  · rw [batchLoop_succ, processBatch_eta, hck.etaGain, hck.maxEta, hca.etaGain, hca.maxEta,
      hc.etaGain, hc.maxEta]
    rfl

end MBSGD

namespace MBSGD
open Example

variable {σ : Type}

/-! ## Lazy initialization (C18), synchronisation (C19), schedule (C20) -/

theorem resize_of_empty (l : List (List Nat)) (n : Nat) (h : ∀ x ∈ l, x = []) :
    resize l n = List.replicate n [] :=
  List.eq_replicate_iff.mpr ⟨resize_length l n, resize_empty l n h⟩

/-- C18: in a state reached by calls of `step` on a constructed optimizer, with
a model that can initialize itself and `1 ≤ batchSize ≤ N` (or `N = 0`), the
first part of a further call returns, and the state `a` in which the batches
are then processed is as follows.  If `iteration = -1` at the call:
`P = dimension()`, `N = examples()`, `batches = ⌊N / batchSize⌋`, every gain is
`1`, momentum and gradient buffer are zero, the parameters are
`currentParameters()`, and the assignment loop started on exactly `batches`
empty lists.  If `iteration ≥ 0` at the call: `P`, `N`, `batches`, gains,
momentum, gradient buffer and parameters are those of before the call, and the
assignment loop started on the lists of before the call. -/
theorem C18_lazy_initialization (O : Optimizable σ) (dv : StoppingCriteria)
    (learningRate learningRateDecay minimalLearningRate momentum momentumGain
      maximalMomentum : fpt) (batchSize : Int) (minGain maxGain : fpt)
    (opt : σ) (stop : StoppingCriteria) (rng : RandomNumberGenerator) (n : Nat) (s : MBSGD σ)
    (hs : steps O dv n (construct learningRate learningRateDecay minimalLearningRate
      momentum momentumGain maximalMomentum batchSize minGain maxGain opt stop rng) = some s)
    (hp : O.providesInitialization s.opt = true) (hbs : 1 ≤ batchSize)
    (hN : batchSize ≤ (examplesAtStep O s : Int) ∨ examplesAtStep O s = 0) :
    ∃ a, assignPhase O s = some a ∧
      (s.iteration = -1 →
        a.P = O.dimension s.opt ∧ a.N = O.examples s.opt ∧
        a.batches = (a.N : Int) / batchSize ∧
        a.gains = List.replicate a.P 1 ∧ a.momentum = List.replicate a.P 0 ∧
        a.gradient = List.replicate a.P 0 ∧ a.parameters = O.currentParameters s.opt ∧
        a.iteration = 0 ∧
        assign a.batches a.N (s.rng, List.replicate a.batches.toNat []) =
          some (a.rng, a.batchAssignment)) ∧
      (0 ≤ s.iteration →
        a.P = s.P ∧ a.N = s.N ∧ a.batches = s.batches ∧ a.gains = s.gains ∧
        a.momentum = s.momentum ∧ a.gradient = s.gradient ∧ a.parameters = s.parameters ∧
        a.iteration = s.iteration ∧
        assign s.batches s.N (s.rng, s.batchAssignment) = some (a.rng, a.batchAssignment)) := by
  have hc := steps_config hs
  have hi := steps_runInv hs (construct_runInv learningRate learningRateDecay
    minimalLearningRate momentum momentumGain maximalMomentum batchSize minGain maxGain opt
    stop rng)
  have ebs : s.batchSize = batchSize := hc.batchSize
  have hpos : 0 < batchSize := by omega
  obtain ⟨a, ha⟩ := assignPhase_isSome hi hp (fun hlt => by
    rw [ebs]
    refine ⟨hpos, ?_⟩
    simpa [examplesAtStep, hlt] using hN)
  refine ⟨a, ha, ?_, ?_⟩
  · intro hit
    have hlt : s.iteration < 0 := by rw [hit]; decide
    obtain ⟨_, s1, st, h1, hst, rfl⟩ := assignPhase_eq_some ha
    simp only [hlt, if_true] at h1
    obtain ⟨_, _, rfl⟩ := initialise_eq_some h1
    simp only [] at hst ⊢
    rw [resize_of_empty _ _ hi.empty] at hst
    refine ⟨trivial, trivial, ?_, trivial, trivial, trivial, trivial, trivial, ?_⟩
    · rw [ebs, Int.tdiv_eq_ediv (Int.ofNat_nonneg _) (le_of_lt hpos)]
    · rw [hst]
  · intro hge
    have hlt : ¬ s.iteration < 0 := not_lt.mpr hge
    obtain ⟨_, s1, st, h1, hst, rfl⟩ := assignPhase_eq_some ha
    simp only [hlt, if_false, Option.some.injEq] at h1
    subst h1
    exact ⟨rfl, rfl, rfl, rfl, rfl, rfl, rfl, rfl, by rw [hst]⟩

/-- Witness for C18: the first step of an optimizer on the example RBM
(`K = 5`, `N = 4`) with `batchSize = 2`. -/
theorem C18_lazy_initialization_witness :
    ∃ a, assignPhase RBM.optimizable
        (construct 1 1 0 0 0 0 2 1 1 rbm fiveIterations zeroRng) = some a ∧
      a.P = 5 ∧ a.N = 4 ∧ a.batches = 2 ∧ a.gains = [1, 1, 1, 1, 1] := by
  obtain ⟨a, ha, h1, _⟩ := C18_lazy_initialization RBM.optimizable defaults 1 1 0 0 0 0 2 1 1 rbm
    fiveIterations zeroRng 0 (construct 1 1 0 0 0 0 2 1 1 rbm fiveIterations zeroRng) rfl rfl
    (by decide) (Or.inl (by decide))
  obtain ⟨hP, hN, hb, hg, _⟩ := h1 rfl
  have hP5 : a.P = 5 := hP
  have hN4 : a.N = 4 := hN
  refine ⟨a, ha, hP5, hN4, ?_, ?_⟩
  · rw [hb, hN4]; decide
  · rw [hg, hP5]; rfl

theorem processBatch_synchronised (O : Optimizable σ) (s : MBSGD σ) (b : Nat)
    (hset : ∀ p m, O.currentParameters (O.setParameters p m) = p) :
    Synchronised O (processBatch O s b) := by
  unfold Synchronised processBatch
  simp only []
  rw [hset]

theorem batchLoop_synchronised (O : Optimizable σ) (k : Nat) (s : MBSGD σ)
    (hset : ∀ p m, O.currentParameters (O.setParameters p m) = p) (h : Synchronised O s) :
    Synchronised O (batchLoop O k s) := by
  cases k with
  | zero => exact h
  | succ k => rw [batchLoop_succ]; exact processBatch_synchronised O _ k hset

/-- A call of `step` ends synchronised when it begins with `initialize()` or
begins synchronised. -/
theorem step_synchronised {O : Optimizable σ} {dv : StoppingCriteria} {s : MBSGD σ}
    {r : Bool × MBSGD σ} (h : step O dv s = some r)
    (hset : ∀ p m, O.currentParameters (O.setParameters p m) = p)
    (hfin : ∀ m, O.currentParameters (O.finishedIteration m) = O.currentParameters m)
    (hsync : 0 ≤ s.iteration → Synchronised O s) : Synchronised O r.2 := by
  obtain ⟨a, ha, rfl⟩ := step_eq_some h
  have hsa : Synchronised O a := by
    obtain ⟨_, s1, st, h1, _, rfl⟩ := assignPhase_eq_some ha
    by_cases hi : s.iteration < 0
    · simp only [hi, if_true] at h1
      obtain ⟨_, _, rfl⟩ := initialise_eq_some h1
      rfl
    · simp only [hi, if_false, Option.some.injEq] at h1
      subst h1
      exact hsync (not_lt.mp hi)
  have hb := batchLoop_synchronised O a.batches.toNat a hset hsa
  obtain ⟨_, _, _, fp, fo, _⟩ := finish_snd O dv (batchLoop O a.batches.toNat a)
  unfold Synchronised at hb ⊢
  rw [fp, fo, hfin]
  exact hb

/-- C19: for a model whose `currentParameters()` returns the vector last given to
`setParameters` (also after `finishedIteration()`), after every call of `step`
on a constructed optimizer (the first or a later one, with any number of
batches, whatever it returns) the parameter vector of the optimizer equals the
model's `currentParameters()`. -/
theorem C19_parameters_synchronised (O : Optimizable σ) (dv : StoppingCriteria)
    (learningRate learningRateDecay minimalLearningRate momentum momentumGain
      maximalMomentum : fpt) (batchSize : Int) (minGain maxGain : fpt)
    (opt : σ) (stop : StoppingCriteria) (rng : RandomNumberGenerator) (n : Nat) (s : MBSGD σ)
    (hset : ∀ p m, O.currentParameters (O.setParameters p m) = p)
    (hfin : ∀ m, O.currentParameters (O.finishedIteration m) = O.currentParameters m)
    (hs : steps O dv (n + 1) (construct learningRate learningRateDecay minimalLearningRate
      momentum momentumGain maximalMomentum batchSize minGain maxGain opt stop rng) = some s) :
    s.parameters = O.currentParameters s.opt := by
  have key : ∀ (m : Nat) (t : MBSGD σ),
      steps O dv m (construct learningRate learningRateDecay minimalLearningRate
        momentum momentumGain maximalMomentum batchSize minGain maxGain opt stop rng) = some t →
      (0 ≤ t.iteration → Synchronised O t) := by
    intro m
    induction m with
    | zero =>
      intro t ht hge
      simp only [steps, Option.some.injEq] at ht
      subst ht
      exact absurd (show (0 : Int) ≤ -1 from hge) (by decide)
    | succ m ih =>
      intro t ht _
      obtain ⟨u, r, hu, hr, rfl⟩ := steps_succ_eq_some ht
      exact step_synchronised hr hset hfin (ih u hu)
  obtain ⟨u, r, hu, hr, rfl⟩ := steps_succ_eq_some hs
  exact step_synchronised hr hset hfin (key n u hu)

/-- Witness for C19: the example RBM after one step. -/
theorem C19_parameters_synchronised_witness :
    ∃ s, steps RBM.optimizable defaults 1
        (construct 1 1 0 0 0 0 2 1 1 rbm defaults zeroRng) = some s ∧
      s.parameters = RBM.currentParameters s.opt := by
  obtain ⟨r, hr⟩ := step_isSome (O := RBM.optimizable) defaults
    (construct_runInv 1 1 0 0 0 0 2 1 1 rbm defaults zeroRng) rfl
    (fun _ => ⟨by decide, Or.inl (by decide)⟩)
  have hs := steps_one hr
  exact ⟨r.2, hs,
    C19_parameters_synchronised RBM.optimizable defaults 1 1 0 0 0 0 2 1 1 rbm defaults zeroRng 0
      r.2 (fun _ _ => rfl) (fun _ => rfl) hs⟩

theorem initialise_schedule {O : Optimizable σ} {s t : MBSGD σ} (h : initialise O s = some t) :
    t.alpha = s.alpha ∧ t.eta = s.eta ∧ t.iteration = 0 := by
  obtain ⟨_, _, rfl⟩ := initialise_eq_some h
  exact ⟨rfl, rfl, rfl⟩

/-- C20: `initialize()` changes neither `alpha` nor `eta`; so when a call of
`step` has returned `false` (leaving `iteration = -1`) and `step` is called
again, the new run begins (`iteration = 0` after its `initialize()`, before the
first batch) with the `alpha` and `eta` that the previous run left, and these are
the values from which the next batch update decays and increases. -/
theorem C20_schedule_survives_reinitialization (O : Optimizable σ) (dv : StoppingCriteria)
    (s s1 a : MBSGD σ) (h1 : step O dv s = some (false, s1))
    (h2 : assignPhase O s1 = some a) :
    (∀ u t, initialise O u = some t → t.alpha = u.alpha ∧ t.eta = u.eta) ∧
    s1.iteration = -1 ∧
    (∃ t, initialise O s1 = some t ∧ t.alpha = s1.alpha ∧ t.eta = s1.eta) ∧
    a.iteration = 0 ∧ a.alpha = s1.alpha ∧ a.eta = s1.eta ∧
    (batchLoop O 1 a).alpha = max (s1.alpha * s1.alphaDecay) s1.minAlpha ∧
    (batchLoop O 1 a).eta = min (s1.eta + s1.etaGain) s1.maxEta := by
  obtain ⟨b, _, hb⟩ := step_eq_some h1
  have hfin := (finish_snd O dv (batchLoop O b.batches.toNat b)).1
  rw [← hb] at hfin
  have hit : s1.iteration = -1 := by simpa using hfin
  have hlt : s1.iteration < 0 := by rw [hit]; decide
  obtain ⟨_, t, st, ht, _, rfl⟩ := assignPhase_eq_some h2
  simp only [hlt, if_true] at ht
  obtain ⟨e1, e2, e3⟩ := initialise_schedule ht
  have hc := initialise_config ht
  refine ⟨fun u t' hu => ⟨(initialise_schedule hu).1, (initialise_schedule hu).2.1⟩, hit,
    ⟨t, ht, e1, e2⟩, e3, e1, e2, ?_, ?_⟩
  · rw [batchLoop_succ, processBatch_alpha]
    show max (t.alpha * t.alphaDecay) t.minAlpha = _
    rw [e1, hc.alphaDecay, hc.minAlpha]
  · rw [batchLoop_succ, processBatch_eta]
    show min (t.eta + t.etaGain) t.maxEta = _
    rw [e2, hc.etaGain, hc.maxEta]

/-- Witness for C20: `learningRate = 1`, `learningRateDecay = 1/2`, `momentum = 0`,
`momentumGain = 1/10`, one example and `maximalIterations = 0`.  The first step
returns `false` with `alpha = 1/2` and `eta = 1/10`; the second run begins with
these values, not with `1` and `0`. -/
theorem C20_schedule_survives_reinitialization_witness :
    ∃ s1 a, step (constModel 1 1 1) defaults
        (construct 1 (1 / 2) 0 0 (1 / 10) 1 1 1 1 ([0] : Vt) noIterations zeroRng)
          = some (false, s1) ∧
      assignPhase (constModel 1 1 1) s1 = some a ∧
      s1.alpha = 1 / 2 ∧ s1.eta = 1 / 10 ∧ a.iteration = 0 ∧ a.alpha = 1 / 2 ∧
      a.eta = 1 / 10 := by
  have hev : (step (constModel 1 1 1) defaults
      (construct 1 (1 / 2) 0 0 (1 / 10) 1 1 1 1 ([0] : Vt) noIterations zeroRng)).map
        (fun r => (r.1, r.2.alpha, r.2.eta)) = some (false, 1 / 2, 1 / 10) := by
    simp [step, assignPhase, initialise, assign, construct, constModel, finish,
      batchLoop, processBatch, RandomNumberGenerator.generateIndex, zeroRng, defaults,
      noIterations, List.range_succ, resize, RandomNumberGenerator.next, List.modify]
    norm_num
  rw [Option.map_eq_some'] at hev
  obtain ⟨⟨flag, s1⟩, hstep, hval⟩ := hev
  simp only [Prod.mk.injEq] at hval
  obtain ⟨hflag, halpha, heta⟩ := hval
  subst hflag
  have hinv := step_runInv hstep
    (construct_runInv 1 (1 / 2) 0 0 (1 / 10) 1 1 1 1 ([0] : Vt) noIterations zeroRng)
  have hcfg := step_config hstep
  obtain ⟨a, ha⟩ := assignPhase_isSome (O := constModel 1 1 1) hinv rfl
    (fun _ => ⟨by rw [hcfg.batchSize]; decide,
      Or.inl (by rw [hcfg.batchSize]; show (1 : Int) ≤ ((1 : Nat) : Int); decide)⟩)
  obtain ⟨_, _, _, h3, h4, h5, _, _⟩ :=
    C20_schedule_survives_reinitialization (constModel 1 1 1) defaults _ s1 a hstep ha
  exact ⟨s1, a, hstep, ha, halpha, heta, h3, by rw [h4, halpha], by rw [h5, heta]⟩

end MBSGD

namespace MBSGD
open Example

/-- Witness for C17: the first batch of the first step on a model with two
parameters, four examples and gradient `(1, 1)`, with `batchSize = 2`. -/
theorem C17_batch_update_witness :
    ∃ a, assignPhase (constModel 2 4 1)
        (construct 1 1 0 0 0 0 2 1 1 ([0, 0] : Vt) defaults zeroRng) = some a ∧
      0 < a.batches.toNat ∧
      (batchLoop (constModel 2 4 1) 1 a).gradient.length = 2 ∧
      (batchLoop (constModel 2 4 1) 1 a).parameters =
        vadd (batchLoop (constModel 2 4 1) 0 a).parameters
          (batchLoop (constModel 2 4 1) 1 a).momentum ∧
      (batchLoop (constModel 2 4 1) 1 a).batchAssignment[0]? = some [] := by
  have hinv := construct_runInv 1 1 0 0 0 0 2 1 1 ([0, 0] : Vt) defaults zeroRng
  obtain ⟨a, ha⟩ := assignPhase_isSome (O := constModel 2 4 1) hinv rfl
    (fun _ => ⟨by decide, Or.inl (by decide)⟩)
  obtain ⟨_, hN, hq, _⟩ := assignPhase_spec ha hinv
  have hN4 : a.N = 4 := hN
  have hbs : a.batchSize = 2 := (assignPhase_config ha).batchSize
  have hb : a.batches = 2 := by rw [hq, hN4, hbs]; decide
  have hk : 0 < a.batches.toNat := by rw [hb]; decide
  have h := C17_batch_update (constModel 2 4 1) defaults 1 1 0 0 0 0 2 ([0, 0] : Vt) defaults
    zeroRng 2 0 0 (construct 1 1 0 0 0 0 2 1 1 ([0, 0] : Vt) defaults zeroRng) a
    (fun _ => rfl) (fun _ _ => by simp [constModel]) rfl ha hk
  exact ⟨a, ha, hk, h.2.1, h.2.2.2.2.1, h.2.2.2.2.2.2.1⟩

end MBSGD

end OpenANN
